import Mathlib

/-!
# astra-network-analytical (congestion-aware backend): cost model and topology building blocks

A shallow embedding of `CostModel.cc`, `Topology.cc`, `FullyConnected.cc` and `Switch.cc`,
followed by a model of the event queue (`EventQueue.hh` declares it) and of the fair-share
link, whose implementations are described by the specification only.

Conventions of the embedding:

* `int` values (`DeviceId`, dimension indices, device counts) are `Int`; the one `int`
  product of two counts, `npus_count * (npus_count - 1)` in
  `FullyConnected::get_topology_cost_block`, is reduced to 32 bits by `wrap_int32`; the
  other `int` expressions (`npus_count + 1`, `2 * npus_count`, the loop indices) stay in
  range for every topology whose devices fit in memory;
* `double` values (`DollarCost`, `Bandwidth`, `Latency`) are rationals `ℚ`. Every function
  that computes a cost comes in two forms: the plain one (`Topology.connect`, ...) computes
  with exact sums and products, so there the literals `7.8` and `31.6` are `78/10` and
  `316/10`; the `_rounded` one (`Topology.connect_rounded`, ...) takes the rounding of the
  arithmetic as a parameter `rnd` and applies it to every table literal and to the result of
  every `double` operation, in the order of the source. With `rnd = id` the second form is
  the first; with `rnd = Binary64.round` it is the IEEE-754 binary64 arithmetic of the
  source (round to nearest, ties to even, each operation rounded on its own, results below
  `2 ^ 1024` in magnitude);
* a function that can hit a failed `assert` returns `Except Fault _`: a failed `assert`
  is `Fault.assertion` (execution terminates), and an unchecked `operator[]` past the end of
  a `std::vector` is `Fault.outOfBounds` (undefined behaviour, no value is produced);
* a `std::shared_ptr<Device>` is the device it points to, identified by its id; the links a
  device owns are kept in the topology as the sequence of `Device::connect` calls made;
* the per-dimension metadata of `Topology` (`dims_count`, `npus_count_per_dim`,
  `topology_per_dim`, `bandwidth_per_dim`, `latency_per_dim`) is not embedded: only getters
  outside this development read it.
-/

namespace NetworkAnalyticalCongestionAware

/-- How a call can fail to produce a value. -/
inductive Fault where
  /-- A failed `assert`: the program terminates. -/
  | assertion
  /-- An unchecked index past the end of a `std::vector`. -/
  | outOfBounds
deriving DecidableEq, Repr

abbrev DollarCost := ℚ
abbrev Bandwidth := ℚ
abbrev Latency := ℚ
abbrev DeviceId := Int

/-! ## CostModel -/

namespace CostModel

/-- The constant `MAX_DIM` of `CostModel.hh`. -/
def MAX_DIM : Int := 4

/-- The type `UnitCosts = std::array<DollarCost, ARRAY_SIZE>` with `ARRAY_SIZE = MAX_DIM + 1`. -/
abbrev UnitCosts := Fin 5 → DollarCost

/-- The type `ResourceCosts = std::array<std::vector<DollarCost>, ARRAY_SIZE>`. -/
abbrev ResourceCosts := Fin 5 → List DollarCost

/-- The table `link_unit_costs` as filled in by the constructor `CostModel::CostModel`. -/
def link_unit_costs : UnitCosts
  | 0 => -1
  | 1 => 2
  | 2 => 4
  | 3 => 4
  | 4 => 78 / 10

/-- The table `switch_unit_costs` as filled in by the constructor. -/
def switch_unit_costs : UnitCosts
  | 0 => -1
  | 1 => -1
  | 2 => 13
  | 3 => 13
  | 4 => 18

/-- The table `nic_unit_costs` as filled in by the constructor. -/
def nic_unit_costs : UnitCosts
  | 0 => -1
  | 1 => -1
  | 2 => -1
  | 3 => -1
  | 4 => 316 / 10

/-- The function `CostModel::initialize_costs`: one vector per `total_dim`, index 0 unused. -/
def initialize_costs (unit_costs : UnitCosts) : ResourceCosts
  | 0 => []
  | 1 => [-1, unit_costs 2]
  | 2 => [-1, unit_costs 2, unit_costs 4]
  | 3 => [-1, unit_costs 2, unit_costs 3, unit_costs 4]
  | 4 => [-1, unit_costs 1, unit_costs 2, unit_costs 3, unit_costs 4]

/-- The member `link_costs` after construction. -/
def link_costs : ResourceCosts := initialize_costs link_unit_costs

/-- The member `switch_costs` after construction. -/
def switch_costs : ResourceCosts := initialize_costs switch_unit_costs

/-- The member `nic_costs` after construction. -/
def nic_costs : ResourceCosts := initialize_costs nic_unit_costs

/-- The function `CostModel::get_resource_cost`: two range assertions, the shape assertion
on the selected vector, then the unchecked read `cost_dim[current_dim]`. -/
def get_resource_cost (resource_costs : ResourceCosts) (current_dim total_dim : Int) :
    Except Fault DollarCost :=
  if ¬ (1 ≤ current_dim ∧ current_dim ≤ MAX_DIM) then .error .assertion
  else if h : ¬ (1 ≤ total_dim ∧ total_dim ≤ MAX_DIM) then .error .assertion
  else
    let cost_dim := resource_costs ⟨total_dim.toNat, by simp [MAX_DIM] at h; omega⟩
    if ¬ ((cost_dim.length : Int) - 1 = total_dim) then .error .assertion
    else
      match cost_dim[current_dim.toNat]? with
      | some cost => .ok cost
      | none => .error .outOfBounds

/-- The function `CostModel::get_link_cost`. -/
def get_link_cost (current_dim total_dim : Int) : Except Fault DollarCost :=
  get_resource_cost link_costs current_dim total_dim

/-- The function `CostModel::get_nic_cost`. -/
def get_nic_cost (current_dim total_dim : Int) : Except Fault DollarCost :=
  get_resource_cost nic_costs current_dim total_dim

/-- The function `CostModel::get_switch_cost`. -/
def get_switch_cost (current_dim total_dim : Int) : Except Fault DollarCost :=
  get_resource_cost switch_costs current_dim total_dim

end CostModel

/-! ## Devices, links and loops -/

/-- A device (`Device`), identified by `Device::get_id`. -/
structure Device where
  id : DeviceId
deriving DecidableEq, Repr

/-- The type `Route`: the devices a chunk traverses, endpoints included. -/
abbrev Route := List Device

/-- One directed link: the call `Device::connect(dest, bandwidth, latency)` made on the
device `src`. -/
structure Link where
  src : DeviceId
  dest : DeviceId
  bandwidth : Bandwidth
  latency : Latency
deriving DecidableEq, Repr

/-- The enumeration `TopologyBuildingBlock`, restricted to the kinds the embedded building
blocks set. -/
inductive TopologyBuildingBlock where
  | FullyConnected
  | Switch
deriving DecidableEq, Repr

/-- A `for` loop over `xs` whose body may fault: the body runs on each element in order and
the loop stops at the first fault. -/
def forEach {α σ : Type} (xs : List α) (body : σ → α → Except Fault σ) (s : σ) :
    Except Fault σ :=
  match xs with
  | [] => .ok s
  | x :: rest =>
    match body s x with
    | .error e => .error e
    | .ok s' => forEach rest body s'

/-- The value of a 32-bit `int` expression whose mathematical result is `x`: `x` itself when
it lies in `-2 ^ 31 .. 2 ^ 31 - 1`, and otherwise the two's-complement wrap-around that the
usual targets produce for an overflowing `int` multiplication (the C++ standard leaves the
overflow undefined). -/
def wrap_int32 (x : Int) : Int :=
  (x + 2147483648) % 4294967296 - 2147483648

/-! ## Topology -/

/-- The state of a `Topology` object: accumulated cost, the two counts, the device registry
and the directed links wired so far (in the order of the `Device::connect` calls). -/
structure Topology where
  topology_cost : DollarCost
  devices_count : Int
  npus_count : Int
  devices : List Device
  links : List Link
deriving DecidableEq, Repr

namespace Topology

/-- The default constructor `Topology::Topology`. -/
def new : Topology :=
  { topology_cost := 0, devices_count := -1, npus_count := -1, devices := [], links := [] }

/-- The function `Topology::get_devices_count`. -/
def get_devices_count (t : Topology) : Except Fault Int :=
  if ¬ (t.devices_count > 0) then .error .assertion
  else if ¬ (t.npus_count > 0) then .error .assertion
  else if ¬ (t.devices_count ≥ t.npus_count) then .error .assertion
  else .ok t.devices_count

/-- The function `Topology::get_npus_count`. -/
def get_npus_count (t : Topology) : Except Fault Int :=
  if ¬ (t.devices_count > 0) then .error .assertion
  else if ¬ (t.npus_count > 0) then .error .assertion
  else if ¬ (t.devices_count ≥ t.npus_count) then .error .assertion
  else .ok t.npus_count

/-- Modelled from the spec: `Device::connect` (`Device.cc` is not among the embedded
sources) "creates the outgoing Link to `neighbor_id`"; here the call made on device `src`
appends the directed link `src -> neighbor_id` to the links wired so far. -/
def device_connect (t : Topology) (src : Device) (neighbor_id : DeviceId)
    (bandwidth : Bandwidth) (latency : Latency) : Topology :=
  { t with links := t.links ++ [⟨src.id, neighbor_id, bandwidth, latency⟩] }

/-- The function `Topology::connect`. -/
def connect (t : Topology) (src dest : Device) (bandwidth : Bandwidth) (latency : Latency)
    (bidirectional : Bool) : Except Fault Topology :=
  match CostModel.get_link_cost 1 1 with
  | .error e => .error e
  | .ok unit_cost =>
    if ¬ (unit_cost > 0) then .error .assertion
    else
      let link_cost := unit_cost * bandwidth
      if ¬ (bandwidth > 0) then .error .assertion
      else if ¬ (latency ≥ 0) then .error .assertion
      else
        let src_id := src.id
        let dest_id := dest.id
        let t1 := t.device_connect src dest_id bandwidth latency
        let t2 := { t1 with topology_cost := t1.topology_cost + link_cost }
        if bidirectional then
          let t3 := t2.device_connect dest src_id bandwidth latency
          .ok { t3 with topology_cost := t3.topology_cost + link_cost }
        else .ok t2

/-- The function `Topology::create_device` (built without `DEBUG`, so the uniqueness
assertion is compiled in): returns the new device and the updated registry. -/
def create_device (t : Topology) (id : DeviceId) : Except Fault (Device × Topology) :=
  if ¬ (t.devices.all fun device => decide (device.id ≠ id)) then .error .assertion
  else
    let new_device : Device := ⟨id⟩
    .ok (new_device, { t with devices := t.devices ++ [new_device] })

/-- The function `Topology::get_topology_cost`. -/
def get_topology_cost (t : Topology) : Except Fault DollarCost :=
  if ¬ (t.topology_cost > 0) then .error .assertion
  else .ok t.topology_cost

end Topology

/-! ## BasicTopology -/

/-- The state of a `BasicTopology`: a `Topology` with one bandwidth, one latency and the
kind of building block. -/
structure BasicTopology extends Topology where
  bandwidth : Bandwidth
  latency : Latency
  basic_topology_type : Option TopologyBuildingBlock
deriving DecidableEq, Repr

namespace BasicTopology

/-- Modelled from the spec: the constructor `BasicTopology(npus_count, devices_count,
bandwidth, latency)` (`BasicTopology.cc` is not among the embedded sources). Per the spec it
records the counts, the bandwidth and the latency and auto-creates the devices
`0 .. devices_count - 1`, here through `Topology::create_device`. -/
def new (npus_count devices_count : Int) (bandwidth : Bandwidth) (latency : Latency) :
    Except Fault BasicTopology :=
  let base : Topology :=
    { Topology.new with npus_count := npus_count, devices_count := devices_count }
  match forEach (List.range devices_count.toNat)
      (fun (t : Topology) (i : Nat) => (t.create_device (i : Int)).map Prod.snd) base with
  | .error e => .error e
  | .ok t =>
    .ok { toTopology := t, bandwidth := bandwidth, latency := latency,
          basic_topology_type := none }

end BasicTopology

/-! ## FullyConnected -/

/-- The state of a `FullyConnected` building block. -/
structure FullyConnected extends BasicTopology
deriving DecidableEq, Repr

namespace FullyConnected

/-- The function `FullyConnected::construct_connections`: one unidirectional `connect` for
every ordered pair of devices with different ids. -/
def construct_connections (t : FullyConnected) : Except Fault FullyConnected :=
  match forEach t.devices
      (fun (top : Topology) (src : Device) =>
        forEach top.devices
          (fun (top : Topology) (dest : Device) =>
            if src.id ≠ dest.id then top.connect src dest t.bandwidth t.latency false
            else .ok top)
          top)
      t.toTopology with
  | .error e => .error e
  | .ok top => .ok { t with toTopology := top }

/-- The constructor `FullyConnected(npus_count, bandwidth, latency)`. -/
def new (npus_count : Int) (bandwidth : Bandwidth) (latency : Latency) :
    Except Fault FullyConnected :=
  match BasicTopology.new npus_count npus_count bandwidth latency with
  | .error e => .error e
  | .ok base =>
    if ¬ (npus_count > 0) then .error .assertion
    else if ¬ (bandwidth > 0) then .error .assertion
    else if ¬ (latency ≥ 0) then .error .assertion
    else
      construct_connections
        { toBasicTopology :=
            { base with basic_topology_type := some TopologyBuildingBlock.FullyConnected } }

/-- The function `FullyConnected::route`. -/
def route (t : FullyConnected) (src dest : DeviceId) : Except Fault Route :=
  if ¬ (0 ≤ src ∧ src < t.npus_count) then .error .assertion
  else if ¬ (0 ≤ dest ∧ dest < t.npus_count) then .error .assertion
  else
    match t.devices[src.toNat]?, t.devices[dest.toNat]? with
    | some s, some d => .ok [s, d]
    | _, _ => .error .outOfBounds

/-- The function `FullyConnected::get_topology_cost_block`. The number of links is the
`int` product `npus_count * (npus_count - 1)`, converted to `double` only afterwards. -/
def get_topology_cost_block (t : FullyConnected) (current_dim total_dim : Int) :
    Except Fault DollarCost :=
  match CostModel.get_link_cost current_dim total_dim with
  | .error e => .error e
  | .ok unit_cost =>
    if ¬ (unit_cost > 0) then .error .assertion
    else
      let link_cost := unit_cost * t.bandwidth
      let links_count : Int := wrap_int32 (t.npus_count * (t.npus_count - 1))
      let cost := link_cost * (links_count : DollarCost)
      .ok cost

end FullyConnected

/-! ## Switch -/

/-- The state of a `Switch` building block: a `BasicTopology` and the switch device. -/
structure Switch extends BasicTopology where
  switch_device : Device
deriving DecidableEq, Repr

namespace Switch

/-- The function `Switch::construct_connections`: a bidirectional `connect` between every
NPU and the switch, then the switch term and, when priced, the NIC term. -/
def construct_connections (t : Switch) : Except Fault Switch :=
  match forEach (List.range t.npus_count.toNat)
      (fun (top : Topology) (i : Nat) =>
        match top.devices[i]? with
        | none => .error .outOfBounds
        | some npu => top.connect npu t.switch_device t.bandwidth t.latency true)
      t.toTopology with
  | .error e => .error e
  | .ok top =>
    match CostModel.get_switch_cost 1 1 with
    | .error e => .error e
    | .ok switch_cost =>
      if ¬ (switch_cost > 0) then .error .assertion
      else
        let top1 := { top with
          topology_cost := top.topology_cost + switch_cost * (t.npus_count : DollarCost) * t.bandwidth }
        match CostModel.get_nic_cost 1 1 with
        | .error e => .error e
        | .ok nic_cost =>
          if nic_cost > 0 then
            .ok { t with toTopology := { top1 with
              topology_cost := top1.topology_cost + nic_cost * (t.npus_count : DollarCost) * t.bandwidth } }
          else .ok { t with toTopology := top1 }

/-- The constructor `Switch(npus_count, bandwidth, latency)`: the base object has
`npus_count + 1` devices and the switch is `devices[npus_count]`. -/
def new (npus_count : Int) (bandwidth : Bandwidth) (latency : Latency) :
    Except Fault Switch :=
  match BasicTopology.new npus_count (npus_count + 1) bandwidth latency with
  | .error e => .error e
  | .ok base =>
    if ¬ (npus_count > 0) then .error .assertion
    else if ¬ (bandwidth > 0) then .error .assertion
    else if ¬ (latency ≥ 0) then .error .assertion
    else
      match base.devices[npus_count.toNat]? with
      | none => .error .outOfBounds
      | some switch_device =>
        construct_connections
          { toBasicTopology :=
              { base with basic_topology_type := some TopologyBuildingBlock.Switch },
            switch_device := switch_device }

/-- The function `Switch::route`. -/
def route (t : Switch) (src dest : DeviceId) : Except Fault Route :=
  if ¬ (0 ≤ src ∧ src < t.npus_count) then .error .assertion
  else if ¬ (0 ≤ dest ∧ dest < t.npus_count) then .error .assertion
  else
    match t.devices[src.toNat]?, t.devices[dest.toNat]? with
    | some s, some d => .ok [s, t.switch_device, d]
    | _, _ => .error .outOfBounds

/-- The function `Switch::get_topology_cost_block`. -/
def get_topology_cost_block (t : Switch) (current_dim total_dim : Int) :
    Except Fault DollarCost :=
  match CostModel.get_link_cost current_dim total_dim with
  | .error e => .error e
  | .ok unit_cost =>
    if ¬ (unit_cost > 0) then .error .assertion
    else
      let link_cost := unit_cost * t.bandwidth
      let links_count : Int := 2 * t.npus_count
      let cost : DollarCost := 0 + link_cost * (links_count : DollarCost)
      match CostModel.get_switch_cost current_dim total_dim with
      | .error e => .error e
      | .ok switch_cost =>
        if ¬ (switch_cost > 0) then .error .assertion
        else
          let cost := cost + switch_cost * (t.npus_count : DollarCost) * t.bandwidth
          match CostModel.get_nic_cost current_dim total_dim with
          | .error e => .error e
          | .ok nic_cost =>
            if nic_cost > 0 then
              .ok (cost + nic_cost * (t.npus_count : DollarCost) * t.bandwidth)
            else .ok cost

end Switch

/-! ## Closed forms of what the constructors build -/

/-- The devices with ids `0 .. k - 1`, in creation order. -/
def devices_upto (k : Nat) : List Device :=
  (List.range k).map fun (i : Nat) => Device.mk (i : Int)

/-- The directed links `src -> dest` for `dest` in `dests` with an id different from that
of `src`, in loop order. -/
def row_links (src : Device) (dests : List Device) (bandwidth : Bandwidth)
    (latency : Latency) : List Link :=
  (dests.filter fun dest => decide (src.id ≠ dest.id)).map fun dest =>
    ⟨src.id, dest.id, bandwidth, latency⟩

/-- The directed links `src -> dest` for `src` in `srcs` and `dest` in `dests` with a
different id, in loop order. -/
def pair_links (srcs dests : List Device) (bandwidth : Bandwidth) (latency : Latency) :
    List Link :=
  srcs.flatMap fun src => row_links src dests bandwidth latency

/-- The directed links `npu -> switch`, `switch -> npu` for the devices `npus`, in loop
order. -/
def switch_links (npus : List Device) (switch_device : Device) (bandwidth : Bandwidth)
    (latency : Latency) : List Link :=
  npus.flatMap fun npu =>
    [⟨npu.id, switch_device.id, bandwidth, latency⟩,
     ⟨switch_device.id, npu.id, bandwidth, latency⟩]

/-- One call of `Topology::connect`: its five arguments. -/
structure ConnectCall where
  src : Device
  dest : Device
  bandwidth : Bandwidth
  latency : Latency
  bidirectional : Bool
deriving DecidableEq, Repr

/-- A sequence of `Topology::connect` calls made one after the other on a topology. -/
def connect_all (calls : List ConnectCall) (t : Topology) : Except Fault Topology :=
  forEach calls
    (fun (top : Topology) (c : ConnectCall) =>
      top.connect c.src c.dest c.bandwidth c.latency c.bidirectional)
    t

/-- The call `Topology::connect(src, dest, bandwidth, latency, false)` that requests exactly
the directed link `k`. -/
def unidirectional_call (k : Link) : ConnectCall :=
  ⟨⟨k.src⟩, ⟨k.dest⟩, k.bandwidth, k.latency, false⟩

/-- The call `Topology::connect(npu, switch, bandwidth, latency, true)`. -/
def bidirectional_call (switch_device : Device) (bandwidth : Bandwidth) (latency : Latency)
    (npu : Device) : ConnectCall :=
  ⟨npu, switch_device, bandwidth, latency, true⟩

/-- Whether the directed link `u -> v` is among the links wired so far, that is, whether
device `u` owns a link to device `v`. -/
def Topology.connected (t : Topology) (u v : Device) : Bool :=
  t.links.any fun k => decide (k.src = u.id ∧ k.dest = v.id)

/-- Whether a chunk can traverse `route` on `t`: every consecutive pair `(u, v)` of devices
of the route is a wired directed link `u -> v`. -/
def Topology.traversable (t : Topology) : Route → Bool
  | u :: v :: rest => t.connected u v && Topology.traversable t (v :: rest)
  | _ => true

/-- A sequence of `Topology::create_device` calls made one after the other on a topology,
keeping the registry and dropping the returned pointers. -/
def create_all (ids : List DeviceId) (t : Topology) : Except Fault Topology :=
  forEach ids (fun (top : Topology) (id : DeviceId) => (top.create_device id).map Prod.snd) t

end NetworkAnalyticalCongestionAware

/-! ## EventQueue -/

namespace NetworkAnalytical

open NetworkAnalyticalCongestionAware (Fault forEach)

/-- Modelled from the spec: `EventTime` (`Type.hh` is not among the embedded sources) is a
"scalar simulated time"; it is an exact rational here. -/
abbrev EventTime := ℚ

/-- Modelled from the spec: an `EventList` (`EventList.hh` is not among the embedded
sources) is "the set of deferred actions registered for one specific EventTime", kept in the
order in which they were scheduled. An action (callback and argument) is a value of `α`. -/
structure EventList (α : Type) where
  event_time : EventTime
  events : List α
deriving DecidableEq, Repr

/-- The members of `EventQueue` declared in `EventQueue.hh`: `current_time` and the list
`event_queue` of `EventList`s, which the spec describes as "an ordered collection of
EventLists keyed by future EventTime". -/
structure EventQueue (α : Type) where
  current_time : EventTime
  event_queue : List (EventList α)
deriving DecidableEq, Repr

namespace EventQueue

/-- Modelled from the spec: the constructor `EventQueue::EventQueue` (`EventQueue.cc` is not
among the embedded sources) starts the simulation at time 0 with nothing pending. -/
def new {α : Type} : EventQueue α :=
  { current_time := 0, event_queue := [] }

/-- Modelled from the spec: `get_current_time()` "returns `current_time`". -/
def get_current_time {α : Type} (q : EventQueue α) : EventTime :=
  q.current_time

/-- Modelled from the spec: `finished()` is "true iff no actions remain anywhere"; per the
header it checks "if the event queue is empty". -/
def finished {α : Type} (q : EventQueue α) : Bool :=
  q.event_queue.isEmpty

/-- Modelled from the spec: the "ordered collection of EventLists keyed by future
EventTime" receives an action: it joins the end of the list already registered for
`event_time` (FIFO within that time), or a new list is placed in time order. -/
def insert_event {α : Type} (event_time : EventTime) (event : α) :
    List (EventList α) → List (EventList α)
  | [] => [⟨event_time, [event]⟩]
  | l :: rest =>
    if l.event_time = event_time then ⟨l.event_time, l.events ++ [event]⟩ :: rest
    else if event_time < l.event_time then ⟨event_time, [event]⟩ :: l :: rest
    else l :: insert_event event_time event rest

/-- Modelled from the spec: `schedule_event(time ≥ current_time, callback, arg)` "registers a
deferred action at `time`; multiple actions may share a time and fire in the order
scheduled". A time before `current_time` violates the precondition. -/
def schedule_event {α : Type} (q : EventQueue α) (event_time : EventTime) (event : α) :
    Except Fault (EventQueue α) :=
  if ¬ (event_time ≥ q.current_time) then .error .assertion
  else .ok { q with event_queue := insert_event event_time event q.event_queue }

/-- Modelled from the spec: `proceed()` has "precondition `!finished()`; advances
`current_time` to the earliest pending EventTime, removes and invokes, in order, every
action registered there"; "violating the precondition is a fatal contract violation". The
result is the queue after the removal and the actions removed, in the order in which they
are invoked. -/
def proceed {α : Type} (q : EventQueue α) : Except Fault (EventQueue α × List α) :=
  match q.event_queue with
  | [] => .error .assertion
  | l :: rest => .ok ({ current_time := l.event_time, event_queue := rest }, l.events)

/-- The actions pending in `q` for the time `event_time`, in the order in which they fire:
the events of the lists of `event_queue` keyed by that time. -/
def pending_at {α : Type} (q : EventQueue α) (event_time : EventTime) : List α :=
  (q.event_queue.filter fun l => decide (l.event_time = event_time)).flatMap fun l => l.events

/-- Modelled from the spec: the invariant of `EventQueue` in the data model, "all keys ≥
current_time; emptied keys are removed", for an "ordered collection" keyed by time: the keys
are strictly increasing, none is before `current_time`, and no list is empty. -/
def WellFormed {α : Type} (q : EventQueue α) : Prop :=
  q.event_queue.Pairwise (fun a b => a.event_time < b.event_time) ∧
  ∀ l ∈ q.event_queue, q.current_time ≤ l.event_time ∧ l.events ≠ []

/-- One call made on an `EventQueue` by a driver: `schedule_event` or `proceed`. -/
inductive Call (α : Type) where
  | schedule_event (event_time : EventTime) (event : α)
  | proceed
deriving DecidableEq, Repr

/-- The effect of one call on the queue (the actions a `proceed` invokes are dropped). -/
def call {α : Type} (q : EventQueue α) : Call α → Except Fault (EventQueue α)
  | .schedule_event event_time event => q.schedule_event event_time event
  | .proceed => q.proceed.map Prod.fst

/-- A sequence of calls made one after the other. -/
def call_all {α : Type} (calls : List (Call α)) (q : EventQueue α) :
    Except Fault (EventQueue α) :=
  forEach calls call q

end EventQueue

end NetworkAnalytical

/-! ## Link: fair-share admission and departure -/

namespace NetworkAnalyticalCongestionAware

open NetworkAnalytical

/-- The identity of a chunk in flight (a `Chunk` object; `Chunk.cc` is not among the embedded
sources). -/
abbrev ChunkId := Nat

/-- The size of a chunk and the bytes it still has to transfer. -/
abbrev ChunkSize := ℚ

/-- Modelled from the spec: one element of "the set of currently-active chunk-transfers
sharing" a link, with its mutable `bytes_remaining`. -/
structure ActiveChunk where
  chunk : ChunkId
  bytes_remaining : ChunkSize
deriving DecidableEq, Repr

/-- Modelled from the spec: the state of a `Link` object (`Link.cc` is not among the embedded
sources; the record `Link` above is the wiring of one directed link). A link has a
"fixed `bandwidth`", "the set of currently-active chunk-transfers sharing it, and the
simulated time its bookkeeping was last recomputed"; `rate` is "the link's previous equal
rate" and `generation` the "version/generation" tag of the completions scheduled last. The
claims about the link take latency 0 and start at admission, so the one-time latency delay
before admission is not part of the model. -/
structure LinkState where
  bandwidth : Bandwidth
  active : List ActiveChunk
  rate : Bandwidth
  last_recompute_time : EventTime
  generation : Nat
deriving DecidableEq, Repr

/-- Modelled from the spec: the deferred actions (callback and argument) of a simulation of
one link, as data: the arrival of a chunk of a given size at the link, and the "completion
action" of a chunk, tagged with the generation under which it was scheduled. -/
inductive LinkEvent where
  | arrival (chunk : ChunkId) (size : ChunkSize)
  | completion (chunk : ChunkId) (generation : Nat)
deriving DecidableEq, Repr

/-- Modelled from the spec: everything a simulation of one link touches: the event queue, the
link, and the completion callbacks of chunks fired so far, as pairs of chunk and firing
time. -/
structure LinkSimulation where
  event_queue : EventQueue LinkEvent
  link : LinkState
  completed : List (ChunkId × EventTime)
deriving DecidableEq, Repr

namespace LinkState

/-- Modelled from the spec, admission step 1: "for every currently active chunk, subtract
`(current_time − last_recompute_time) × previous_per_chunk_rate` from its
`bytes_remaining`, using the link's previous equal rate." -/
def freeze (link : LinkState) (current_time : EventTime) : LinkState :=
  { link with
    active := link.active.map fun c =>
      { c with bytes_remaining :=
          c.bytes_remaining - (current_time - link.last_recompute_time) * link.rate } }

/-- Modelled from the spec, admission steps 3 to 5: "recompute
`new_rate = bandwidth / |active set|`", for every active chunk schedule a completion at
`current_time + bytes_remaining / new_rate` under a new generation, which supersedes the
completions scheduled before, and "set `last_recompute_time = current_time`". -/
def recompute (sim : LinkSimulation) : Except Fault LinkSimulation :=
  let current_time := sim.event_queue.get_current_time
  let new_rate := sim.link.bandwidth / (sim.link.active.length : Bandwidth)
  let generation := sim.link.generation + 1
  match forEach sim.link.active
      (fun (q : EventQueue LinkEvent) (c : ActiveChunk) =>
        q.schedule_event (current_time + c.bytes_remaining / new_rate)
          (LinkEvent.completion c.chunk generation))
      sim.event_queue with
  | .error e => .error e
  | .ok q =>
    .ok { sim with
      event_queue := q,
      link := { sim.link with
        rate := new_rate, last_recompute_time := current_time, generation := generation } }

/-- Modelled from the spec, "Admission (chunk arrives at a link)": freeze the bookkeeping,
add the new chunk to the active set, recompute the rate and reschedule every completion. -/
def admission (sim : LinkSimulation) (chunk : ChunkId) (size : ChunkSize) :
    Except Fault LinkSimulation :=
  let frozen := sim.link.freeze sim.event_queue.get_current_time
  recompute { sim with link := { frozen with active := frozen.active ++ [⟨chunk, size⟩] } }

/-- Modelled from the spec, "Departure (a scheduled completion action fires)": a completion
whose generation is not the link's current one, or whose chunk is not active, is stale and
discarded silently; otherwise the chunk leaves the active set, the remaining chunks are
frozen at the previous rate and rescheduled at the new one, and the completed chunk, whose
route ends here, fires its completion callback. -/
def departure (sim : LinkSimulation) (chunk : ChunkId) (generation : Nat) :
    Except Fault LinkSimulation :=
  if ¬ (generation = sim.link.generation ∧ sim.link.active.any fun c => c.chunk = chunk) then
    .ok sim
  else
    let current_time := sim.event_queue.get_current_time
    let remaining :=
      { sim.link with active := sim.link.active.filter fun c => decide (c.chunk ≠ chunk) }
    match recompute { sim with link := remaining.freeze current_time } with
    | .error e => .error e
    | .ok sim' => .ok { sim' with completed := sim'.completed ++ [(chunk, current_time)] }

end LinkState

namespace LinkSimulation

/-- Modelled from the spec: the callback of an event, run at the queue's current time: an
arrival is an admission, a completion action is a departure. -/
def invoke (sim : LinkSimulation) : LinkEvent → Except Fault LinkSimulation
  | .arrival chunk size => LinkState.admission sim chunk size
  | .completion chunk generation => LinkState.departure sim chunk generation

/-- Modelled from the spec: one `EventQueue::proceed` of the simulation: the queue advances
and "removes and invokes, in order, every action registered" at the new current time. -/
def proceed (sim : LinkSimulation) : Except Fault LinkSimulation :=
  match sim.event_queue.proceed with
  | .error e => .error e
  | .ok (q, events) => forEach events invoke { sim with event_queue := q }

/-- Modelled from the spec: the driver loop `while (!finished()) proceed();`, cut off after
`fuel` iterations. -/
def run : Nat → LinkSimulation → Except Fault LinkSimulation
  | 0, sim => .ok sim
  | fuel + 1, sim =>
    if sim.event_queue.finished then .ok sim
    else
      match sim.proceed with
      | .error e => .error e
      | .ok sim' => run fuel sim'

/-- An idle link of the given bandwidth at time 0 with the given arrivals
`(time, chunk, size)` scheduled in order. -/
def start (bandwidth : Bandwidth) (arrivals : List (EventTime × ChunkId × ChunkSize)) :
    Except Fault LinkSimulation :=
  match forEach arrivals
      (fun (q : EventQueue LinkEvent) (a : EventTime × ChunkId × ChunkSize) =>
        q.schedule_event a.1 (LinkEvent.arrival a.2.1 a.2.2))
      EventQueue.new with
  | .error e => .error e
  | .ok q =>
    .ok { event_queue := q,
          link := { bandwidth := bandwidth, active := [], rate := 0,
                    last_recompute_time := 0, generation := 0 },
          completed := [] }

end LinkSimulation

/-! ## Double arithmetic -/

namespace Binary64

/-- The rational `2 ^ e` for an integer exponent `e`. -/
def pow2 (e : Int) : ℚ :=
  if 0 ≤ e then ((2 ^ e.toNat : Nat) : ℚ) else 1 / ((2 ^ (-e).toNat : Nat) : ℚ)

/-- The number of halvings that bring `n` below 2, counted with at most `fuel` steps. -/
def log2_fuel : Nat → Nat → Nat
  | 0, _ => 0
  | fuel + 1, n => if 2 ≤ n then log2_fuel fuel (n / 2) + 1 else 0

/-- The integer part of the binary logarithm of `n` (0 for `n = 0`). -/
def log2 (n : Nat) : Nat := log2_fuel n n

/-- The binary exponent of a positive rational `x`: the `e` with `2 ^ e ≤ x < 2 ^ (e + 1)`. -/
def exponent (x : ℚ) : Int :=
  let e0 : Int := (log2 x.num.natAbs : Int) - (log2 x.den : Int)
  if pow2 e0 ≤ x then e0 else e0 - 1

/-- The integer nearest to `m`; a value half-way between two integers goes to the even one. -/
def round_half_even (m : ℚ) : Int :=
  let f : Int := Rat.floor m
  let r : ℚ := m - (f : ℚ)
  if r < 1 / 2 then f
  else if 1 / 2 < r then f + 1
  else if f % 2 = 0 then f
  else f + 1

/-- The IEEE-754 binary64 value nearest to `x`, ties to even: the result of a `double`
operation whose exact result is `x`. The significand has 53 bits and the exponent is at
least `-1022` (below it the spacing of the subnormal numbers is kept). Results of magnitude
`2 ^ 1024` and more, which the format turns into an infinity, are outside this function. -/
def round (x : ℚ) : ℚ :=
  if x = 0 then 0
  else
    let a : ℚ := if x < 0 then -x else x
    let e : Int := max (exponent a) (-1022)
    let ulp : ℚ := pow2 (e - 52)
    let r : ℚ := (round_half_even (a / ulp) : ℚ) * ulp
    if x < 0 then -r else r

end Binary64

/-! ## The cost computations with rounded arithmetic

The functions of the source that compute a `double`, once more, with the rounding `rnd` of
the arithmetic made explicit: a table literal is stored as `rnd literal`, and each sum and
each product is `rnd` of its exact value. The conversion of an `int` count to `double` is
exact. Everything that is not arithmetic is as in the plain forms above. -/

namespace Topology

/-- The function `Topology::connect`, its `double` operations rounded by `rnd`:
`link_cost *= bandwidth` is one rounded product and each `topology_cost += link_cost` is one
rounded sum. -/
def connect_rounded (rnd : ℚ → ℚ) (t : Topology) (src dest : Device) (bandwidth : Bandwidth)
    (latency : Latency) (bidirectional : Bool) : Except Fault Topology :=
  match CostModel.get_link_cost 1 1 with
  | .error e => .error e
  | .ok literal =>
    let unit_cost := rnd literal
    if ¬ (unit_cost > 0) then .error .assertion
    else
      let link_cost := rnd (unit_cost * bandwidth)
      if ¬ (bandwidth > 0) then .error .assertion
      else if ¬ (latency ≥ 0) then .error .assertion
      else
        let src_id := src.id
        let dest_id := dest.id
        let t1 := t.device_connect src dest_id bandwidth latency
        let t2 := { t1 with topology_cost := rnd (t1.topology_cost + link_cost) }
        if bidirectional then
          let t3 := t2.device_connect dest src_id bandwidth latency
          .ok { t3 with topology_cost := rnd (t3.topology_cost + link_cost) }
        else .ok t2

end Topology

namespace FullyConnected

/-- The function `FullyConnected::construct_connections` over `Topology.connect_rounded`. -/
def construct_connections_rounded (rnd : ℚ → ℚ) (t : FullyConnected) :
    Except Fault FullyConnected :=
  match forEach t.devices
      (fun (top : Topology) (src : Device) =>
        forEach top.devices
          (fun (top : Topology) (dest : Device) =>
            if src.id ≠ dest.id then
              top.connect_rounded rnd src dest t.bandwidth t.latency false
            else .ok top)
          top)
      t.toTopology with
  | .error e => .error e
  | .ok top => .ok { t with toTopology := top }

/-- The constructor `FullyConnected(npus_count, bandwidth, latency)` over
`construct_connections_rounded`. -/
def new_rounded (rnd : ℚ → ℚ) (npus_count : Int) (bandwidth : Bandwidth)
    (latency : Latency) : Except Fault FullyConnected :=
  match BasicTopology.new npus_count npus_count bandwidth latency with
  | .error e => .error e
  | .ok base =>
    if ¬ (npus_count > 0) then .error .assertion
    else if ¬ (bandwidth > 0) then .error .assertion
    else if ¬ (latency ≥ 0) then .error .assertion
    else
      construct_connections_rounded rnd
        { toBasicTopology :=
            { base with basic_topology_type := some TopologyBuildingBlock.FullyConnected } }

/-- The function `FullyConnected::get_topology_cost_block`, its `double` operations rounded
by `rnd`: `link_cost *= bandwidth` and `link_cost * links_count` are one rounded product
each. -/
def get_topology_cost_block_rounded (rnd : ℚ → ℚ) (t : FullyConnected)
    (current_dim total_dim : Int) : Except Fault DollarCost :=
  match CostModel.get_link_cost current_dim total_dim with
  | .error e => .error e
  | .ok literal =>
    let unit_cost := rnd literal
    if ¬ (unit_cost > 0) then .error .assertion
    else
      let link_cost := rnd (unit_cost * t.bandwidth)
      let links_count : Int := wrap_int32 (t.npus_count * (t.npus_count - 1))
      let cost := rnd (link_cost * (links_count : DollarCost))
      .ok cost

end FullyConnected

namespace Switch

/-- The function `Switch::construct_connections` over `Topology.connect_rounded`; in
`topology_cost += switch_cost * npus_count * bandwidth` the two products and the sum are
rounded one after the other, and likewise for the NIC term. -/
def construct_connections_rounded (rnd : ℚ → ℚ) (t : Switch) : Except Fault Switch :=
  match forEach (List.range t.npus_count.toNat)
      (fun (top : Topology) (i : Nat) =>
        match top.devices[i]? with
        | none => .error .outOfBounds
        | some npu => top.connect_rounded rnd npu t.switch_device t.bandwidth t.latency true)
      t.toTopology with
  | .error e => .error e
  | .ok top =>
    match CostModel.get_switch_cost 1 1 with
    | .error e => .error e
    | .ok switch_literal =>
      let switch_cost := rnd switch_literal
      if ¬ (switch_cost > 0) then .error .assertion
      else
        let top1 := { top with
          topology_cost :=
            rnd (top.topology_cost
              + rnd (rnd (switch_cost * (t.npus_count : DollarCost)) * t.bandwidth)) }
        match CostModel.get_nic_cost 1 1 with
        | .error e => .error e
        | .ok nic_literal =>
          let nic_cost := rnd nic_literal
          if nic_cost > 0 then
            .ok { t with toTopology := { top1 with
              topology_cost :=
                rnd (top1.topology_cost
                  + rnd (rnd (nic_cost * (t.npus_count : DollarCost)) * t.bandwidth)) } }
          else .ok { t with toTopology := top1 }

/-- The constructor `Switch(npus_count, bandwidth, latency)` over
`construct_connections_rounded`. -/
def new_rounded (rnd : ℚ → ℚ) (npus_count : Int) (bandwidth : Bandwidth)
    (latency : Latency) : Except Fault Switch :=
  match BasicTopology.new npus_count (npus_count + 1) bandwidth latency with
  | .error e => .error e
  | .ok base =>
    if ¬ (npus_count > 0) then .error .assertion
    else if ¬ (bandwidth > 0) then .error .assertion
    else if ¬ (latency ≥ 0) then .error .assertion
    else
      match base.devices[npus_count.toNat]? with
      | none => .error .outOfBounds
      | some switch_device =>
        construct_connections_rounded rnd
          { toBasicTopology :=
              { base with basic_topology_type := some TopologyBuildingBlock.Switch },
            switch_device := switch_device }

/-- The function `Switch::get_topology_cost_block`, its `double` operations rounded by
`rnd`: `cost` starts at `0.0`, and each `cost += ...` is a rounded sum of the rounded
products of its right-hand side. -/
def get_topology_cost_block_rounded (rnd : ℚ → ℚ) (t : Switch)
    (current_dim total_dim : Int) : Except Fault DollarCost :=
  match CostModel.get_link_cost current_dim total_dim with
  | .error e => .error e
  | .ok literal =>
    let unit_cost := rnd literal
    if ¬ (unit_cost > 0) then .error .assertion
    else
      let link_cost := rnd (unit_cost * t.bandwidth)
      let links_count : Int := 2 * t.npus_count
      let cost : DollarCost := rnd (0 + rnd (link_cost * (links_count : DollarCost)))
      match CostModel.get_switch_cost current_dim total_dim with
      | .error e => .error e
      | .ok switch_literal =>
        let switch_cost := rnd switch_literal
        if ¬ (switch_cost > 0) then .error .assertion
        else
          let cost :=
            rnd (cost + rnd (rnd (switch_cost * (t.npus_count : DollarCost)) * t.bandwidth))
          match CostModel.get_nic_cost current_dim total_dim with
          | .error e => .error e
          | .ok nic_literal =>
            let nic_cost := rnd nic_literal
            if nic_cost > 0 then
              .ok (rnd (cost
                + rnd (rnd (nic_cost * (t.npus_count : DollarCost)) * t.bandwidth)))
            else .ok cost

end Switch

/-- The rounding `rnd` leaves the integers `-1 .. bound` and their products with `unit` as
they are: a `double` operation whose exact result is one of these values incurs no rounding
error. With `rnd = id` this holds for every `unit` and `bound`. -/
def exact_upto (rnd : ℚ → ℚ) (unit : ℚ) (bound : Int) : Prop :=
  ∀ z : Int, -1 ≤ z → z ≤ bound → rnd (z : ℚ) = (z : ℚ) ∧ rnd (unit * (z : ℚ)) = unit * (z : ℚ)

/-! ## Facts about the cost tables -/

namespace CostModel

/-- The link price table on the pairs `1 ≤ current_dim ≤ total_dim ≤ 4`. -/
def link_price (current_dim total_dim : Int) : DollarCost :=
  if total_dim = 4 ∧ current_dim = 1 then 2
  else if current_dim = total_dim ∧ 2 ≤ total_dim then 78 / 10
  else 4

/-- The switch price table on the pairs `1 ≤ current_dim ≤ total_dim ≤ 4`. -/
def switch_price (current_dim total_dim : Int) : DollarCost :=
  if total_dim = 4 ∧ current_dim = 1 then -1
  else if current_dim = total_dim ∧ 2 ≤ total_dim then 18
  else 13

/-- The NIC price table on the pairs `1 ≤ current_dim ≤ total_dim ≤ 4`. -/
def nic_price (current_dim total_dim : Int) : DollarCost :=
  if current_dim = total_dim ∧ 2 ≤ total_dim then 316 / 10 else -1

theorem get_link_cost_eq (current_dim total_dim : Int) (h1 : 1 ≤ current_dim)
    (h2 : current_dim ≤ total_dim) (h3 : total_dim ≤ 4) :
    get_link_cost current_dim total_dim = .ok (link_price current_dim total_dim) := by
  have h0 : 1 ≤ total_dim := le_trans h1 h2
  interval_cases total_dim <;> interval_cases current_dim <;> rfl

theorem get_switch_cost_eq (current_dim total_dim : Int) (h1 : 1 ≤ current_dim)
    (h2 : current_dim ≤ total_dim) (h3 : total_dim ≤ 4) :
    get_switch_cost current_dim total_dim = .ok (switch_price current_dim total_dim) := by
  have h0 : 1 ≤ total_dim := le_trans h1 h2
  interval_cases total_dim <;> interval_cases current_dim <;> rfl

theorem get_nic_cost_eq (current_dim total_dim : Int) (h1 : 1 ≤ current_dim)
    (h2 : current_dim ≤ total_dim) (h3 : total_dim ≤ 4) :
    get_nic_cost current_dim total_dim = .ok (nic_price current_dim total_dim) := by
  have h0 : 1 ≤ total_dim := le_trans h1 h2
  interval_cases total_dim <;> interval_cases current_dim <;> rfl

theorem link_price_pos (current_dim total_dim : Int) :
    0 < link_price current_dim total_dim := by
  unfold link_price
  split_ifs <;> norm_num

end CostModel

/-- A successful lookup in a table built by `initialize_costs` has
`1 ≤ current_dim ≤ total_dim ≤ 4`. -/
theorem CostModel.get_resource_cost_ok_range (unit_costs : CostModel.UnitCosts)
    (current_dim total_dim : Int) (cost : DollarCost)
    (h : CostModel.get_resource_cost (CostModel.initialize_costs unit_costs)
      current_dim total_dim = .ok cost) :
    1 ≤ current_dim ∧ current_dim ≤ total_dim ∧ total_dim ≤ 4 := by
  unfold CostModel.get_resource_cost at h
  simp only [CostModel.MAX_DIM] at h
  split_ifs at h with hc ht hs
  obtain ⟨ht1, ht2⟩ := ht
  obtain ⟨hc1, hc2⟩ := hc
  refine ⟨hc1, ?_, ht2⟩
  by_contra hlt
  interval_cases total_dim <;> interval_cases current_dim <;>
    first
    | omega
    | (simp [CostModel.initialize_costs] at h)

/-! ## FullyConnected and Switch cost blocks -/

/-- C4: for every Switch topology with `n` NPUs and bandwidth `b` and every
`(current_dim, total_dim)` whose link and switch unit costs are positive, the NIC lookup
succeeds and `get_topology_cost_block` returns
`link_cost * b * 2n + switch_cost * n * b`, plus `nic_cost * n * b` when `nic_cost > 0`
and nothing otherwise. -/
theorem Switch.get_topology_cost_block_terms (t : Switch) (current_dim total_dim : Int)
    (link_cost switch_cost : DollarCost)
    (hl : CostModel.get_link_cost current_dim total_dim = .ok link_cost)
    (hlp : 0 < link_cost)
    (hs : CostModel.get_switch_cost current_dim total_dim = .ok switch_cost)
    (hsp : 0 < switch_cost) :
    ∃ nic_cost : DollarCost,
      CostModel.get_nic_cost current_dim total_dim = .ok nic_cost ∧
      t.get_topology_cost_block current_dim total_dim
        = .ok (link_cost * t.bandwidth * (2 * (t.npus_count : DollarCost))
            + switch_cost * (t.npus_count : DollarCost) * t.bandwidth
            + (if 0 < nic_cost then nic_cost * (t.npus_count : DollarCost) * t.bandwidth
               else 0)) := by
  obtain ⟨h1, h2, h3⟩ := CostModel.get_resource_cost_ok_range _ _ _ _ hl
  refine ⟨CostModel.nic_price current_dim total_dim,
    CostModel.get_nic_cost_eq current_dim total_dim h1 h2 h3, ?_⟩
  simp only [Switch.get_topology_cost_block, hl, hs,
    CostModel.get_nic_cost_eq current_dim total_dim h1 h2 h3]
  rw [if_neg (not_not.mpr hlp), if_neg (not_not.mpr hsp)]
  by_cases hn : 0 < CostModel.nic_price current_dim total_dim
  · rw [if_pos hn, if_pos hn]
    congr 1
    push_cast
    ring
  · rw [if_neg hn, if_neg hn]
    congr 1
    push_cast
    ring

/-- C4, at a Switch with 2 NPUs and bandwidth 10, dimension 2 of 2, where the NIC is
priced. -/
theorem Switch.get_topology_cost_block_terms_witness :
    (CostModel.get_link_cost 2 2 = .ok (78 / 10) ∧ (0 : DollarCost) < 78 / 10 ∧
      CostModel.get_switch_cost 2 2 = .ok 18 ∧ (0 : DollarCost) < 18) ∧
    ∃ nic_cost : DollarCost,
      CostModel.get_nic_cost 2 2 = .ok nic_cost ∧
      Switch.get_topology_cost_block
          ⟨⟨⟨0, 3, 2, [⟨0⟩, ⟨1⟩, ⟨2⟩], []⟩, 10, 1, none⟩, ⟨2⟩⟩ 2 2
        = .ok (78 / 10 * 10 * (2 * ((2 : Int) : DollarCost))
            + 18 * ((2 : Int) : DollarCost) * 10
            + (if 0 < nic_cost then nic_cost * ((2 : Int) : DollarCost) * 10 else 0)) :=
  ⟨⟨rfl, by norm_num, rfl, by norm_num⟩,
    Switch.get_topology_cost_block_terms
      ⟨⟨⟨0, 3, 2, [⟨0⟩, ⟨1⟩, ⟨2⟩], []⟩, 10, 1, none⟩, ⟨2⟩⟩ 2 2 (78 / 10) 18
      rfl (by norm_num) rfl (by norm_num)⟩

/-- C5, as stated, fails: at `(current_dim, total_dim) = (1, 4)` the switch unit cost is the
sentinel `-1` and `Switch::get_topology_cost_block` stops at `assert(switch_cost > 0)`
instead of returning the link term. -/
theorem Switch.get_topology_cost_block_1_4_asserts :
    CostModel.get_switch_cost 1 4 = .ok (-1) ∧
    Switch.get_topology_cost_block
        ⟨⟨⟨0, 3, 2, [⟨0⟩, ⟨1⟩, ⟨2⟩], []⟩, 10, 1, none⟩, ⟨2⟩⟩ 1 4
      = .error Fault.assertion := by
  refine ⟨rfl, ?_⟩
  simp [Switch.get_topology_cost_block, CostModel.get_link_cost_eq, CostModel.get_switch_cost_eq,
    CostModel.link_price, CostModel.switch_price]

/-- C5, amended: for `1 ≤ current_dim ≤ total_dim ≤ 4` the three lookups succeed and the link
unit cost is positive; the switch unit cost is negative exactly at `(1, 4)`, and there the
call is a fatal assertion failure; everywhere else a non-positive NIC unit cost means the
NIC term is skipped and the call returns the link term plus the switch term, and a positive
one adds the NIC term. -/
theorem Switch.get_topology_cost_block_sentinels (t : Switch) (current_dim total_dim : Int)
    (h1 : 1 ≤ current_dim) (h2 : current_dim ≤ total_dim) (h3 : total_dim ≤ 4) :
    ∃ link_cost switch_cost nic_cost : DollarCost,
      CostModel.get_link_cost current_dim total_dim = .ok link_cost ∧
      CostModel.get_switch_cost current_dim total_dim = .ok switch_cost ∧
      CostModel.get_nic_cost current_dim total_dim = .ok nic_cost ∧
      0 < link_cost ∧
      (switch_cost < 0 ↔ (current_dim = 1 ∧ total_dim = 4)) ∧
      (switch_cost < 0 →
        t.get_topology_cost_block current_dim total_dim = .error Fault.assertion) ∧
      (¬ switch_cost < 0 → nic_cost ≤ 0 →
        t.get_topology_cost_block current_dim total_dim
          = .ok (link_cost * t.bandwidth * (2 * (t.npus_count : DollarCost))
              + switch_cost * (t.npus_count : DollarCost) * t.bandwidth)) ∧
      (¬ switch_cost < 0 → 0 < nic_cost →
        t.get_topology_cost_block current_dim total_dim
          = .ok (link_cost * t.bandwidth * (2 * (t.npus_count : DollarCost))
              + switch_cost * (t.npus_count : DollarCost) * t.bandwidth
              + nic_cost * (t.npus_count : DollarCost) * t.bandwidth)) := by
  have hl := CostModel.get_link_cost_eq current_dim total_dim h1 h2 h3
  have hs := CostModel.get_switch_cost_eq current_dim total_dim h1 h2 h3
  have hn := CostModel.get_nic_cost_eq current_dim total_dim h1 h2 h3
  have hlp := CostModel.link_price_pos current_dim total_dim
  have hsw : CostModel.switch_price current_dim total_dim < 0 ↔
      (current_dim = 1 ∧ total_dim = 4) := by
    unfold CostModel.switch_price
    constructor
    · intro h
      split_ifs at h with ha hb
      · exact ⟨ha.2, ha.1⟩
      · norm_num at h
      · norm_num at h
    · rintro ⟨ha, hb⟩
      rw [if_pos ⟨hb, ha⟩]
      norm_num
  have hsp : ¬ CostModel.switch_price current_dim total_dim < 0 →
      0 < CostModel.switch_price current_dim total_dim := by
    intro h
    unfold CostModel.switch_price at h ⊢
    split_ifs at h ⊢ with ha hb
    · norm_num at h
    · norm_num
    · norm_num
  refine ⟨_, _, _, hl, hs, hn, hlp, hsw, ?_, ?_, ?_⟩
  · intro hneg
    simp only [Switch.get_topology_cost_block, hl, hs]
    rw [if_neg (not_not.mpr hlp), if_pos (not_lt.mpr (le_of_lt hneg))]
  · intro hpos hnic
    simp only [Switch.get_topology_cost_block, hl, hs, hn]
    rw [if_neg (not_not.mpr hlp), if_neg (not_not.mpr (hsp hpos)), if_neg (not_lt.mpr hnic)]
    congr 1
    push_cast
    ring
  · intro hpos hnic
    simp only [Switch.get_topology_cost_block, hl, hs, hn]
    rw [if_neg (not_not.mpr hlp), if_neg (not_not.mpr (hsp hpos)), if_pos hnic]
    congr 1
    push_cast
    ring

/-- C5 amended, at a Switch with 2 NPUs and bandwidth 10, dimension 1 of 4. -/
theorem Switch.get_topology_cost_block_sentinels_witness :
    ((1 : Int) ≤ 1 ∧ (1 : Int) ≤ 4 ∧ (4 : Int) ≤ 4) ∧
    ∃ link_cost switch_cost nic_cost : DollarCost,
      CostModel.get_link_cost 1 4 = .ok link_cost ∧
      CostModel.get_switch_cost 1 4 = .ok switch_cost ∧
      CostModel.get_nic_cost 1 4 = .ok nic_cost ∧
      0 < link_cost ∧
      (switch_cost < 0 ↔ ((1 : Int) = 1 ∧ (4 : Int) = 4)) ∧
      (switch_cost < 0 →
        Switch.get_topology_cost_block
            ⟨⟨⟨0, 3, 2, [⟨0⟩, ⟨1⟩, ⟨2⟩], []⟩, 10, 1, none⟩, ⟨2⟩⟩ 1 4
          = .error Fault.assertion) ∧
      (¬ switch_cost < 0 → nic_cost ≤ 0 →
        Switch.get_topology_cost_block
            ⟨⟨⟨0, 3, 2, [⟨0⟩, ⟨1⟩, ⟨2⟩], []⟩, 10, 1, none⟩, ⟨2⟩⟩ 1 4
          = .ok (link_cost * 10 * (2 * ((2 : Int) : DollarCost))
              + switch_cost * ((2 : Int) : DollarCost) * 10)) ∧
      (¬ switch_cost < 0 → 0 < nic_cost →
        Switch.get_topology_cost_block
            ⟨⟨⟨0, 3, 2, [⟨0⟩, ⟨1⟩, ⟨2⟩], []⟩, 10, 1, none⟩, ⟨2⟩⟩ 1 4
          = .ok (link_cost * 10 * (2 * ((2 : Int) : DollarCost))
              + switch_cost * ((2 : Int) : DollarCost) * 10
              + nic_cost * ((2 : Int) : DollarCost) * 10)) :=
  ⟨by decide,
    Switch.get_topology_cost_block_sentinels
      ⟨⟨⟨0, 3, 2, [⟨0⟩, ⟨1⟩, ⟨2⟩], []⟩, 10, 1, none⟩, ⟨2⟩⟩ 1 4
      (by decide) (by decide) (by decide)⟩

/-! ## Topology::connect -/

/-- The unit price used by `Topology::connect`. -/
theorem CostModel.get_link_cost_1_1 : CostModel.get_link_cost 1 1 = .ok 4 := rfl

/-- What `Topology::connect` does when its bandwidth and latency are valid. -/
theorem Topology.connect_eq (t : Topology) (src dest : Device) (bandwidth : Bandwidth)
    (latency : Latency) (bidirectional : Bool) (hb : 0 < bandwidth) (hl : 0 ≤ latency) :
    t.connect src dest bandwidth latency bidirectional
      = .ok { t with
          topology_cost :=
            t.topology_cost + (if bidirectional then 2 * (4 * bandwidth) else 4 * bandwidth),
          links := t.links ++
            (if bidirectional then
              [⟨src.id, dest.id, bandwidth, latency⟩, ⟨dest.id, src.id, bandwidth, latency⟩]
            else [⟨src.id, dest.id, bandwidth, latency⟩]) } := by
  simp only [Topology.connect, CostModel.get_link_cost_1_1, Topology.device_connect]
  rw [if_neg (by norm_num), if_neg (not_not.mpr hb), if_neg (not_not.mpr hl)]
  cases bidirectional
  · simp
  · simp only [if_true, List.append_assoc, List.singleton_append]
    congr 2
    ring

/-! ## CostModel lookups -/

/-- C7, the failing input: `get_link_cost(2, 1)`, `get_switch_cost(2, 1)` and
`get_nic_cost(2, 1)` pass both range assertions and the shape assertion and then read
index 2 of a vector of two elements. -/
theorem CostModel.get_resource_cost_2_1_out_of_bounds :
    CostModel.get_link_cost 2 1 = .error Fault.outOfBounds ∧
    CostModel.get_switch_cost 2 1 = .error Fault.outOfBounds ∧
    CostModel.get_nic_cost 2 1 = .error Fault.outOfBounds ∧
    (CostModel.link_costs 1).length = 2 :=
  ⟨rfl, rfl, rfl, rfl⟩

/-- C8, as stated, fails: `get_switch_cost(1, 4)` is the sentinel `-1`. -/
theorem CostModel.get_switch_cost_1_4_negative :
    ((1 : Int) ≤ 1 ∧ (1 : Int) ≤ 4 ∧ (4 : Int) ≤ 4) ∧
    CostModel.get_switch_cost 1 4 = .ok (-1) ∧
    ¬ ∃ cost : DollarCost, CostModel.get_switch_cost 1 4 = .ok cost ∧ 0 < cost := by
  refine ⟨by decide, rfl, ?_⟩
  rintro ⟨cost, h, hpos⟩
  have h' : CostModel.get_switch_cost 1 4 = .ok (-1) := rfl
  rw [h'] at h
  injection h with h
  rw [← h] at hpos
  norm_num at hpos

/-- C8, amended: for `1 ≤ current_dim ≤ total_dim ≤ 4`, `get_switch_cost` returns a value
that is strictly positive unless `(current_dim, total_dim) = (1, 4)`, where it is the
sentinel `-1`. -/
theorem CostModel.get_switch_cost_pos_except_1_4 (current_dim total_dim : Int)
    (h1 : 1 ≤ current_dim) (h2 : current_dim ≤ total_dim) (h3 : total_dim ≤ 4) :
    ∃ cost : DollarCost,
      CostModel.get_switch_cost current_dim total_dim = .ok cost ∧
      (¬ (current_dim = 1 ∧ total_dim = 4) → 0 < cost) ∧
      ((current_dim = 1 ∧ total_dim = 4) → cost = -1) := by
  refine ⟨_, CostModel.get_switch_cost_eq current_dim total_dim h1 h2 h3, ?_, ?_⟩
  · intro h
    unfold CostModel.switch_price
    split_ifs with ha hb
    · exact absurd ⟨ha.2, ha.1⟩ h
    · norm_num
    · norm_num
  · rintro ⟨ha, hb⟩
    unfold CostModel.switch_price
    rw [if_pos ⟨hb, ha⟩]

/-- C8 amended, at dimension 2 of 4. -/
theorem CostModel.get_switch_cost_pos_except_1_4_witness :
    ((1 : Int) ≤ 2 ∧ (2 : Int) ≤ 4 ∧ (4 : Int) ≤ 4) ∧
    ∃ cost : DollarCost,
      CostModel.get_switch_cost 2 4 = .ok cost ∧
      (¬ ((2 : Int) = 1 ∧ (4 : Int) = 4) → 0 < cost) ∧
      (((2 : Int) = 1 ∧ (4 : Int) = 4) → cost = -1) :=
  ⟨by decide,
    CostModel.get_switch_cost_pos_except_1_4 2 4 (by decide) (by decide) (by decide)⟩

/-- The outcomes of `get_resource_cost` on a table built by `initialize_costs`: an
assertion failure exactly when a dimension is outside `[1, 4]`, an out-of-bounds read
exactly when both are inside and `current_dim > total_dim`. -/
theorem CostModel.get_resource_cost_faults (unit_costs : CostModel.UnitCosts)
    (current_dim total_dim : Int) :
    (CostModel.get_resource_cost (CostModel.initialize_costs unit_costs) current_dim total_dim
        = .error Fault.assertion
      ↔ ¬ (1 ≤ current_dim ∧ current_dim ≤ 4 ∧ 1 ≤ total_dim ∧ total_dim ≤ 4)) ∧
    (CostModel.get_resource_cost (CostModel.initialize_costs unit_costs) current_dim total_dim
        = .error Fault.outOfBounds
      ↔ (1 ≤ total_dim ∧ total_dim < current_dim ∧ current_dim ≤ 4)) := by
  by_cases hc : 1 ≤ current_dim ∧ current_dim ≤ 4
  · by_cases ht : 1 ≤ total_dim ∧ total_dim ≤ 4
    · obtain ⟨hc1, hc2⟩ := hc
      obtain ⟨ht1, ht2⟩ := ht
      interval_cases total_dim <;> interval_cases current_dim <;>
        simp [CostModel.get_resource_cost, CostModel.MAX_DIM, CostModel.initialize_costs]
    · have h : CostModel.get_resource_cost (CostModel.initialize_costs unit_costs)
          current_dim total_dim = .error Fault.assertion := by
        have hc' : 1 ≤ current_dim ∧ current_dim ≤ CostModel.MAX_DIM := hc
        have ht' : ¬ (1 ≤ total_dim ∧ total_dim ≤ CostModel.MAX_DIM) := ht
        unfold CostModel.get_resource_cost
        rw [if_neg (not_not.mpr hc'), dif_pos ht']
      rw [h]
      constructor
      · simp only [true_iff]
        intro hh
        exact ht ⟨hh.2.2.1, hh.2.2.2⟩
      · constructor
        · intro hh
          cases hh
        · intro hh
          exact absurd ⟨hh.1, by omega⟩ ht
  · have h : CostModel.get_resource_cost (CostModel.initialize_costs unit_costs)
        current_dim total_dim = .error Fault.assertion := by
      have hc' : ¬ (1 ≤ current_dim ∧ current_dim ≤ CostModel.MAX_DIM) := hc
      unfold CostModel.get_resource_cost
      rw [if_pos hc']
    rw [h]
    constructor
    · simp only [true_iff]
      intro hh
      exact hc ⟨hh.1, hh.2.1⟩
    · constructor
      · intro hh
        cases hh
      · intro hh
        exact absurd ⟨by omega, hh.2.2⟩ hc

/-- C9: for `1 ≤ current_dim ≤ total_dim ≤ 4`, `get_link_cost` returns a strictly positive
value; hence `FullyConnected::get_topology_cost_block` returns a value, a failure of
`Switch::get_topology_cost_block` can only come from a non-positive switch unit cost, and a
failure of `Topology::connect` can only come from an invalid bandwidth or latency. -/
theorem CostModel.get_link_cost_pos (current_dim total_dim : Int)
    (h1 : 1 ≤ current_dim) (h2 : current_dim ≤ total_dim) (h3 : total_dim ≤ 4) :
    (∃ link_cost : DollarCost,
      CostModel.get_link_cost current_dim total_dim = .ok link_cost ∧ 0 < link_cost) ∧
    (∀ t : FullyConnected, ∃ cost : DollarCost,
      t.get_topology_cost_block current_dim total_dim = .ok cost) ∧
    (∀ (t : Switch) (e : Fault), t.get_topology_cost_block current_dim total_dim = .error e →
      ∃ switch_cost : DollarCost,
        CostModel.get_switch_cost current_dim total_dim = .ok switch_cost ∧
        ¬ 0 < switch_cost) ∧
    (∀ (t : Topology) (src dest : Device) (bandwidth : Bandwidth) (latency : Latency)
        (bidirectional : Bool) (e : Fault),
      t.connect src dest bandwidth latency bidirectional = .error e →
      ¬ (0 < bandwidth ∧ 0 ≤ latency)) := by
  have hl := CostModel.get_link_cost_eq current_dim total_dim h1 h2 h3
  have hs := CostModel.get_switch_cost_eq current_dim total_dim h1 h2 h3
  have hn := CostModel.get_nic_cost_eq current_dim total_dim h1 h2 h3
  have hlp := CostModel.link_price_pos current_dim total_dim
  refine ⟨⟨_, hl, hlp⟩, ?_, ?_, ?_⟩
  · intro t
    simp only [FullyConnected.get_topology_cost_block, hl]
    rw [if_neg (not_not.mpr hlp)]
    exact ⟨_, rfl⟩
  · intro t e he
    refine ⟨_, hs, ?_⟩
    intro hsp
    simp only [Switch.get_topology_cost_block, hl, hs, hn] at he
    rw [if_neg (not_not.mpr hlp), if_neg (not_not.mpr hsp)] at he
    split_ifs at he
  · intro t src dest bandwidth latency bidirectional e he hh
    rw [Topology.connect_eq t src dest bandwidth latency bidirectional hh.1 hh.2] at he
    cases he

/-- C9, at dimension 1 of 4, the cheapest link. -/
theorem CostModel.get_link_cost_pos_witness :
    ((1 : Int) ≤ 1 ∧ (1 : Int) ≤ 4 ∧ (4 : Int) ≤ 4) ∧
    (∃ link_cost : DollarCost, CostModel.get_link_cost 1 4 = .ok link_cost ∧ 0 < link_cost) :=
  ⟨by decide, (CostModel.get_link_cost_pos 1 4 (by decide) (by decide) (by decide)).1⟩

/-! ## Construction of the building blocks -/

theorem forEach_nil {α σ : Type} (body : σ → α → Except Fault σ) (s : σ) :
    forEach [] body s = .ok s := rfl

theorem forEach_cons_ok {α σ : Type} (x : α) (xs : List α) (body : σ → α → Except Fault σ)
    (s s' : σ) (h : body s x = .ok s') :
    forEach (x :: xs) body s = forEach xs body s' := by
  simp only [forEach, h]

theorem forEach_cons_error {α σ : Type} (x : α) (xs : List α)
    (body : σ → α → Except Fault σ) (s : σ) (e : Fault) (h : body s x = .error e) :
    forEach (x :: xs) body s = .error e := by
  simp only [forEach, h]

theorem devices_upto_length (k : Nat) : (devices_upto k).length = k := by
  simp [devices_upto]

theorem devices_upto_succ (k : Nat) :
    devices_upto (k + 1) = devices_upto k ++ [⟨(k : Int)⟩] := by
  simp [devices_upto, List.range_succ]

theorem devices_upto_getElem? (k i : Nat) (h : i < k) :
    (devices_upto k)[i]? = some ⟨(i : Int)⟩ := by
  simp [devices_upto, List.getElem?_range h]

theorem mem_devices_upto (k : Nat) (d : Device) :
    d ∈ devices_upto k ↔ ∃ i : Nat, i < k ∧ d = ⟨(i : Int)⟩ := by
  simp only [devices_upto, List.mem_map, List.mem_range]
  constructor
  · rintro ⟨i, hi, rfl⟩
    exact ⟨i, hi, rfl⟩
  · rintro ⟨i, hi, rfl⟩
    exact ⟨i, hi, rfl⟩

/-- On a registry holding the devices `0 .. m - 1`, `create_device(m)` passes the
uniqueness assertion and appends device `m`. -/
theorem Topology.create_device_next (t : Topology) (m : Nat)
    (h : t.devices = devices_upto m) :
    t.create_device (m : Int)
      = .ok (⟨(m : Int)⟩, { t with devices := devices_upto (m + 1) }) := by
  have hall : (t.devices.all fun device => decide (device.id ≠ (m : Int))) = true := by
    rw [List.all_eq_true]
    intro d hd
    rw [h, mem_devices_upto] at hd
    obtain ⟨i, hi, rfl⟩ := hd
    simp only [ne_eq, decide_eq_true_eq]
    show ¬ ((i : Int) = (m : Int))
    omega
  unfold Topology.create_device
  rw [if_neg (by simp only [hall, not_true_eq_false, not_false_eq_true]), h,
    devices_upto_succ]

/-- The device-creation loop of the `BasicTopology` constructor, started on a registry
holding the devices `0 .. m - 1`. -/
theorem Topology.create_devices_loop (k m : Nat) (t : Topology)
    (h : t.devices = devices_upto m) :
    forEach (List.range' m k)
        (fun (t : Topology) (i : Nat) => (t.create_device (i : Int)).map Prod.snd) t
      = .ok { t with devices := devices_upto (m + k) } := by
  induction k generalizing m t with
  | zero =>
    rw [List.range'_zero, forEach_nil, Nat.add_zero, ← h]
  | succ k ih =>
    rw [List.range'_succ,
      forEach_cons_ok _ _ _ t { t with devices := devices_upto (m + 1) }
        (by rw [Topology.create_device_next t m h]; rfl),
      ih (m + 1) _ rfl]
    simp only [Nat.add_assoc, Nat.add_comm 1 k]

/-- What the `BasicTopology` constructor builds. -/
theorem BasicTopology.basic_new_eq (npus_count devices_count : Int) (bandwidth : Bandwidth)
    (latency : Latency) :
    BasicTopology.new npus_count devices_count bandwidth latency
      = .ok { topology_cost := 0, devices_count := devices_count, npus_count := npus_count,
              devices := devices_upto devices_count.toNat, links := [],
              bandwidth := bandwidth, latency := latency, basic_topology_type := none } := by
  unfold BasicTopology.new
  simp only [List.range_eq_range']
  rw [Topology.create_devices_loop devices_count.toNat 0 _ rfl]
  simp only [Nat.zero_add, Topology.new]

/-- The inner loop of `FullyConnected::construct_connections` for one `src`. -/
theorem FullyConnected.inner_loop (src : Device) (bandwidth : Bandwidth) (latency : Latency)
    (hb : 0 < bandwidth) (hl : 0 ≤ latency) (dests : List Device) (top : Topology) :
    forEach dests
        (fun (top : Topology) (dest : Device) =>
          if src.id ≠ dest.id then top.connect src dest bandwidth latency false
          else .ok top)
        top
      = .ok { top with
          topology_cost := top.topology_cost
            + 4 * bandwidth * ((row_links src dests bandwidth latency).length : DollarCost),
          links := top.links ++ row_links src dests bandwidth latency } := by
  induction dests generalizing top with
  | nil => simp [forEach, row_links]
  | cons d ds ih =>
    by_cases hne : src.id ≠ d.id
    · rw [forEach_cons_ok _ _ _ top _
        (by rw [if_pos hne]; exact Topology.connect_eq top src d bandwidth latency false hb hl),
        ih]
      simp only [row_links, List.filter_cons, hne, decide_True, if_true, List.map_cons,
        List.length_cons, Bool.false_eq_true, if_false, List.append_assoc,
        List.singleton_append, Nat.cast_add, Nat.cast_one, ne_eq, not_false_eq_true]
      congr 2
      ring
    · rw [forEach_cons_ok _ _ _ top top (by rw [if_neg hne]), ih]
      simp only [row_links, List.filter_cons, hne, decide_False, Bool.false_eq_true, if_false]

/-- The outer loop of `FullyConnected::construct_connections`. -/
theorem FullyConnected.outer_loop (bandwidth : Bandwidth) (latency : Latency)
    (hb : 0 < bandwidth) (hl : 0 ≤ latency) (srcs : List Device) (top : Topology) :
    forEach srcs
        (fun (top : Topology) (src : Device) =>
          forEach top.devices
            (fun (top : Topology) (dest : Device) =>
              if src.id ≠ dest.id then top.connect src dest bandwidth latency false
              else .ok top)
            top)
        top
      = .ok { top with
          topology_cost := top.topology_cost
            + 4 * bandwidth
              * ((pair_links srcs top.devices bandwidth latency).length : DollarCost),
          links := top.links ++ pair_links srcs top.devices bandwidth latency } := by
  induction srcs generalizing top with
  | nil => simp [forEach, pair_links]
  | cons s ss ih =>
    rw [forEach_cons_ok _ _ _ top _
      (FullyConnected.inner_loop s bandwidth latency hb hl top.devices top), ih]
    simp only [pair_links, List.flatMap_cons, List.length_append, Nat.cast_add,
      List.append_assoc]
    congr 2
    ring

/-- What the constructor `FullyConnected(npus_count, bandwidth, latency)` builds. -/
theorem FullyConnected.fully_connected_new_eq (npus_count : Int) (bandwidth : Bandwidth)
    (latency : Latency) (hn : 0 < npus_count) (hb : 0 < bandwidth) (hl : 0 ≤ latency) :
    FullyConnected.new npus_count bandwidth latency
      = .ok { topology_cost := 4 * bandwidth
                * ((pair_links (devices_upto npus_count.toNat) (devices_upto npus_count.toNat)
                    bandwidth latency).length : DollarCost),
              devices_count := npus_count, npus_count := npus_count,
              devices := devices_upto npus_count.toNat,
              links := pair_links (devices_upto npus_count.toNat)
                (devices_upto npus_count.toNat) bandwidth latency,
              bandwidth := bandwidth, latency := latency,
              basic_topology_type := some TopologyBuildingBlock.FullyConnected } := by
  unfold FullyConnected.new
  simp only [BasicTopology.basic_new_eq]
  rw [if_neg (not_not.mpr hn), if_neg (not_not.mpr hb), if_neg (not_not.mpr hl)]
  unfold FullyConnected.construct_connections
  simp only [FullyConnected.outer_loop bandwidth latency hb hl]
  simp only [zero_add, List.nil_append]

/-- The connection loop of `Switch::construct_connections` over the indices `indices`, all
of them inside the registry `0 .. k - 1`. -/
theorem Switch.connect_loop (switch_device : Device) (bandwidth : Bandwidth)
    (latency : Latency) (hb : 0 < bandwidth) (hl : 0 ≤ latency) (k : Nat)
    (indices : List Nat) (hi : ∀ i ∈ indices, i < k) (top : Topology)
    (hd : top.devices = devices_upto k) :
    forEach indices
        (fun (top : Topology) (i : Nat) =>
          match top.devices[i]? with
          | none => .error .outOfBounds
          | some npu => top.connect npu switch_device bandwidth latency true)
        top
      = .ok { top with
          topology_cost := top.topology_cost
            + 2 * (4 * bandwidth) * (indices.length : DollarCost),
          links := top.links ++
            switch_links (indices.map fun (i : Nat) => Device.mk (i : Int)) switch_device
              bandwidth latency } := by
  induction indices generalizing top with
  | nil => simp [forEach, switch_links]
  | cons i rest ih =>
    have hik : i < k := hi i (List.mem_cons_self i rest)
    have hrest : ∀ j ∈ rest, j < k := fun j hj => hi j (List.mem_cons_of_mem i hj)
    rw [forEach_cons_ok _ _ _ top _
        (by
          simp only [hd, devices_upto_getElem? k i hik]
          exact Topology.connect_eq top ⟨(i : Int)⟩ switch_device bandwidth latency true hb hl)]
    refine (ih hrest _ ?_).trans ?_
    · exact hd
    · simp only [switch_links, List.map_cons, List.flatMap_cons, List.length_cons, if_true,
        List.append_assoc, List.cons_append, List.nil_append, Nat.cast_add, Nat.cast_one]
      congr 2
      ring

/-- What the constructor `Switch(npus_count, bandwidth, latency)` builds. -/
theorem Switch.switch_new_eq (npus_count : Int) (bandwidth : Bandwidth) (latency : Latency)
    (hn : 0 < npus_count) (hb : 0 < bandwidth) (hl : 0 ≤ latency) :
    Switch.new npus_count bandwidth latency
      = .ok { topology_cost := 2 * (4 * bandwidth) * (npus_count : DollarCost)
                + 13 * (npus_count : DollarCost) * bandwidth,
              devices_count := npus_count + 1, npus_count := npus_count,
              devices := devices_upto (npus_count.toNat + 1),
              links := switch_links (devices_upto npus_count.toNat) ⟨npus_count⟩
                bandwidth latency,
              bandwidth := bandwidth, latency := latency,
              basic_topology_type := some TopologyBuildingBlock.Switch,
              switch_device := ⟨npus_count⟩ } := by
  have htn : ((npus_count.toNat : Int)) = npus_count := Int.toNat_of_nonneg (le_of_lt hn)
  have hq : ((npus_count.toNat : DollarCost)) = (npus_count : DollarCost) := by
    calc ((npus_count.toNat : DollarCost))
        = (((npus_count.toNat : Int)) : DollarCost) := (Int.cast_natCast _).symm
      _ = (npus_count : DollarCost) := by rw [htn]
  have hsucc : (npus_count + 1).toNat = npus_count.toNat + 1 := by omega
  have hsw : (devices_upto (npus_count.toNat + 1))[npus_count.toNat]?
      = some ⟨npus_count⟩ := by
    rw [devices_upto_getElem? _ _ (Nat.lt_succ_self _), htn]
  have hswitch : CostModel.get_switch_cost 1 1 = .ok 13 := rfl
  have hnic : CostModel.get_nic_cost 1 1 = .ok (-1) := rfl
  unfold Switch.new
  simp only [BasicTopology.basic_new_eq, hsucc]
  rw [if_neg (not_not.mpr hn), if_neg (not_not.mpr hb), if_neg (not_not.mpr hl)]
  simp only [hsw]
  unfold Switch.construct_connections
  rw [Switch.connect_loop ⟨npus_count⟩ bandwidth latency hb hl (npus_count.toNat + 1)
    (List.range npus_count.toNat)
    (fun i hi => Nat.lt_succ_of_lt (List.mem_range.mp hi))
    { topology_cost := 0, devices_count := npus_count + 1, npus_count := npus_count,
      devices := devices_upto (npus_count.toNat + 1), links := [] } rfl]
  simp only [hswitch, hnic]
  rw [if_neg (by norm_num), if_neg (by norm_num)]
  simp only [zero_add, List.nil_append, List.length_range, hq, devices_upto]

/-! ## Routing -/

theorem devices_upto_getElem?_toNat (k : Nat) (i : Int) (h0 : 0 ≤ i) (h : i < (k : Int)) :
    (devices_upto k)[i.toNat]? = some ⟨i⟩ := by
  have hi : ((i.toNat : Int)) = i := Int.toNat_of_nonneg h0
  rw [devices_upto_getElem? k i.toNat (by omega), hi]

/-- C1: for `n > 0` (and a valid bandwidth and latency) the constructor
`Switch(n, bandwidth, latency)` completes, its switch device is the extra device with id
`n`, and on the topology built `route(src, dest)` returns exactly
`[device src, switch device, device dest]` for all `src`, `dest` in `[0, n)` and is an
assertion failure when `src` or `dest` is outside `[0, n)`. -/
theorem Switch.route_three_hops (npus_count : Int) (bandwidth : Bandwidth)
    (latency : Latency) (hn : 0 < npus_count) (hb : 0 < bandwidth) (hl : 0 ≤ latency) :
    ∃ t : Switch,
      Switch.new npus_count bandwidth latency = .ok t ∧
      t.switch_device = ⟨npus_count⟩ ∧
      t.devices.length = npus_count.toNat + 1 ∧
      (∀ src dest : Int, 0 ≤ src → src < npus_count → 0 ≤ dest → dest < npus_count →
        t.route src dest = .ok [⟨src⟩, ⟨npus_count⟩, ⟨dest⟩]) ∧
      (∀ src dest : Int,
        ¬ (0 ≤ src ∧ src < npus_count ∧ 0 ≤ dest ∧ dest < npus_count) →
        t.route src dest = .error Fault.assertion) := by
  refine ⟨_, Switch.switch_new_eq npus_count bandwidth latency hn hb hl, rfl,
    devices_upto_length _, ?_, ?_⟩
  · intro src dest hs0 hs1 hd0 hd1
    have hs1' : (src : Int) < ((npus_count.toNat + 1 : Nat) : Int) := by
      have h : (src : Int) < npus_count := hs1
      omega
    have hd1' : (dest : Int) < ((npus_count.toNat + 1 : Nat) : Int) := by
      have h : (dest : Int) < npus_count := hd1
      omega
    simp only [Switch.route]
    rw [if_neg (not_not.mpr ⟨hs0, hs1⟩), if_neg (not_not.mpr ⟨hd0, hd1⟩),
      devices_upto_getElem?_toNat _ src hs0 hs1',
      devices_upto_getElem?_toNat _ dest hd0 hd1']
  · intro src dest h
    simp only [Switch.route]
    by_cases hs : 0 ≤ src ∧ src < npus_count
    · have hd : ¬ (0 ≤ dest ∧ dest < npus_count) := fun hd => h ⟨hs.1, hs.2, hd.1, hd.2⟩
      rw [if_neg (not_not.mpr hs), if_pos hd]
    · rw [if_pos hs]

/-- C1, at `Switch(2, 10, 1)`. -/
theorem Switch.route_three_hops_witness :
    ((0 : Int) < 2 ∧ (0 : Bandwidth) < 10 ∧ (0 : Latency) ≤ 1) ∧
    ∃ t : Switch,
      Switch.new 2 10 1 = .ok t ∧
      t.switch_device = ⟨2⟩ ∧
      t.devices.length = (2 : Int).toNat + 1 ∧
      (∀ src dest : Int, 0 ≤ src → src < 2 → 0 ≤ dest → dest < 2 →
        t.route src dest = .ok [⟨src⟩, ⟨2⟩, ⟨dest⟩]) ∧
      (∀ src dest : Int,
        ¬ (0 ≤ src ∧ src < 2 ∧ 0 ≤ dest ∧ dest < 2) →
        t.route src dest = .error Fault.assertion) :=
  ⟨⟨by decide, by norm_num, by norm_num⟩,
    Switch.route_three_hops 2 10 1 (by decide) (by norm_num) (by norm_num)⟩

/-- C2: for `n > 0` (and a valid bandwidth and latency) the constructor
`FullyConnected(n, bandwidth, latency)` completes, and on the topology built
`route(src, dest)` returns exactly `[device src, device dest]` for all `src`, `dest` in
`[0, n)`, in particular whenever `src != dest`, and is an assertion failure when `src` or
`dest` is outside `[0, n)`. -/
theorem FullyConnected.route_two_hops (npus_count : Int) (bandwidth : Bandwidth)
    (latency : Latency) (hn : 0 < npus_count) (hb : 0 < bandwidth) (hl : 0 ≤ latency) :
    ∃ t : FullyConnected,
      FullyConnected.new npus_count bandwidth latency = .ok t ∧
      (∀ src dest : Int, 0 ≤ src → src < npus_count → 0 ≤ dest → dest < npus_count →
        t.route src dest = .ok [⟨src⟩, ⟨dest⟩]) ∧
      (∀ src dest : Int,
        ¬ (0 ≤ src ∧ src < npus_count ∧ 0 ≤ dest ∧ dest < npus_count) →
        t.route src dest = .error Fault.assertion) := by
  refine ⟨_, FullyConnected.fully_connected_new_eq npus_count bandwidth latency hn hb hl, ?_, ?_⟩
  · intro src dest hs0 hs1 hd0 hd1
    have hs1' : (src : Int) < ((npus_count.toNat : Nat) : Int) := by
      have h : (src : Int) < npus_count := hs1
      omega
    have hd1' : (dest : Int) < ((npus_count.toNat : Nat) : Int) := by
      have h : (dest : Int) < npus_count := hd1
      omega
    simp only [FullyConnected.route]
    rw [if_neg (not_not.mpr ⟨hs0, hs1⟩), if_neg (not_not.mpr ⟨hd0, hd1⟩),
      devices_upto_getElem?_toNat _ src hs0 hs1',
      devices_upto_getElem?_toNat _ dest hd0 hd1']
  · intro src dest h
    simp only [FullyConnected.route]
    by_cases hs : 0 ≤ src ∧ src < npus_count
    · have hd : ¬ (0 ≤ dest ∧ dest < npus_count) := fun hd => h ⟨hs.1, hs.2, hd.1, hd.2⟩
      rw [if_neg (not_not.mpr hs), if_pos hd]
    · rw [if_pos hs]

/-- C2, at `FullyConnected(3, 10, 1)`. -/
theorem FullyConnected.route_two_hops_witness :
    ((0 : Int) < 3 ∧ (0 : Bandwidth) < 10 ∧ (0 : Latency) ≤ 1) ∧
    ∃ t : FullyConnected,
      FullyConnected.new 3 10 1 = .ok t ∧
      (∀ src dest : Int, 0 ≤ src → src < 3 → 0 ≤ dest → dest < 3 →
        t.route src dest = .ok [⟨src⟩, ⟨dest⟩]) ∧
      (∀ src dest : Int,
        ¬ (0 ≤ src ∧ src < 3 ∧ 0 ≤ dest ∧ dest < 3) →
        t.route src dest = .error Fault.assertion) :=
  ⟨⟨by decide, by norm_num, by norm_num⟩,
    FullyConnected.route_two_hops 3 10 1 (by decide) (by norm_num) (by norm_num)⟩

/-! ## Topology::get_topology_cost -/

/-- A successful `Topology::connect` strictly increases `topology_cost`. -/
theorem Topology.connect_ok_cost_lt (t t' : Topology) (src dest : Device)
    (bandwidth : Bandwidth) (latency : Latency) (bidirectional : Bool)
    (h : t.connect src dest bandwidth latency bidirectional = .ok t') :
    t.topology_cost < t'.topology_cost := by
  by_cases hb : 0 < bandwidth
  · by_cases hl : 0 ≤ latency
    · rw [Topology.connect_eq t src dest bandwidth latency bidirectional hb hl] at h
      injection h with h
      rw [← h]
      show t.topology_cost
        < t.topology_cost + (if bidirectional then 2 * (4 * bandwidth) else 4 * bandwidth)
      split_ifs <;> linarith
    · simp only [Topology.connect, CostModel.get_link_cost_1_1] at h
      rw [if_neg (by norm_num), if_neg (not_not.mpr hb), if_pos hl] at h
      cases h
  · simp only [Topology.connect, CostModel.get_link_cost_1_1] at h
    rw [if_neg (by norm_num), if_pos hb] at h
    cases h

/-- A successful sequence of `Topology::connect` calls never decreases `topology_cost` and
strictly increases it when it is not empty. -/
theorem connect_all_cost (calls : List ConnectCall) (t t' : Topology)
    (h : connect_all calls t = .ok t') :
    t.topology_cost ≤ t'.topology_cost ∧ (calls ≠ [] → t.topology_cost < t'.topology_cost) := by
  induction calls generalizing t with
  | nil =>
    simp only [connect_all, forEach] at h
    injection h with h
    rw [h]
    exact ⟨le_refl _, fun hne => absurd rfl hne⟩
  | cons c rest ih =>
    simp only [connect_all, forEach] at h
    cases hc : t.connect c.src c.dest c.bandwidth c.latency c.bidirectional with
    | error e =>
      rw [hc] at h
      cases h
    | ok t1 =>
      rw [hc] at h
      have hlt := Topology.connect_ok_cost_lt t t1 c.src c.dest c.bandwidth c.latency
        c.bidirectional hc
      have hle := (ih t1 h).1
      exact ⟨le_of_lt (lt_of_lt_of_le hlt hle), fun _ => lt_of_lt_of_le hlt hle⟩

theorem Topology.get_topology_cost_pos (t : Topology) (h : 0 < t.topology_cost) :
    t.get_topology_cost = .ok t.topology_cost := by
  unfold Topology.get_topology_cost
  rw [if_neg (not_not.mpr h)]

theorem Topology.get_topology_cost_nonpos (t : Topology) (h : ¬ 0 < t.topology_cost) :
    t.get_topology_cost = .error Fault.assertion := by
  unfold Topology.get_topology_cost
  rw [if_pos h]

theorem pair_links_upto_pos (k : Nat) (hk : 2 ≤ k) (bandwidth : Bandwidth)
    (latency : Latency) :
    0 < (pair_links (devices_upto k) (devices_upto k) bandwidth latency).length := by
  have h0 : (⟨0⟩ : Device) ∈ devices_upto k :=
    (mem_devices_upto k _).mpr ⟨0, by omega, rfl⟩
  have h1 : (⟨1⟩ : Device) ∈ devices_upto k :=
    (mem_devices_upto k _).mpr ⟨1, by omega, rfl⟩
  have hmem : (⟨0, 1, bandwidth, latency⟩ : Link)
      ∈ pair_links (devices_upto k) (devices_upto k) bandwidth latency := by
    simp only [pair_links, row_links, List.mem_flatMap, List.mem_map, List.mem_filter]
    exact ⟨⟨0⟩, h0, ⟨1⟩, ⟨h1, by decide⟩, rfl⟩
  exact List.length_pos_of_mem hmem

/-- C10: after a sequence of successful `Topology::connect` calls on a freshly constructed
`Topology`, `topology_cost > 0` if and only if the sequence is not empty, and
`get_topology_cost` returns the accumulated `topology_cost` if and only if the sequence is
not empty and is an assertion failure otherwise. It returns the accumulated cost for
`FullyConnected(n)` with `n >= 2` and for `Switch(n)` with `n >= 1`, and is an assertion
failure for `FullyConnected(1)`, which wires no link. -/
theorem Topology.get_topology_cost_iff_links :
    (∀ (calls : List ConnectCall) (t : Topology),
      connect_all calls Topology.new = .ok t →
        (0 < t.topology_cost ↔ calls ≠ []) ∧
        (t.get_topology_cost = .ok t.topology_cost ↔ calls ≠ []) ∧
        (t.get_topology_cost = .error Fault.assertion ↔ calls = [])) ∧
    (∀ (n : Int) (bandwidth : Bandwidth) (latency : Latency),
      2 ≤ n → 0 < bandwidth → 0 ≤ latency →
        ∃ t : FullyConnected, FullyConnected.new n bandwidth latency = .ok t ∧
          t.links ≠ [] ∧ t.get_topology_cost = .ok t.topology_cost) ∧
    (∀ (n : Int) (bandwidth : Bandwidth) (latency : Latency),
      1 ≤ n → 0 < bandwidth → 0 ≤ latency →
        ∃ t : Switch, Switch.new n bandwidth latency = .ok t ∧
          t.links ≠ [] ∧ t.get_topology_cost = .ok t.topology_cost) ∧
    (∀ (bandwidth : Bandwidth) (latency : Latency),
      0 < bandwidth → 0 ≤ latency →
        ∃ t : FullyConnected, FullyConnected.new 1 bandwidth latency = .ok t ∧
          t.links = [] ∧ t.get_topology_cost = .error Fault.assertion) := by
  refine ⟨?_, ?_, ?_, ?_⟩
  · intro calls t h
    obtain ⟨hle, hlt⟩ := connect_all_cost calls Topology.new t h
    have hpos : 0 < t.topology_cost ↔ calls ≠ [] := by
      constructor
      · intro hp hnil
        rw [hnil] at h
        simp only [connect_all, forEach] at h
        injection h with h
        rw [← h] at hp
        exact lt_irrefl _ hp
      · intro hne
        exact hlt hne
    refine ⟨hpos, ?_, ?_⟩
    · constructor
      · intro hg hnil
        have hn : ¬ 0 < t.topology_cost := fun hp => hpos.mp hp hnil
        rw [Topology.get_topology_cost_nonpos t hn] at hg
        cases hg
      · intro hne
        exact Topology.get_topology_cost_pos t (hpos.mpr hne)
    · constructor
      · intro hg
        by_contra hne
        rw [Topology.get_topology_cost_pos t (hpos.mpr hne)] at hg
        cases hg
      · intro hnil
        exact Topology.get_topology_cost_nonpos t (fun hp => hpos.mp hp hnil)
  · intro n bandwidth latency hn hb hl
    have hk : 2 ≤ n.toNat := by omega
    have hlen := pair_links_upto_pos n.toNat hk bandwidth latency
    refine ⟨_, FullyConnected.fully_connected_new_eq n bandwidth latency (by omega) hb hl, ?_, ?_⟩
    · exact List.ne_nil_of_length_pos hlen
    · apply Topology.get_topology_cost_pos
      have hq : (0 : DollarCost) <
          ((pair_links (devices_upto n.toNat) (devices_upto n.toNat) bandwidth latency).length
            : DollarCost) := by
        exact_mod_cast hlen
      show 0 < 4 * bandwidth *
        ((pair_links (devices_upto n.toNat) (devices_upto n.toNat) bandwidth latency).length
          : DollarCost)
      positivity
  · intro n bandwidth latency hn hb hl
    have hnpos : 0 < n := by omega
    refine ⟨_, Switch.switch_new_eq n bandwidth latency hnpos hb hl, ?_, ?_⟩
    · have hk : 0 < n.toNat := by omega
      obtain ⟨m, hm⟩ := Nat.exists_eq_succ_of_ne_zero (Nat.pos_iff_ne_zero.mp hk)
      show switch_links (devices_upto n.toNat) ⟨n⟩ bandwidth latency ≠ []
      rw [hm]
      simp [switch_links, devices_upto, List.range_succ_eq_map]
    · apply Topology.get_topology_cost_pos
      have hq : (0 : DollarCost) < (n : DollarCost) := by exact_mod_cast hnpos
      show 0 < 2 * (4 * bandwidth) * (n : DollarCost) + 13 * (n : DollarCost) * bandwidth
      positivity
  · intro bandwidth latency hb hl
    refine ⟨_, FullyConnected.fully_connected_new_eq 1 bandwidth latency (by decide) hb hl, ?_, ?_⟩
    · rfl
    · apply Topology.get_topology_cost_nonpos
      show ¬ 0 < 4 * bandwidth *
        ((pair_links (devices_upto (1 : Int).toNat) (devices_upto (1 : Int).toNat)
          bandwidth latency).length : DollarCost)
      have hlen : (pair_links (devices_upto (1 : Int).toNat) (devices_upto (1 : Int).toNat)
          bandwidth latency).length = 0 := rfl
      rw [hlen]
      simp

/-- C10, at one bidirectional connect of devices 0 and 1 with bandwidth 10 on a fresh
topology, at `FullyConnected(2, 10, 1)`, at `Switch(1, 10, 1)` and at
`FullyConnected(1, 10, 1)`. -/
theorem Topology.get_topology_cost_iff_links_witness :
    (connect_all [⟨⟨0⟩, ⟨1⟩, 10, 1, true⟩] Topology.new
        = .ok ⟨80, -1, -1, [], [⟨0, 1, 10, 1⟩, ⟨1, 0, 10, 1⟩]⟩ ∧
      ((0 : DollarCost) < 80 ↔ [(⟨⟨0⟩, ⟨1⟩, 10, 1, true⟩ : ConnectCall)] ≠ []) ∧
      (Topology.get_topology_cost ⟨80, -1, -1, [], [⟨0, 1, 10, 1⟩, ⟨1, 0, 10, 1⟩]⟩ = .ok 80
        ↔ [(⟨⟨0⟩, ⟨1⟩, 10, 1, true⟩ : ConnectCall)] ≠ []) ∧
      (Topology.get_topology_cost ⟨80, -1, -1, [], [⟨0, 1, 10, 1⟩, ⟨1, 0, 10, 1⟩]⟩
          = .error Fault.assertion
        ↔ [(⟨⟨0⟩, ⟨1⟩, 10, 1, true⟩ : ConnectCall)] = [])) ∧
    (((2 : Int) ≤ 2 ∧ (0 : Bandwidth) < 10 ∧ (0 : Latency) ≤ 1) ∧
      ∃ t : FullyConnected, FullyConnected.new 2 10 1 = .ok t ∧
        t.links ≠ [] ∧ t.get_topology_cost = .ok t.topology_cost) ∧
    (((1 : Int) ≤ 1 ∧ (0 : Bandwidth) < 10 ∧ (0 : Latency) ≤ 1) ∧
      ∃ t : Switch, Switch.new 1 10 1 = .ok t ∧
        t.links ≠ [] ∧ t.get_topology_cost = .ok t.topology_cost) ∧
    (((0 : Bandwidth) < 10 ∧ (0 : Latency) ≤ 1) ∧
      ∃ t : FullyConnected, FullyConnected.new 1 10 1 = .ok t ∧
        t.links = [] ∧ t.get_topology_cost = .error Fault.assertion) :=
  have hrun : connect_all [⟨⟨0⟩, ⟨1⟩, 10, 1, true⟩] Topology.new
      = .ok ⟨80, -1, -1, [], [⟨0, 1, 10, 1⟩, ⟨1, 0, 10, 1⟩]⟩ := by
    simp only [connect_all, forEach,
      Topology.connect_eq Topology.new ⟨0⟩ ⟨1⟩ 10 1 true (by norm_num) (by norm_num)]
    norm_num [Topology.new]
  ⟨⟨hrun, Topology.get_topology_cost_iff_links.1 _ _ hrun⟩,
    ⟨⟨by decide, by norm_num, by norm_num⟩,
      Topology.get_topology_cost_iff_links.2.1 2 10 1 (by decide) (by norm_num) (by norm_num)⟩,
    ⟨⟨by decide, by norm_num, by norm_num⟩,
      Topology.get_topology_cost_iff_links.2.2.1 1 10 1 (by decide) (by norm_num)
        (by norm_num)⟩,
    ⟨⟨by norm_num, by norm_num⟩,
      Topology.get_topology_cost_iff_links.2.2.2 10 1 (by norm_num) (by norm_num)⟩⟩

/-! ## Counting the links of FullyConnected -/

theorem row_links_append (src : Device) (xs ys : List Device) (bandwidth : Bandwidth)
    (latency : Latency) :
    row_links src (xs ++ ys) bandwidth latency
      = row_links src xs bandwidth latency ++ row_links src ys bandwidth latency := by
  simp only [row_links, List.filter_append, List.map_append]

/-- A row of `FullyConnected` over the devices `0 .. k - 1` skips exactly the source. -/
theorem row_links_upto_length (k i : Nat) (bandwidth : Bandwidth) (latency : Latency) :
    (row_links ⟨(i : Int)⟩ (devices_upto k) bandwidth latency).length
      = if i < k then k - 1 else k := by
  induction k with
  | zero => simp [row_links, devices_upto]
  | succ k ih =>
    rw [devices_upto_succ, row_links_append, List.length_append, ih]
    by_cases hik : i = k
    · have h1 : row_links ⟨(i : Int)⟩ [⟨(k : Int)⟩] bandwidth latency = [] := by
        simp [row_links, hik]
      rw [h1, if_neg (by omega), if_pos (by omega)]
      simp
    · have hne : ¬ ((i : Int) = (k : Int)) := by omega
      have h1 : (row_links ⟨(i : Int)⟩ [⟨(k : Int)⟩] bandwidth latency).length = 1 := by
        simp [row_links, hne]
      rw [h1]
      by_cases hlt : i < k
      · rw [if_pos hlt, if_pos (by omega)]
        omega
      · rw [if_neg hlt, if_neg (by omega)]

theorem pair_links_upto_length_of_subset (k : Nat) (srcs : List Device)
    (h : ∀ s ∈ srcs, s ∈ devices_upto k) (bandwidth : Bandwidth) (latency : Latency) :
    (pair_links srcs (devices_upto k) bandwidth latency).length = srcs.length * (k - 1) := by
  induction srcs with
  | nil => simp [pair_links]
  | cons s rest ih =>
    obtain ⟨i, hi, rfl⟩ := (mem_devices_upto k s).mp (h s (List.mem_cons_self s rest))
    have hrest := ih (fun x hx => h x (List.mem_cons_of_mem _ hx))
    have hcons : pair_links (⟨(i : Int)⟩ :: rest) (devices_upto k) bandwidth latency
        = row_links ⟨(i : Int)⟩ (devices_upto k) bandwidth latency
          ++ pair_links rest (devices_upto k) bandwidth latency := by
      simp only [pair_links, List.flatMap_cons]
    rw [hcons, List.length_append, hrest, row_links_upto_length, if_pos hi, List.length_cons,
      Nat.succ_mul, Nat.add_comm]

/-- The loops of `FullyConnected::construct_connections` over `k` devices wire
`k * (k - 1)` directed links. -/
theorem pair_links_upto_length (k : Nat) (bandwidth : Bandwidth) (latency : Latency) :
    (pair_links (devices_upto k) (devices_upto k) bandwidth latency).length = k * (k - 1) := by
  rw [pair_links_upto_length_of_subset k (devices_upto k) (fun _ hs => hs),
    devices_upto_length]

theorem pair_links_upto_length_cast (n : Int) (hn : 0 < n) (bandwidth : Bandwidth)
    (latency : Latency) :
    ((pair_links (devices_upto n.toNat) (devices_upto n.toNat) bandwidth latency).length
        : DollarCost)
      = (n : DollarCost) * ((n : DollarCost) - 1) := by
  have htn : ((n.toNat : Int)) = n := Int.toNat_of_nonneg (le_of_lt hn)
  have h1 : 1 ≤ n.toNat := by omega
  have hq : ((n.toNat : DollarCost)) = (n : DollarCost) := by
    calc ((n.toNat : DollarCost))
        = (((n.toNat : Int)) : DollarCost) := (Int.cast_natCast _).symm
      _ = (n : DollarCost) := by rw [htn]
  rw [pair_links_upto_length, Nat.cast_mul, Nat.cast_sub h1, Nat.cast_one, hq]

/-! ## Monotonicity of the accumulated cost -/

/-- A loop whose body never decreases `topology_cost` never decreases it. -/
theorem forEach_cost_le {α : Type} (body : Topology → α → Except Fault Topology)
    (hbody : ∀ (s : Topology) (x : α) (s' : Topology), body s x = .ok s' →
      s.topology_cost ≤ s'.topology_cost)
    (xs : List α) (s s' : Topology) (h : forEach xs body s = .ok s') :
    s.topology_cost ≤ s'.topology_cost := by
  induction xs generalizing s with
  | nil =>
    rw [forEach_nil] at h
    injection h with h
    rw [h]
  | cons x rest ih =>
    cases hx : body s x with
    | error e =>
      rw [forEach_cons_error x rest body s e hx] at h
      cases h
    | ok s1 =>
      rw [forEach_cons_ok x rest body s s1 hx] at h
      exact le_trans (hbody s x s1 hx) (ih s1 h)

/-- The connection loop of `Switch::construct_connections` never decreases
`topology_cost`. -/
theorem Switch.connect_loop_cost_le (switch_device : Device) (bandwidth : Bandwidth)
    (latency : Latency) (indices : List Nat) (top top' : Topology)
    (h : forEach indices
        (fun (top : Topology) (i : Nat) =>
          match top.devices[i]? with
          | none => .error .outOfBounds
          | some npu => top.connect npu switch_device bandwidth latency true)
        top = .ok top') :
    top.topology_cost ≤ top'.topology_cost := by
  refine forEach_cost_le _ ?_ indices top top' h
  intro s i s' hs
  cases hd : s.devices[i]? with
  | none =>
    simp only [hd] at hs
    cases hs
  | some npu =>
    simp only [hd] at hs
    exact le_of_lt (Topology.connect_ok_cost_lt s s' npu switch_device bandwidth latency true hs)

/-- The cost part of `Switch::construct_connections`: after the connection loop the switch
term `13 * npus_count * bandwidth` is added and no NIC term. -/
theorem Switch.construct_connections_cost (t t' : Switch)
    (h : t.construct_connections = .ok t') :
    ∃ after_links : DollarCost,
      t.topology_cost ≤ after_links ∧
      t'.topology_cost
        = after_links + 13 * (t.npus_count : DollarCost) * t.bandwidth := by
  have hswitch : CostModel.get_switch_cost 1 1 = .ok 13 := rfl
  have hnic : CostModel.get_nic_cost 1 1 = .ok (-1) := rfl
  unfold Switch.construct_connections at h
  cases hloop : forEach (List.range t.npus_count.toNat)
      (fun (top : Topology) (i : Nat) =>
        match top.devices[i]? with
        | none => .error .outOfBounds
        | some npu => top.connect npu t.switch_device t.bandwidth t.latency true)
      t.toTopology with
  | error e =>
    simp only [hloop] at h
    cases h
  | ok top =>
    simp only [hloop, hswitch, hnic] at h
    rw [if_neg (by norm_num), if_neg (by norm_num)] at h
    injection h with h
    refine ⟨top.topology_cost,
      Switch.connect_loop_cost_le t.switch_device t.bandwidth t.latency _ _ _ hloop, ?_⟩
    rw [← h]

/-! ## Device and NPU counts -/

/-- C15: for `n > 0` (and a valid bandwidth and latency) `FullyConnected(n, b, l)` is built
with `get_npus_count() = n` and `get_devices_count() = n`, and `Switch(n, b, l)` with
`get_npus_count() = n` and `get_devices_count() = n + 1`, both getters returning a value, so
`devices_count >= npus_count > 0`; on a default-constructed `Topology` both getters are
assertion failures. -/
theorem Topology.counts_of_building_blocks :
    (∀ (n : Int) (bandwidth : Bandwidth) (latency : Latency),
      0 < n → 0 < bandwidth → 0 ≤ latency →
        ∃ t : FullyConnected,
          FullyConnected.new n bandwidth latency = .ok t ∧
          t.get_npus_count = .ok n ∧ t.get_devices_count = .ok n ∧
          t.devices_count ≥ t.npus_count ∧ t.npus_count > 0 ∧
          (t.devices.length : Int) = n) ∧
    (∀ (n : Int) (bandwidth : Bandwidth) (latency : Latency),
      0 < n → 0 < bandwidth → 0 ≤ latency →
        ∃ t : Switch,
          Switch.new n bandwidth latency = .ok t ∧
          t.get_npus_count = .ok n ∧ t.get_devices_count = .ok (n + 1) ∧
          t.devices_count ≥ t.npus_count ∧ t.npus_count > 0 ∧
          (t.devices.length : Int) = n + 1) ∧
    (Topology.new.npus_count = -1 ∧ Topology.new.devices_count = -1 ∧
      Topology.new.get_npus_count = .error Fault.assertion ∧
      Topology.new.get_devices_count = .error Fault.assertion) := by
  refine ⟨?_, ?_, rfl, rfl, rfl, rfl⟩
  · intro n bandwidth latency hn hb hl
    refine ⟨_, FullyConnected.fully_connected_new_eq n bandwidth latency hn hb hl,
      ?_, ?_, ?_, ?_, ?_⟩
    · simp only [Topology.get_npus_count]
      rw [if_neg (not_not.mpr hn), if_neg (not_not.mpr hn), if_neg (not_not.mpr (le_refl n))]
    · simp only [Topology.get_devices_count]
      rw [if_neg (not_not.mpr hn), if_neg (not_not.mpr hn), if_neg (not_not.mpr (le_refl n))]
    · exact le_refl n
    · exact hn
    · show ((devices_upto n.toNat).length : Int) = n
      rw [devices_upto_length]
      omega
  · intro n bandwidth latency hn hb hl
    have hn1 : 0 < n + 1 := by omega
    have hle : n + 1 ≥ n := by omega
    refine ⟨_, Switch.switch_new_eq n bandwidth latency hn hb hl, ?_, ?_, ?_, ?_, ?_⟩
    · simp only [Topology.get_npus_count]
      rw [if_neg (not_not.mpr hn1), if_neg (not_not.mpr hn), if_neg (not_not.mpr hle)]
    · simp only [Topology.get_devices_count]
      rw [if_neg (not_not.mpr hn1), if_neg (not_not.mpr hn), if_neg (not_not.mpr hle)]
    · exact hle
    · exact hn
    · show ((devices_upto (n.toNat + 1)).length : Int) = n + 1
      rw [devices_upto_length]
      omega

/-- C15, at `FullyConnected(3, 10, 1)` and `Switch(3, 10, 1)`. -/
theorem Topology.counts_of_building_blocks_witness :
    (((0 : Int) < 3 ∧ (0 : Bandwidth) < 10 ∧ (0 : Latency) ≤ 1) ∧
      ∃ t : FullyConnected,
        FullyConnected.new 3 10 1 = .ok t ∧
        t.get_npus_count = .ok 3 ∧ t.get_devices_count = .ok 3 ∧
        t.devices_count ≥ t.npus_count ∧ t.npus_count > 0 ∧
        (t.devices.length : Int) = 3) ∧
    (((0 : Int) < 3 ∧ (0 : Bandwidth) < 10 ∧ (0 : Latency) ≤ 1) ∧
      ∃ t : Switch,
        Switch.new 3 10 1 = .ok t ∧
        t.get_npus_count = .ok 3 ∧ t.get_devices_count = .ok (3 + 1) ∧
        t.devices_count ≥ t.npus_count ∧ t.npus_count > 0 ∧
        (t.devices.length : Int) = 3 + 1) :=
  ⟨⟨⟨by decide, by norm_num, by norm_num⟩,
      Topology.counts_of_building_blocks.1 3 10 1 (by decide) (by norm_num) (by norm_num)⟩,
    ⟨⟨by decide, by norm_num, by norm_num⟩,
      Topology.counts_of_building_blocks.2.1 3 10 1 (by decide) (by norm_num)
        (by norm_num)⟩⟩

/-! ## Invalid parameters -/

/-- C16: `Topology::connect` with `bandwidth <= 0` or `latency < 0` is an assertion failure
(the assertions precede both `Device::connect` calls and both cost updates, so no link is
created and `topology_cost` is not changed); the constructors `FullyConnected` and `Switch`
with `npus_count <= 0`, `bandwidth <= 0` or `latency < 0` are assertion failures; and with
`npus_count > 0`, `bandwidth > 0` and `latency >= 0` both constructors complete. -/
theorem Topology.invalid_parameters_are_fatal :
    (∀ (t : Topology) (src dest : Device) (bandwidth : Bandwidth) (latency : Latency)
        (bidirectional : Bool),
      bandwidth ≤ 0 ∨ latency < 0 →
        t.connect src dest bandwidth latency bidirectional = .error Fault.assertion) ∧
    (∀ (n : Int) (bandwidth : Bandwidth) (latency : Latency),
      n ≤ 0 ∨ bandwidth ≤ 0 ∨ latency < 0 →
        FullyConnected.new n bandwidth latency = .error Fault.assertion ∧
        Switch.new n bandwidth latency = .error Fault.assertion) ∧
    (∀ (n : Int) (bandwidth : Bandwidth) (latency : Latency),
      0 < n → 0 < bandwidth → 0 ≤ latency →
        (∃ t : FullyConnected, FullyConnected.new n bandwidth latency = .ok t) ∧
        (∃ t : Switch, Switch.new n bandwidth latency = .ok t)) := by
  refine ⟨?_, ?_, ?_⟩
  · intro t src dest bandwidth latency bidirectional h
    simp only [Topology.connect, CostModel.get_link_cost_1_1]
    rw [if_neg (by norm_num)]
    by_cases hb : bandwidth > 0
    · have hl : ¬ latency ≥ 0 := by
        rcases h with h | h
        · exact absurd hb (not_lt.mpr h)
        · exact not_le.mpr h
      rw [if_neg (not_not.mpr hb), if_pos hl]
    · rw [if_pos hb]
  · intro n bandwidth latency h
    have hbad : ¬ (n > 0 ∧ bandwidth > 0 ∧ latency ≥ 0) := by
      rintro ⟨h1, h2, h3⟩
      rcases h with h | h | h
      · omega
      · exact absurd h2 (not_lt.mpr h)
      · exact absurd h3 (not_le.mpr h)
    constructor
    · unfold FullyConnected.new
      simp only [BasicTopology.basic_new_eq]
      split_ifs with h1 h2 h3
      · exact absurd ⟨h1, h2, h3⟩ hbad
      · rfl
      · rfl
      · rfl
    · unfold Switch.new
      simp only [BasicTopology.basic_new_eq]
      split_ifs with h1 h2 h3
      · exact absurd ⟨h1, h2, h3⟩ hbad
      · rfl
      · rfl
      · rfl
  · intro n bandwidth latency hn hb hl
    exact ⟨⟨_, FullyConnected.fully_connected_new_eq n bandwidth latency hn hb hl⟩,
      ⟨_, Switch.switch_new_eq n bandwidth latency hn hb hl⟩⟩

/-- C16, at a connect with bandwidth 0, at the constructors with 0 NPUs, and at the
constructors with 2 NPUs, bandwidth 10 and latency 1. -/
theorem Topology.invalid_parameters_are_fatal_witness :
    (((0 : Bandwidth) ≤ 0 ∨ (1 : Latency) < 0) ∧
      Topology.connect Topology.new ⟨0⟩ ⟨1⟩ 0 1 true = .error Fault.assertion) ∧
    (((0 : Int) ≤ 0 ∨ (10 : Bandwidth) ≤ 0 ∨ (1 : Latency) < 0) ∧
      FullyConnected.new 0 10 1 = .error Fault.assertion ∧
      Switch.new 0 10 1 = .error Fault.assertion) ∧
    (((0 : Int) < 2 ∧ (0 : Bandwidth) < 10 ∧ (0 : Latency) ≤ 1) ∧
      (∃ t : FullyConnected, FullyConnected.new 2 10 1 = .ok t) ∧
      (∃ t : Switch, Switch.new 2 10 1 = .ok t)) :=
  ⟨⟨Or.inl (le_refl 0),
      Topology.invalid_parameters_are_fatal.1 Topology.new ⟨0⟩ ⟨1⟩ 0 1 true
        (Or.inl (le_refl 0))⟩,
    ⟨Or.inl (le_refl 0),
      Topology.invalid_parameters_are_fatal.2.1 0 10 1 (Or.inl (le_refl 0))⟩,
    ⟨⟨by decide, by norm_num, by norm_num⟩,
      Topology.invalid_parameters_are_fatal.2.2 2 10 1 (by decide) (by norm_num)
        (by norm_num)⟩⟩

/-! ## Topology::create_device -/

theorem Topology.create_device_registered (t : Topology) (id : DeviceId)
    (h : ∃ d ∈ t.devices, d.id = id) :
    t.create_device id = .error Fault.assertion := by
  have hall : ¬ ((t.devices.all fun device => decide (device.id ≠ id)) = true) := by
    rw [List.all_eq_true]
    intro hall
    obtain ⟨d, hd, hid⟩ := h
    have := hall d hd
    simp only [ne_eq, decide_eq_true_eq] at this
    exact this hid
  unfold Topology.create_device
  rw [if_pos hall]

theorem Topology.create_device_fresh (t : Topology) (id : DeviceId)
    (h : ∀ d ∈ t.devices, d.id ≠ id) :
    t.create_device id = .ok (⟨id⟩, { t with devices := t.devices ++ [⟨id⟩] }) := by
  have hall : (t.devices.all fun device => decide (device.id ≠ id)) = true := by
    rw [List.all_eq_true]
    intro d hd
    simp only [ne_eq, decide_eq_true_eq]
    exact h d hd
  unfold Topology.create_device
  rw [if_neg (not_not.mpr hall)]

/-- A successful sequence of `create_device` calls appends the devices in call order and
keeps the ids of the registry pairwise distinct. -/
theorem create_all_devices (ids : List DeviceId) (t t' : Topology)
    (h : create_all ids t = .ok t') :
    t'.devices = t.devices ++ ids.map Device.mk ∧
    ((t.devices.map Device.id).Nodup → (t'.devices.map Device.id).Nodup) := by
  induction ids generalizing t with
  | nil =>
    simp only [create_all, forEach] at h
    injection h with h
    rw [← h]
    simp
  | cons id rest ih =>
    by_cases hfresh : ∀ d ∈ t.devices, d.id ≠ id
    · have hstep : (fun (top : Topology) (id : DeviceId) =>
          (top.create_device id).map Prod.snd) t id
          = .ok { t with devices := t.devices ++ [Device.mk id] } := by
        simp only [Topology.create_device_fresh t id hfresh]
        rfl
      unfold create_all at h
      rw [forEach_cons_ok id rest _ t _ hstep] at h
      obtain ⟨hdev, hnodup⟩ := ih _ h
      refine ⟨?_, ?_⟩
      · rw [hdev]
        simp
      · intro hn
        apply hnodup
        show ((t.devices ++ [Device.mk id]).map Device.id).Nodup
        rw [List.map_append, List.map_singleton]
        refine List.Nodup.append hn (List.nodup_singleton _) ?_
        intro x hx hx'
        rw [List.mem_singleton] at hx'
        obtain ⟨d, hd, hdx⟩ := List.mem_map.mp hx
        exact hfresh d hd (hdx.trans hx')
    · have hdup : ∃ d ∈ t.devices, d.id = id := by
        by_contra hno
        exact hfresh (fun d hd hid => hno ⟨d, hd, hid⟩)
      have hstep : (fun (top : Topology) (id : DeviceId) =>
          (top.create_device id).map Prod.snd) t id = .error Fault.assertion := by
        simp only [Topology.create_device_registered t id hdup]
        rfl
      unfold create_all at h
      rw [forEach_cons_error id rest _ t _ hstep] at h
      cases h

/-- C12: `create_device(id)` is an assertion failure when a device with that id is already
registered; otherwise it returns the new device with that id and appends exactly it at the
end of the registry, leaving the devices registered before, their order and everything else
unchanged. After any sequence of successful `create_device` calls on a registry with
pairwise distinct ids, in particular on the empty registry of a fresh `Topology`, the
registered ids are pairwise distinct. -/
theorem Topology.create_device_unique :
    (∀ (t : Topology) (id : DeviceId), (∃ d ∈ t.devices, d.id = id) →
      t.create_device id = .error Fault.assertion) ∧
    (∀ (t : Topology) (id : DeviceId), (∀ d ∈ t.devices, d.id ≠ id) →
      ∃ (device : Device) (t' : Topology),
        t.create_device id = .ok (device, t') ∧ device.id = id ∧
        t'.devices = t.devices ++ [device] ∧
        t'.topology_cost = t.topology_cost ∧ t'.npus_count = t.npus_count ∧
        t'.devices_count = t.devices_count ∧ t'.links = t.links) ∧
    (∀ (ids : List DeviceId) (t t' : Topology),
      (t.devices.map Device.id).Nodup → create_all ids t = .ok t' →
        t'.devices = t.devices ++ ids.map Device.mk ∧
        (t'.devices.map Device.id).Nodup) ∧
    (∀ (ids : List DeviceId) (t' : Topology),
      create_all ids Topology.new = .ok t' →
        t'.devices.map Device.id = ids ∧ ids.Nodup) := by
  refine ⟨Topology.create_device_registered, ?_, ?_, ?_⟩
  · intro t id h
    exact ⟨⟨id⟩, _, Topology.create_device_fresh t id h, rfl, rfl, rfl, rfl, rfl, rfl⟩
  · intro ids t t' hn h
    obtain ⟨hdev, hnodup⟩ := create_all_devices ids t t' h
    exact ⟨hdev, hnodup hn⟩
  · intro ids t' h
    obtain ⟨hdev, hnodup⟩ := create_all_devices ids Topology.new t' h
    have hids : t'.devices.map Device.id = ids := by
      rw [hdev]
      simp [Topology.new, List.map_map, Function.comp_def]
    refine ⟨hids, ?_⟩
    rw [← hids]
    exact hnodup (by simp [Topology.new])

/-- C12, at the registry `[0, 1]`: creating id 1 again fails, creating id 5 appends it, and
the sequence of creations 7, 3 on a fresh topology leaves the registry `[7, 3]`. -/
theorem Topology.create_device_unique_witness :
    ((∃ d ∈ (⟨0, 2, 2, [⟨0⟩, ⟨1⟩], []⟩ : Topology).devices, d.id = 1) ∧
      Topology.create_device ⟨0, 2, 2, [⟨0⟩, ⟨1⟩], []⟩ 1 = .error Fault.assertion) ∧
    ((∀ d ∈ (⟨0, 2, 2, [⟨0⟩, ⟨1⟩], []⟩ : Topology).devices, d.id ≠ 5) ∧
      ∃ (device : Device) (t' : Topology),
        Topology.create_device ⟨0, 2, 2, [⟨0⟩, ⟨1⟩], []⟩ 5 = .ok (device, t') ∧
        device.id = 5 ∧
        t'.devices = [⟨0⟩, ⟨1⟩] ++ [device] ∧
        t'.topology_cost = 0 ∧ t'.npus_count = 2 ∧ t'.devices_count = 2 ∧ t'.links = []) ∧
    (create_all [7, 3] Topology.new = .ok ⟨0, -1, -1, [⟨7⟩, ⟨3⟩], []⟩ ∧
      (⟨0, -1, -1, [⟨7⟩, ⟨3⟩], []⟩ : Topology).devices.map Device.id = [7, 3] ∧
      ([7, 3] : List DeviceId).Nodup) :=
  have hdup : ∃ d ∈ (⟨0, 2, 2, [⟨0⟩, ⟨1⟩], []⟩ : Topology).devices, d.id = 1 :=
    ⟨⟨1⟩, by simp, rfl⟩
  have hfresh : ∀ d ∈ (⟨0, 2, 2, [⟨0⟩, ⟨1⟩], []⟩ : Topology).devices, d.id ≠ 5 := by
    intro d hd
    simp only [List.mem_cons, List.mem_singleton, List.not_mem_nil, or_false] at hd
    rcases hd with rfl | rfl <;> decide
  have hrun : create_all [7, 3] Topology.new = .ok ⟨0, -1, -1, [⟨7⟩, ⟨3⟩], []⟩ := by rfl
  ⟨⟨hdup, Topology.create_device_unique.1 _ 1 hdup⟩,
    ⟨hfresh, Topology.create_device_unique.2.1 _ 5 hfresh⟩,
    ⟨hrun, Topology.create_device_unique.2.2.2 [7, 3] _ hrun⟩⟩

/-! ## The links wired by FullyConnected -/

theorem devices_upto_nodup (k : Nat) : (devices_upto k).Nodup := by
  unfold devices_upto
  refine List.Nodup.map ?_ (List.nodup_range k)
  intro a b hab
  have h : ((a : Int)) = (b : Int) := congrArg Device.id hab
  omega

theorem mem_devices_upto_toNat (n : Int) (i : Int) :
    (⟨i⟩ : Device) ∈ devices_upto n.toNat ↔ 0 ≤ i ∧ i < n := by
  rw [mem_devices_upto]
  constructor
  · rintro ⟨j, hj, hij⟩
    have h : i = (j : Int) := congrArg Device.id hij
    omega
  · rintro ⟨h0, h1⟩
    have hid : ((i.toNat : Int)) = i := Int.toNat_of_nonneg h0
    refine ⟨i.toNat, by omega, ?_⟩
    rw [hid]

theorem mem_row_links (src : Device) (dests : List Device) (bandwidth : Bandwidth)
    (latency : Latency) (k : Link) :
    k ∈ row_links src dests bandwidth latency
      ↔ ∃ dest ∈ dests, src.id ≠ dest.id ∧ k = ⟨src.id, dest.id, bandwidth, latency⟩ := by
  simp only [row_links, List.mem_map, List.mem_filter, decide_eq_true_eq]
  constructor
  · rintro ⟨dest, ⟨hd, hne⟩, rfl⟩
    exact ⟨dest, hd, hne, rfl⟩
  · rintro ⟨dest, hd, hne, rfl⟩
    exact ⟨dest, ⟨hd, hne⟩, rfl⟩

theorem mem_pair_links (srcs dests : List Device) (bandwidth : Bandwidth)
    (latency : Latency) (k : Link) :
    k ∈ pair_links srcs dests bandwidth latency
      ↔ ∃ src ∈ srcs, ∃ dest ∈ dests,
          src.id ≠ dest.id ∧ k = ⟨src.id, dest.id, bandwidth, latency⟩ := by
  simp only [pair_links, List.mem_flatMap, mem_row_links]

theorem row_links_nodup (src : Device) (dests : List Device) (hd : dests.Nodup)
    (bandwidth : Bandwidth) (latency : Latency) :
    (row_links src dests bandwidth latency).Nodup := by
  unfold row_links
  refine List.Nodup.map ?_ (List.Nodup.filter _ hd)
  intro a b hab
  have h : a.id = b.id := congrArg Link.dest hab
  cases a
  cases b
  simp only at h
  rw [h]

theorem pair_links_nodup (srcs dests : List Device) (hs : srcs.Nodup) (hd : dests.Nodup)
    (bandwidth : Bandwidth) (latency : Latency) :
    (pair_links srcs dests bandwidth latency).Nodup := by
  unfold pair_links
  rw [List.nodup_flatMap]
  refine ⟨fun src _ => row_links_nodup src dests hd bandwidth latency, ?_⟩
  refine List.Pairwise.imp ?_ hs
  intro a b hab
  show List.Disjoint (row_links a dests bandwidth latency) (row_links b dests bandwidth latency)
  intro k hka hkb
  obtain ⟨da, _, _, rfl⟩ := (mem_row_links a dests bandwidth latency k).mp hka
  obtain ⟨db, _, _, hk⟩ := (mem_row_links b dests bandwidth latency _).mp hkb
  have h : a.id = b.id := congrArg Link.src hk
  apply hab
  cases a
  cases b
  simp only at h
  rw [h]

/-- A sequence of unidirectional `connect` calls, one for each link of `ls`, all with the
valid bandwidth and latency, wires exactly the links `ls` in order. -/
theorem connect_all_unidirectional (bandwidth : Bandwidth) (latency : Latency)
    (hb : 0 < bandwidth) (hl : 0 ≤ latency) (ls : List Link)
    (h : ∀ k ∈ ls, k.bandwidth = bandwidth ∧ k.latency = latency) (t : Topology) :
    connect_all (ls.map unidirectional_call) t
      = .ok { t with
          topology_cost := t.topology_cost + 4 * bandwidth * (ls.length : DollarCost),
          links := t.links ++ ls } := by
  induction ls generalizing t with
  | nil => simp [connect_all, forEach]
  | cons k rest ih =>
    obtain ⟨hkb, hkl⟩ := h k (List.mem_cons_self k rest)
    have hrest : ∀ x ∈ rest, x.bandwidth = bandwidth ∧ x.latency = latency :=
      fun x hx => h x (List.mem_cons_of_mem k hx)
    have hstep : (fun (top : Topology) (c : ConnectCall) =>
        top.connect c.src c.dest c.bandwidth c.latency c.bidirectional) t (unidirectional_call k)
        = .ok { t with
            topology_cost := t.topology_cost + 4 * bandwidth,
            links := t.links ++ [k] } := by
      show t.connect ⟨k.src⟩ ⟨k.dest⟩ k.bandwidth k.latency false = _
      rw [hkb, hkl, Topology.connect_eq t ⟨k.src⟩ ⟨k.dest⟩ bandwidth latency false hb hl]
      cases k
      simp only at hkb hkl
      simp [hkb, hkl]
    unfold connect_all at ih ⊢
    rw [List.map_cons, forEach_cons_ok _ _ _ t _ hstep]
    refine (ih hrest _).trans ?_
    simp only [List.length_cons, Nat.cast_add, Nat.cast_one, List.append_assoc,
      List.singleton_append]
    congr 2
    ring

/-- C13: for `n > 0` NPUs (and a valid bandwidth and latency) the links wired by
`FullyConnected::construct_connections` are exactly the links `i -> j` with `i`, `j` in
`[0, n)` and `i != j`, each wired once: `n * (n - 1)` directed links, no self-link, and
`i -> j` wired if and only if `j -> i` is; the topology built is the one that the sequence
of calls `connect(i, j, b, l, false)`, one for each of these links, builds on the base
topology. -/
theorem FullyConnected.construct_connections_pairs (n : Int) (bandwidth : Bandwidth)
    (latency : Latency) (hn : 0 < n) (hb : 0 < bandwidth) (hl : 0 ≤ latency) :
    ∃ t : FullyConnected,
      FullyConnected.new n bandwidth latency = .ok t ∧
      (∀ k : Link, k ∈ t.links ↔
        ∃ i j : Int, (0 ≤ i ∧ i < n) ∧ (0 ≤ j ∧ j < n) ∧ i ≠ j ∧
          k = ⟨i, j, bandwidth, latency⟩) ∧
      t.links.Nodup ∧
      (t.links.length : Int) = n * (n - 1) ∧
      (∀ k ∈ t.links, k.src ≠ k.dest) ∧
      (∀ i j : Int, (⟨i, j, bandwidth, latency⟩ : Link) ∈ t.links
        ↔ (⟨j, i, bandwidth, latency⟩ : Link) ∈ t.links) ∧
      (∃ base : BasicTopology,
        BasicTopology.new n n bandwidth latency = .ok base ∧ base.links = [] ∧
        connect_all (t.links.map unidirectional_call) base.toTopology = .ok t.toTopology) := by
  have hmem : ∀ k : Link,
      k ∈ pair_links (devices_upto n.toNat) (devices_upto n.toNat) bandwidth latency ↔
        ∃ i j : Int, (0 ≤ i ∧ i < n) ∧ (0 ≤ j ∧ j < n) ∧ i ≠ j ∧
          k = ⟨i, j, bandwidth, latency⟩ := by
    intro k
    rw [mem_pair_links]
    constructor
    · rintro ⟨⟨i⟩, hs, ⟨j⟩, hd, hne, rfl⟩
      exact ⟨i, j, (mem_devices_upto_toNat n i).mp hs, (mem_devices_upto_toNat n j).mp hd,
        hne, rfl⟩
    · rintro ⟨i, j, hi, hj, hne, rfl⟩
      exact ⟨⟨i⟩, (mem_devices_upto_toNat n i).mpr hi, ⟨j⟩,
        (mem_devices_upto_toNat n j).mpr hj, hne, rfl⟩
  refine ⟨_, FullyConnected.fully_connected_new_eq n bandwidth latency hn hb hl, hmem,
    pair_links_nodup _ _ (devices_upto_nodup _) (devices_upto_nodup _) bandwidth latency,
    ?_, ?_, ?_, ?_⟩
  · show ((pair_links (devices_upto n.toNat) (devices_upto n.toNat) bandwidth
        latency).length : Int) = n * (n - 1)
    rw [pair_links_upto_length]
    have h1 : 1 ≤ n.toNat := by omega
    have htn : ((n.toNat : Int)) = n := Int.toNat_of_nonneg (le_of_lt hn)
    rw [Nat.cast_mul, Nat.cast_sub h1, Nat.cast_one, htn]
  · intro k hk
    obtain ⟨i, j, _, _, hne, rfl⟩ := (hmem k).mp hk
    exact hne
  · intro i j
    show (⟨i, j, bandwidth, latency⟩ : Link)
        ∈ pair_links (devices_upto n.toNat) (devices_upto n.toNat) bandwidth latency
      ↔ (⟨j, i, bandwidth, latency⟩ : Link)
        ∈ pair_links (devices_upto n.toNat) (devices_upto n.toNat) bandwidth latency
    rw [hmem, hmem]
    constructor
    · rintro ⟨i', j', hi, hj, hne, hk⟩
      injection hk with h1 h2
      exact ⟨j, i, h2 ▸ hj, h1 ▸ hi, fun h => hne (by rw [← h1, ← h2, h]), rfl⟩
    · rintro ⟨i', j', hi, hj, hne, hk⟩
      injection hk with h1 h2
      exact ⟨i, j, h2 ▸ hj, h1 ▸ hi, fun h => hne (by rw [← h1, ← h2, h]), rfl⟩
  · refine ⟨_, BasicTopology.basic_new_eq n n bandwidth latency, rfl, ?_⟩
    rw [connect_all_unidirectional bandwidth latency hb hl]
    · simp only [zero_add, List.nil_append]
    · intro k hk
      obtain ⟨i, j, _, _, _, rfl⟩ := (hmem k).mp hk
      exact ⟨rfl, rfl⟩

/-- C13, at `FullyConnected(3, 10, 1)`. -/
theorem FullyConnected.construct_connections_pairs_witness :
    ((0 : Int) < 3 ∧ (0 : Bandwidth) < 10 ∧ (0 : Latency) ≤ 1) ∧
    ∃ t : FullyConnected,
      FullyConnected.new 3 10 1 = .ok t ∧
      (∀ k : Link, k ∈ t.links ↔
        ∃ i j : Int, (0 ≤ i ∧ i < 3) ∧ (0 ≤ j ∧ j < 3) ∧ i ≠ j ∧ k = ⟨i, j, 10, 1⟩) ∧
      t.links.Nodup ∧
      (t.links.length : Int) = 3 * (3 - 1) ∧
      (∀ k ∈ t.links, k.src ≠ k.dest) ∧
      (∀ i j : Int, (⟨i, j, 10, 1⟩ : Link) ∈ t.links ↔ (⟨j, i, 10, 1⟩ : Link) ∈ t.links) ∧
      (∃ base : BasicTopology,
        BasicTopology.new 3 3 10 1 = .ok base ∧ base.links = [] ∧
        connect_all (t.links.map unidirectional_call) base.toTopology = .ok t.toTopology) :=
  ⟨⟨by decide, by norm_num, by norm_num⟩,
    FullyConnected.construct_connections_pairs 3 10 1 (by decide) (by norm_num)
      (by norm_num)⟩

/-! ## The links wired by Switch -/

theorem mem_switch_links (npus : List Device) (switch_device : Device)
    (bandwidth : Bandwidth) (latency : Latency) (k : Link) :
    k ∈ switch_links npus switch_device bandwidth latency
      ↔ ∃ npu ∈ npus, k = ⟨npu.id, switch_device.id, bandwidth, latency⟩ ∨
          k = ⟨switch_device.id, npu.id, bandwidth, latency⟩ := by
  simp only [switch_links, List.mem_flatMap, List.mem_cons, List.mem_singleton,
    List.not_mem_nil, or_false]

theorem switch_links_length (npus : List Device) (switch_device : Device)
    (bandwidth : Bandwidth) (latency : Latency) :
    (switch_links npus switch_device bandwidth latency).length = 2 * npus.length := by
  induction npus with
  | nil => rfl
  | cons npu rest ih =>
    have hcons : switch_links (npu :: rest) switch_device bandwidth latency
        = [⟨npu.id, switch_device.id, bandwidth, latency⟩,
            ⟨switch_device.id, npu.id, bandwidth, latency⟩]
          ++ switch_links rest switch_device bandwidth latency := by
      simp only [switch_links, List.flatMap_cons]
    rw [hcons, List.length_append, ih, List.length_cons, List.length_cons, List.length_cons,
      List.length_nil]
    omega

theorem switch_links_nodup (npus : List Device) (switch_device : Device)
    (hn : npus.Nodup) (hs : ∀ npu ∈ npus, npu.id ≠ switch_device.id)
    (bandwidth : Bandwidth) (latency : Latency) :
    (switch_links npus switch_device bandwidth latency).Nodup := by
  unfold switch_links
  rw [List.nodup_flatMap]
  constructor
  · intro npu hnpu
    rw [List.nodup_cons]
    refine ⟨?_, List.nodup_singleton _⟩
    rw [List.mem_singleton]
    intro h
    exact hs npu hnpu (congrArg Link.src h)
  · refine List.Pairwise.imp_of_mem ?_ hn
    intro a b ha hb hab
    show List.Disjoint
      [(⟨a.id, switch_device.id, bandwidth, latency⟩ : Link),
        ⟨switch_device.id, a.id, bandwidth, latency⟩]
      [(⟨b.id, switch_device.id, bandwidth, latency⟩ : Link),
        ⟨switch_device.id, b.id, bandwidth, latency⟩]
    intro k hka hkb
    simp only [List.mem_cons, List.mem_singleton, List.not_mem_nil, or_false] at hka hkb
    have hid : a.id = b.id := by
      rcases hka with rfl | rfl <;> rcases hkb with h | h
      · exact congrArg Link.src h
      · exact absurd (congrArg Link.src h) (hs a ha)
      · exact absurd (congrArg Link.src h).symm (hs b hb)
      · exact congrArg Link.dest h
    apply hab
    cases a
    cases b
    simp only at hid
    rw [hid]

/-- A sequence of bidirectional `connect` calls between the devices `npus` and the switch
wires `npu -> switch` and `switch -> npu` for each of them, in order. -/
theorem connect_all_bidirectional (switch_device : Device) (bandwidth : Bandwidth)
    (latency : Latency) (hb : 0 < bandwidth) (hl : 0 ≤ latency) (npus : List Device)
    (t : Topology) :
    connect_all (npus.map (bidirectional_call switch_device bandwidth latency)) t
      = .ok { t with
          topology_cost := t.topology_cost + 2 * (4 * bandwidth) * (npus.length : DollarCost),
          links := t.links ++ switch_links npus switch_device bandwidth latency } := by
  induction npus generalizing t with
  | nil => simp [connect_all, forEach, switch_links]
  | cons npu rest ih =>
    have hstep : (fun (top : Topology) (c : ConnectCall) =>
        top.connect c.src c.dest c.bandwidth c.latency c.bidirectional) t
          (bidirectional_call switch_device bandwidth latency npu)
        = .ok { t with
            topology_cost := t.topology_cost + 2 * (4 * bandwidth),
            links := t.links ++
              [⟨npu.id, switch_device.id, bandwidth, latency⟩,
                ⟨switch_device.id, npu.id, bandwidth, latency⟩] } := by
      show t.connect npu switch_device bandwidth latency true = _
      rw [Topology.connect_eq t npu switch_device bandwidth latency true hb hl]
      simp
    unfold connect_all at ih ⊢
    rw [List.map_cons, forEach_cons_ok _ _ _ t _ hstep]
    refine (ih _).trans ?_
    simp only [switch_links, List.flatMap_cons, List.length_cons, Nat.cast_add, Nat.cast_one,
      List.append_assoc, List.cons_append, List.nil_append]
    congr 2
    ring

theorem devices_upto_take (k : Nat) : (devices_upto (k + 1)).take k = devices_upto k := by
  rw [devices_upto_succ]
  exact List.take_left' (devices_upto_length k)

/-- C14: for `n > 0` NPUs (and a valid bandwidth and latency) the links wired by
`Switch::construct_connections` are exactly `i -> s` and `s -> i` for `i` in `[0, n)`, where
`s` is the switch (id `n`), each wired once: `2n` directed links and none between two NPUs;
they are the links that the calls `connect(npu, switch, b, l, true)`, one for each of the
first `n` devices, wire on the base topology. -/
theorem Switch.construct_connections_star (n : Int) (bandwidth : Bandwidth)
    (latency : Latency) (hn : 0 < n) (hb : 0 < bandwidth) (hl : 0 ≤ latency) :
    ∃ t : Switch,
      Switch.new n bandwidth latency = .ok t ∧
      t.switch_device = ⟨n⟩ ∧
      (∀ k : Link, k ∈ t.links ↔
        ∃ i : Int, (0 ≤ i ∧ i < n) ∧
          (k = ⟨i, n, bandwidth, latency⟩ ∨ k = ⟨n, i, bandwidth, latency⟩)) ∧
      t.links.Nodup ∧
      (t.links.length : Int) = 2 * n ∧
      (∀ k ∈ t.links, ¬ ((0 ≤ k.src ∧ k.src < n) ∧ (0 ≤ k.dest ∧ k.dest < n))) ∧
      (∃ (base : BasicTopology) (top : Topology),
        BasicTopology.new n (n + 1) bandwidth latency = .ok base ∧ base.links = [] ∧
        connect_all
          ((t.devices.take n.toNat).map (bidirectional_call t.switch_device bandwidth latency))
          base.toTopology = .ok top ∧
        top.links = t.links) := by
  have hmem : ∀ k : Link,
      k ∈ switch_links (devices_upto n.toNat) ⟨n⟩ bandwidth latency ↔
        ∃ i : Int, (0 ≤ i ∧ i < n) ∧
          (k = ⟨i, n, bandwidth, latency⟩ ∨ k = ⟨n, i, bandwidth, latency⟩) := by
    intro k
    rw [mem_switch_links]
    constructor
    · rintro ⟨⟨i⟩, hi, hk⟩
      exact ⟨i, (mem_devices_upto_toNat n i).mp hi, hk⟩
    · rintro ⟨i, hi, hk⟩
      exact ⟨⟨i⟩, (mem_devices_upto_toNat n i).mpr hi, hk⟩
  have hsw : ∀ npu ∈ devices_upto n.toNat, npu.id ≠ (⟨n⟩ : Device).id := by
    rintro ⟨i⟩ hi
    have h := (mem_devices_upto_toNat n i).mp hi
    intro hin
    have hin' : i = n := hin
    rw [hin'] at h
    exact lt_irrefl n h.2
  refine ⟨_, Switch.switch_new_eq n bandwidth latency hn hb hl, rfl, hmem,
    switch_links_nodup _ _ (devices_upto_nodup _) hsw bandwidth latency, ?_, ?_, ?_⟩
  · show ((switch_links (devices_upto n.toNat) ⟨n⟩ bandwidth latency).length : Int) = 2 * n
    rw [switch_links_length, devices_upto_length]
    omega
  · intro k hk
    obtain ⟨i, hi, hk⟩ := (hmem k).mp hk
    rintro ⟨⟨_, hs⟩, ⟨_, hd⟩⟩
    rcases hk with rfl | rfl
    · exact lt_irrefl n hd
    · exact lt_irrefl n hs
  · refine ⟨_, _, BasicTopology.basic_new_eq n (n + 1) bandwidth latency, rfl,
      connect_all_bidirectional ⟨n⟩ bandwidth latency hb hl _ _, ?_⟩
    show [] ++ switch_links ((devices_upto (n.toNat + 1)).take n.toNat) ⟨n⟩ bandwidth latency
      = switch_links (devices_upto n.toNat) ⟨n⟩ bandwidth latency
    rw [devices_upto_take, List.nil_append]

/-- C14, at `Switch(3, 10, 1)`. -/
theorem Switch.construct_connections_star_witness :
    ((0 : Int) < 3 ∧ (0 : Bandwidth) < 10 ∧ (0 : Latency) ≤ 1) ∧
    ∃ t : Switch,
      Switch.new 3 10 1 = .ok t ∧
      t.switch_device = ⟨3⟩ ∧
      (∀ k : Link, k ∈ t.links ↔
        ∃ i : Int, (0 ≤ i ∧ i < 3) ∧ (k = ⟨i, 3, 10, 1⟩ ∨ k = ⟨3, i, 10, 1⟩)) ∧
      t.links.Nodup ∧
      (t.links.length : Int) = 2 * 3 ∧
      (∀ k ∈ t.links, ¬ ((0 ≤ k.src ∧ k.src < 3) ∧ (0 ≤ k.dest ∧ k.dest < 3))) ∧
      (∃ (base : BasicTopology) (top : Topology),
        BasicTopology.new 3 (3 + 1) 10 1 = .ok base ∧ base.links = [] ∧
        connect_all
          ((t.devices.take (3 : Int).toNat).map (bidirectional_call t.switch_device 10 1))
          base.toTopology = .ok top ∧
        top.links = t.links) :=
  ⟨⟨by decide, by norm_num, by norm_num⟩,
    Switch.construct_connections_star 3 10 1 (by decide) (by norm_num) (by norm_num)⟩

end NetworkAnalyticalCongestionAware

/-! ## EventQueue: scheduling order and time -/

namespace NetworkAnalytical

open NetworkAnalyticalCongestionAware (Fault forEach forEach_nil forEach_cons_ok
  forEach_cons_error)

namespace EventQueue

theorem pending_at_cons {α : Type} (c : EventTime) (l : EventList α)
    (rest : List (EventList α)) (t : EventTime) :
    pending_at ⟨c, l :: rest⟩ t
      = (if l.event_time = t then l.events else []) ++ pending_at ⟨c, rest⟩ t := by
  by_cases h : l.event_time = t
  · simp [pending_at, List.filter_cons, h]
  · simp [pending_at, List.filter_cons, h]

theorem pending_at_eq_nil_of_lt {α : Type} (c : EventTime) (es : List (EventList α))
    (t : EventTime) (h : ∀ l ∈ es, t < l.event_time) :
    pending_at ⟨c, es⟩ t = [] := by
  induction es with
  | nil => rfl
  | cons l rest ih =>
    have hl : ¬ l.event_time = t := ne_of_gt (h l (List.mem_cons_self l rest))
    rw [pending_at_cons, if_neg hl, ih (fun x hx => h x (List.mem_cons_of_mem l hx))]
    rfl

/-- Every list of the queue after an insertion is a list of the queue before, the list for
the inserted time extended at its end, or the new singleton list. -/
theorem mem_insert_event {α : Type} (t : EventTime) (a : α) (es : List (EventList α))
    (x : EventList α) (hx : x ∈ insert_event t a es) :
    x ∈ es ∨ (x.event_time = t ∧ x.events ≠ []) := by
  induction es with
  | nil =>
    simp only [insert_event, List.mem_singleton] at hx
    rw [hx]
    exact Or.inr ⟨rfl, by simp⟩
  | cons l rest ih =>
    simp only [insert_event] at hx
    split_ifs at hx with h1 h2
    · rcases List.mem_cons.mp hx with rfl | hx
      · exact Or.inr ⟨h1, by simp⟩
      · exact Or.inl (List.mem_cons_of_mem l hx)
    · rcases List.mem_cons.mp hx with rfl | hx
      · exact Or.inr ⟨rfl, by simp⟩
      · exact Or.inl hx
    · rcases List.mem_cons.mp hx with rfl | hx
      · exact Or.inl (List.mem_cons_self _ rest)
      · rcases ih hx with h | h
        · exact Or.inl (List.mem_cons_of_mem l h)
        · exact Or.inr h

theorem insert_event_sorted {α : Type} (t : EventTime) (a : α) (es : List (EventList α))
    (hs : es.Pairwise (fun x y => x.event_time < y.event_time)) :
    (insert_event t a es).Pairwise (fun x y => x.event_time < y.event_time) := by
  induction es with
  | nil => simp [insert_event]
  | cons l rest ih =>
    obtain ⟨hl, hrest⟩ := List.pairwise_cons.mp hs
    simp only [insert_event]
    split_ifs with h1 h2
    · exact List.pairwise_cons.mpr ⟨fun y hy => hl y hy, hrest⟩
    · refine List.pairwise_cons.mpr ⟨?_, hs⟩
      intro y hy
      rcases List.mem_cons.mp hy with rfl | hy
      · exact h2
      · exact lt_trans h2 (hl y hy)
    · refine List.pairwise_cons.mpr ⟨?_, ih hrest⟩
      intro y hy
      rcases mem_insert_event t a rest y hy with h | h
      · exact hl y h
      · rw [h.1]
        exact lt_of_le_of_ne (not_lt.mp h2) h1

theorem pending_at_insert_event_same {α : Type} (c : EventTime) (t : EventTime) (a : α)
    (es : List (EventList α)) (hs : es.Pairwise (fun x y => x.event_time < y.event_time)) :
    pending_at ⟨c, insert_event t a es⟩ t = pending_at ⟨c, es⟩ t ++ [a] := by
  induction es with
  | nil => simp [insert_event, pending_at]
  | cons l rest ih =>
    obtain ⟨hl, hrest⟩ := List.pairwise_cons.mp hs
    simp only [insert_event]
    split_ifs with h1 h2
    · have hnil : pending_at ⟨c, rest⟩ t = [] :=
        pending_at_eq_nil_of_lt c rest t (fun x hx => h1 ▸ hl x hx)
      rw [pending_at_cons, pending_at_cons, if_pos h1, if_pos h1, hnil]
      simp
    · have hnil : pending_at ⟨c, l :: rest⟩ t = [] :=
        pending_at_eq_nil_of_lt c (l :: rest) t (fun x hx => by
          rcases List.mem_cons.mp hx with rfl | hx
          · exact h2
          · exact lt_trans h2 (hl x hx))
      rw [pending_at_cons, if_pos rfl, hnil]
      simp
    · rw [pending_at_cons, pending_at_cons, if_neg h1, ih hrest]
      simp

theorem pending_at_insert_event_other {α : Type} (c : EventTime) (t t' : EventTime) (a : α)
    (es : List (EventList α)) (h : t' ≠ t) :
    pending_at ⟨c, insert_event t a es⟩ t' = pending_at ⟨c, es⟩ t' := by
  induction es with
  | nil =>
    simp only [insert_event]
    rw [pending_at_cons, if_neg (Ne.symm h)]
    rfl
  | cons l rest ih =>
    simp only [insert_event]
    split_ifs with h1 h2
    · rw [pending_at_cons, pending_at_cons]
      have hl : ¬ l.event_time = t' := by
        rw [h1]
        exact Ne.symm h
      rw [if_neg hl, if_neg hl]
    · rw [pending_at_cons, if_neg (Ne.symm h)]
      rfl
    · rw [pending_at_cons, pending_at_cons, ih]

/-- A `schedule_event` at a time `≥ current_time` on a well-formed queue. -/
theorem schedule_event_wellFormed {α : Type} (q : EventQueue α) (t : EventTime) (a : α)
    (hw : q.WellFormed) (ht : q.current_time ≤ t) :
    ∃ q' : EventQueue α,
      q.schedule_event t a = .ok q' ∧ q'.current_time = q.current_time ∧
      q'.pending_at t = q.pending_at t ++ [a] ∧
      (∀ t' : EventTime, t' ≠ t → q'.pending_at t' = q.pending_at t') ∧
      q'.WellFormed := by
  obtain ⟨hs, hall⟩ := hw
  refine ⟨{ q with event_queue := insert_event t a q.event_queue }, ?_, rfl, ?_, ?_, ?_, ?_⟩
  · unfold schedule_event
    rw [if_neg (not_not.mpr ht)]
  · exact pending_at_insert_event_same q.current_time t a q.event_queue hs
  · intro t' ht'
    exact pending_at_insert_event_other q.current_time t t' a q.event_queue ht'
  · exact insert_event_sorted t a q.event_queue hs
  · intro l hl
    rcases mem_insert_event t a q.event_queue l hl with h | h
    · exact hall l h
    · exact ⟨h.1 ▸ ht, h.2⟩

/-- A `proceed` on a well-formed queue that is not finished. -/
theorem proceed_wellFormed {α : Type} (q : EventQueue α) (hw : q.WellFormed)
    (hf : q.finished = false) :
    ∃ (q' : EventQueue α) (events : List α),
      q.proceed = .ok (q', events) ∧
      (∃ l ∈ q.event_queue, l.event_time = q'.current_time) ∧
      (∀ l ∈ q.event_queue, q'.current_time ≤ l.event_time) ∧
      events = q.pending_at q'.current_time ∧ events ≠ [] ∧
      q'.pending_at q'.current_time = [] ∧
      (∀ t : EventTime, t ≠ q'.current_time → q'.pending_at t = q.pending_at t) ∧
      q.current_time ≤ q'.current_time ∧
      q'.WellFormed := by
  obtain ⟨c, es⟩ := q
  cases es with
  | nil => simp [finished] at hf
  | cons l rest =>
    obtain ⟨hs, hall⟩ := hw
    obtain ⟨hl, hrest⟩ := List.pairwise_cons.mp hs
    have hnil : pending_at ⟨l.event_time, rest⟩ l.event_time = [] :=
      pending_at_eq_nil_of_lt _ rest _ hl
    have hnil' : pending_at ⟨c, rest⟩ l.event_time = [] :=
      pending_at_eq_nil_of_lt _ rest _ hl
    refine ⟨⟨l.event_time, rest⟩, l.events, rfl, ⟨l, List.mem_cons_self l rest, rfl⟩,
      ?_, ?_, (hall l (List.mem_cons_self l rest)).2, hnil, ?_,
      (hall l (List.mem_cons_self l rest)).1, hrest, ?_⟩
    · intro x hx
      rcases List.mem_cons.mp hx with rfl | hx
      · exact le_refl _
      · exact le_of_lt (hl x hx)
    · show l.events = pending_at ⟨c, l :: rest⟩ l.event_time
      rw [pending_at_cons, if_pos rfl, hnil', List.append_nil]
    · intro t ht
      show pending_at ⟨l.event_time, rest⟩ t = pending_at ⟨c, l :: rest⟩ t
      rw [pending_at_cons, if_neg (Ne.symm ht)]
      rfl
    · intro x hx
      exact ⟨le_of_lt (hl x hx), (hall x (List.mem_cons_of_mem l hx)).2⟩

/-- A successful call keeps the queue well-formed and never decreases `current_time`. -/
theorem call_wellFormed {α : Type} (q q' : EventQueue α) (c : Call α) (hw : q.WellFormed)
    (h : q.call c = .ok q') :
    q.current_time ≤ q'.current_time ∧ q'.WellFormed := by
  cases c with
  | schedule_event t a =>
    simp only [call] at h
    by_cases ht : q.current_time ≤ t
    · obtain ⟨q1, h1, hc, _, _, hw1⟩ := schedule_event_wellFormed q t a hw ht
      rw [h1] at h
      injection h with h
      rw [← h]
      exact ⟨le_of_eq hc.symm, hw1⟩
    · unfold schedule_event at h
      rw [if_pos ht] at h
      cases h
  | proceed =>
    simp only [call] at h
    cases hf : q.finished with
    | true =>
      obtain ⟨c, es⟩ := q
      cases es with
      | nil =>
        simp only [proceed] at h
        cases h
      | cons l rest => simp [finished] at hf
    | false =>
      obtain ⟨q1, events, h1, _, _, _, _, _, _, hle, hw1⟩ := proceed_wellFormed q hw hf
      rw [h1] at h
      injection h with h
      rw [← h]
      exact ⟨hle, hw1⟩

theorem call_all_wellFormed {α : Type} (calls : List (Call α)) (q q' : EventQueue α)
    (hw : q.WellFormed) (h : call_all calls q = .ok q') :
    q.current_time ≤ q'.current_time ∧ q'.WellFormed := by
  induction calls generalizing q with
  | nil =>
    simp only [call_all, forEach] at h
    injection h with h
    rw [← h]
    exact ⟨le_refl _, hw⟩
  | cons c rest ih =>
    unfold call_all at h ih
    cases hc : q.call c with
    | error e =>
      rw [forEach_cons_error c rest call q e hc] at h
      cases h
    | ok q1 =>
      rw [forEach_cons_ok c rest call q q1 hc] at h
      obtain ⟨hle1, hw1⟩ := call_wellFormed q q1 c hw hc
      obtain ⟨hle2, hw2⟩ := ih q1 hw1 h
      exact ⟨le_trans hle1 hle2, hw2⟩

theorem finished_iff_nothing_pending {α : Type} (q : EventQueue α) (hw : q.WellFormed) :
    q.finished = true ↔ ∀ t : EventTime, q.pending_at t = [] := by
  obtain ⟨c, es⟩ := q
  cases es with
  | nil =>
    constructor
    · intro _ t
      rfl
    · intro _
      rfl
  | cons l rest =>
    constructor
    · intro h
      simp [finished] at h
    · intro h
      have hl := h l.event_time
      rw [pending_at_cons, if_pos rfl] at hl
      have hne := (hw.2 l (List.mem_cons_self l rest)).2
      exact absurd (List.append_eq_nil.mp hl).1 hne

theorem new_wellFormed {α : Type} : (EventQueue.new : EventQueue α).WellFormed :=
  ⟨List.Pairwise.nil, fun _ h => absurd h (List.not_mem_nil _)⟩

/-- C18: `proceed` on a finished queue is an assertion failure. On a queue that is not
finished (and satisfies the data-model invariant) `proceed` sets `current_time` to the
earliest pending event time, removes exactly the actions registered at that time and
hands them over for invocation in the order in which they were scheduled, and leaves the
actions of every other time pending; `schedule_event` at a time `>= current_time` puts the
action behind those already registered for that time and changes nothing else. Across any
sequence of successful `schedule_event` and `proceed` calls, from a fresh queue or any
queue satisfying the invariant, `current_time` never decreases, and `finished()` is true
exactly when no action remains. -/
theorem proceed_fifo_and_time {α : Type} :
    (∀ q : EventQueue α, q.finished = true → q.proceed = .error Fault.assertion) ∧
    (∀ q : EventQueue α, q.WellFormed → q.finished = false →
      ∃ (q' : EventQueue α) (events : List α),
        q.proceed = .ok (q', events) ∧
        (∃ l ∈ q.event_queue, l.event_time = q'.current_time) ∧
        (∀ l ∈ q.event_queue, q'.current_time ≤ l.event_time) ∧
        events = q.pending_at q'.current_time ∧ events ≠ [] ∧
        q'.pending_at q'.current_time = [] ∧
        (∀ t : EventTime, t ≠ q'.current_time → q'.pending_at t = q.pending_at t) ∧
        q.current_time ≤ q'.current_time ∧
        q'.WellFormed) ∧
    (∀ (q : EventQueue α) (t : EventTime) (a : α), q.WellFormed → q.current_time ≤ t →
      ∃ q' : EventQueue α,
        q.schedule_event t a = .ok q' ∧ q'.current_time = q.current_time ∧
        q'.pending_at t = q.pending_at t ++ [a] ∧
        (∀ t' : EventTime, t' ≠ t → q'.pending_at t' = q.pending_at t') ∧
        q'.WellFormed) ∧
    (∀ (calls : List (Call α)) (q q' : EventQueue α), q.WellFormed →
      call_all calls q = .ok q' →
        q.current_time ≤ q'.current_time ∧ q'.WellFormed ∧
        (q'.finished = true ↔ ∀ t : EventTime, q'.pending_at t = [])) ∧
    (∀ (calls : List (Call α)) (q' : EventQueue α),
      call_all calls EventQueue.new = .ok q' →
        0 ≤ q'.current_time ∧ q'.WellFormed ∧
        (q'.finished = true ↔ ∀ t : EventTime, q'.pending_at t = [])) := by
  refine ⟨?_, proceed_wellFormed, schedule_event_wellFormed, ?_, ?_⟩
  · intro q hf
    obtain ⟨c, es⟩ := q
    cases es with
    | nil => rfl
    | cons l rest => simp [finished] at hf
  · intro calls q q' hw h
    obtain ⟨hle, hw'⟩ := call_all_wellFormed calls q q' hw h
    exact ⟨hle, hw', finished_iff_nothing_pending q' hw'⟩
  · intro calls q' h
    obtain ⟨hle, hw'⟩ := call_all_wellFormed calls EventQueue.new q' new_wellFormed h
    exact ⟨hle, hw', finished_iff_nothing_pending q' hw'⟩

/-- C18, on the queue obtained from a fresh one by scheduling action 1 at time 5, action 2
at time 3 and action 3 at time 5: it is at time 0 with `[2]` pending at 3 and `[1, 3]` at 5;
a `proceed` moves to time 3 and hands over `[2]`; on the fresh queue `proceed` fails. -/
theorem proceed_fifo_and_time_witness :
    (call_all [Call.schedule_event 5 1, Call.schedule_event 3 2, Call.schedule_event 5 3]
        (EventQueue.new : EventQueue Nat)
      = .ok ⟨0, [⟨3, [2]⟩, ⟨5, [1, 3]⟩]⟩) ∧
    ((0 : EventTime) ≤ (⟨0, [⟨3, [2]⟩, ⟨5, [1, 3]⟩]⟩ : EventQueue Nat).current_time ∧
      (⟨0, [⟨3, [2]⟩, ⟨5, [1, 3]⟩]⟩ : EventQueue Nat).WellFormed ∧
      ((⟨0, [⟨3, [2]⟩, ⟨5, [1, 3]⟩]⟩ : EventQueue Nat).finished = true
        ↔ ∀ t : EventTime,
            (⟨0, [⟨3, [2]⟩, ⟨5, [1, 3]⟩]⟩ : EventQueue Nat).pending_at t = [])) ∧
    ((⟨0, [⟨3, [2]⟩, ⟨5, [1, 3]⟩]⟩ : EventQueue Nat).finished = false ∧
      (⟨0, [⟨3, [2]⟩, ⟨5, [1, 3]⟩]⟩ : EventQueue Nat).proceed
        = .ok (⟨3, [⟨5, [1, 3]⟩]⟩, [2])) ∧
    ((EventQueue.new : EventQueue Nat).finished = true ∧
      (EventQueue.new : EventQueue Nat).proceed = .error Fault.assertion) :=
  have hrun : call_all
      [Call.schedule_event 5 1, Call.schedule_event 3 2, Call.schedule_event 5 3]
      (EventQueue.new : EventQueue Nat)
      = .ok ⟨0, [⟨3, [2]⟩, ⟨5, [1, 3]⟩]⟩ := by
    norm_num [call_all, forEach, call, schedule_event, insert_event, EventQueue.new]
  ⟨hrun, proceed_fifo_and_time.2.2.2.2 _ _ hrun, ⟨rfl, rfl⟩,
    ⟨rfl, proceed_fifo_and_time.1 _ rfl⟩⟩

end EventQueue

end NetworkAnalytical

/-! ## Link: the staggered arrival trace -/

namespace NetworkAnalyticalCongestionAware

open NetworkAnalytical

theorem except_ok_of_toOption {α : Type} (x : Except Fault α) (v : α)
    (h : x.toOption = some v) : x = .ok v := by
  cases x with
  | error e => simp [Except.toOption] at h
  | ok a =>
    simp only [Except.toOption, Option.some.injEq] at h
    rw [h]

/-- The driver loop stops on a finished queue whatever fuel is left. -/
theorem LinkSimulation.run_of_finished (fuel : Nat) (sim : LinkSimulation)
    (h : sim.event_queue.finished = true) : LinkSimulation.run fuel sim = .ok sim := by
  cases fuel with
  | zero => rfl
  | succ n => simp [LinkSimulation.run, h]

/-- Running `n + k` iterations is running `n` and then `k`. -/
theorem LinkSimulation.run_add (n k : Nat) (sim : LinkSimulation) :
    LinkSimulation.run (n + k) sim
      = match LinkSimulation.run n sim with
        | .error e => .error e
        | .ok sim' => LinkSimulation.run k sim' := by
  induction n generalizing sim with
  | zero => simp [LinkSimulation.run]
  | succ n ih =>
    rw [Nat.succ_add]
    by_cases hf : sim.event_queue.finished = true
    · simp only [LinkSimulation.run, hf, if_true]
      exact (LinkSimulation.run_of_finished k sim hf).symm ▸ rfl
    · simp only [LinkSimulation.run, hf]
      cases hp : sim.proceed with
      | error e => simp
      | ok sim' => simpa using ih sim'

/-- The staggered scenario: bandwidth 10, chunk 0 (A, size 100) arriving at time 0 and
chunk 1 (B, size 50) arriving at time 4. -/
theorem LinkSimulation.staggered_start :
    LinkSimulation.start 10 [(0, 0, 100), (4, 1, 50)]
      = .ok ⟨⟨0, [⟨0, [LinkEvent.arrival 0 100]⟩, ⟨4, [LinkEvent.arrival 1 50]⟩]⟩,
          ⟨10, [], 0, 0, 0⟩, []⟩ :=
  except_ok_of_toOption _ _ (by decide!)

/-- The staggered scenario runs to the end in six `proceed` calls (arrivals at 0 and 4, a
stale completion at 10, departures at 14 and 15, a stale completion at 16). -/
theorem LinkSimulation.staggered_run :
    LinkSimulation.run 6
        ⟨⟨0, [⟨0, [LinkEvent.arrival 0 100]⟩, ⟨4, [LinkEvent.arrival 1 50]⟩]⟩,
          ⟨10, [], 0, 0, 0⟩, []⟩
      = .ok ⟨⟨16, []⟩, ⟨10, [], 0, 15, 4⟩, [(1, 14), (0, 15)]⟩ :=
  except_ok_of_toOption _ _ (by decide!)

/-- The staggered scenario after four `proceed` calls, at time 14 when B has departed: A has
10 bytes left, not 50, and its completion is rescheduled at 15. -/
theorem LinkSimulation.staggered_run_to_14 :
    LinkSimulation.run 4
        ⟨⟨0, [⟨0, [LinkEvent.arrival 0 100]⟩, ⟨4, [LinkEvent.arrival 1 50]⟩]⟩,
          ⟨10, [], 0, 0, 0⟩, []⟩
      = .ok ⟨⟨14, [⟨15, [LinkEvent.completion 0 3]⟩, ⟨16, [LinkEvent.completion 0 2]⟩]⟩,
          ⟨10, [⟨0, 10⟩], 10, 14, 3⟩, [(1, 14)]⟩ :=
  except_ok_of_toOption _ _ (by decide!)

/-- The steps of section 4.3 of the specification on the staggered scenario of its property
P5 (bandwidth 10, A of size 100 admitted at 0, B of size 50 admitted at 4): the simulation
runs to the end, with any fuel of at least six iterations, and exactly two completions fire,
B's at simulated time 14 and A's at simulated time 15. At time 4 A has 60 bytes left and
both chunks share rate 5; at time 14 A has 10 bytes left and regains rate 10. Property P5 of
the same specification gives 19 for A; `Link.cc`, which would decide between the two, is not
among the embedded sources, so this is a fact about section 4.3 and not about the program. -/
theorem LinkSimulation.staggered_completion_times :
    LinkSimulation.start 10 [(0, 0, 100), (4, 1, 50)]
      = .ok ⟨⟨0, [⟨0, [LinkEvent.arrival 0 100]⟩, ⟨4, [LinkEvent.arrival 1 50]⟩]⟩,
          ⟨10, [], 0, 0, 0⟩, []⟩ ∧
    LinkSimulation.run 2
        ⟨⟨0, [⟨0, [LinkEvent.arrival 0 100]⟩, ⟨4, [LinkEvent.arrival 1 50]⟩]⟩,
          ⟨10, [], 0, 0, 0⟩, []⟩
      = .ok ⟨⟨4, [⟨10, [LinkEvent.completion 0 1]⟩, ⟨14, [LinkEvent.completion 1 2]⟩,
              ⟨16, [LinkEvent.completion 0 2]⟩]⟩,
          ⟨10, [⟨0, 60⟩, ⟨1, 50⟩], 5, 4, 2⟩, []⟩ ∧
    LinkSimulation.run 4
        ⟨⟨0, [⟨0, [LinkEvent.arrival 0 100]⟩, ⟨4, [LinkEvent.arrival 1 50]⟩]⟩,
          ⟨10, [], 0, 0, 0⟩, []⟩
      = .ok ⟨⟨14, [⟨15, [LinkEvent.completion 0 3]⟩, ⟨16, [LinkEvent.completion 0 2]⟩]⟩,
          ⟨10, [⟨0, 10⟩], 10, 14, 3⟩, [(1, 14)]⟩ ∧
    (∀ k : Nat,
      LinkSimulation.run (6 + k)
          ⟨⟨0, [⟨0, [LinkEvent.arrival 0 100]⟩, ⟨4, [LinkEvent.arrival 1 50]⟩]⟩,
            ⟨10, [], 0, 0, 0⟩, []⟩
        = .ok ⟨⟨16, []⟩, ⟨10, [], 0, 15, 4⟩, [(1, 14), (0, 15)]⟩) ∧
    EventQueue.finished (⟨16, []⟩ : EventQueue LinkEvent) = true := by
  refine ⟨LinkSimulation.staggered_start, except_ok_of_toOption _ _ (by decide!),
    LinkSimulation.staggered_run_to_14, ?_, rfl⟩
  intro k
  rw [LinkSimulation.run_add, LinkSimulation.staggered_run]
  exact LinkSimulation.run_of_finished k _ rfl

end NetworkAnalyticalCongestionAware

/-! ## The NIC price -/

namespace NetworkAnalyticalCongestionAware

theorem CostModel.nic_price_pos_iff (current_dim total_dim : Int) :
    0 < CostModel.nic_price current_dim total_dim
      ↔ (current_dim = total_dim ∧ 2 ≤ total_dim) := by
  unfold CostModel.nic_price
  constructor
  · intro h
    by_contra hne
    rw [if_neg hne] at h
    norm_num at h
  · intro h
    rw [if_pos h]
    norm_num

/-- C22: for `1 ≤ current_dim ≤ total_dim ≤ 4`, `get_nic_cost` returns a value that is
positive, namely 31.6, if and only if `current_dim = total_dim` and `total_dim >= 2`, and
is the sentinel `-1` otherwise; so `Switch::get_topology_cost_block` returns the link term
plus the switch term plus the NIC term `31.6 * n * b` for the outermost dimension of a
topology of at least two dimensions, and whenever it returns a value for another dimension
that value is the link term plus the switch term, without a NIC term. -/
theorem CostModel.get_nic_cost_outermost (current_dim total_dim : Int)
    (h1 : 1 ≤ current_dim) (h2 : current_dim ≤ total_dim) (h3 : total_dim ≤ 4) :
    ∃ nic_cost : DollarCost,
      CostModel.get_nic_cost current_dim total_dim = .ok nic_cost ∧
      (0 < nic_cost ↔ (current_dim = total_dim ∧ 2 ≤ total_dim)) ∧
      ((current_dim = total_dim ∧ 2 ≤ total_dim) → nic_cost = 316 / 10) ∧
      (¬ (current_dim = total_dim ∧ 2 ≤ total_dim) → nic_cost = -1) ∧
      (∀ t : Switch,
        ((current_dim = total_dim ∧ 2 ≤ total_dim) →
          ∃ link_cost switch_cost : DollarCost,
            CostModel.get_link_cost current_dim total_dim = .ok link_cost ∧
            CostModel.get_switch_cost current_dim total_dim = .ok switch_cost ∧
            t.get_topology_cost_block current_dim total_dim
              = .ok (link_cost * t.bandwidth * (2 * (t.npus_count : DollarCost))
                  + switch_cost * (t.npus_count : DollarCost) * t.bandwidth
                  + 316 / 10 * (t.npus_count : DollarCost) * t.bandwidth)) ∧
        (¬ (current_dim = total_dim ∧ 2 ≤ total_dim) →
          ∀ cost : DollarCost, t.get_topology_cost_block current_dim total_dim = .ok cost →
            ∃ link_cost switch_cost : DollarCost,
              CostModel.get_link_cost current_dim total_dim = .ok link_cost ∧
              CostModel.get_switch_cost current_dim total_dim = .ok switch_cost ∧
              cost = link_cost * t.bandwidth * (2 * (t.npus_count : DollarCost))
                  + switch_cost * (t.npus_count : DollarCost) * t.bandwidth)) := by
  have hl := CostModel.get_link_cost_eq current_dim total_dim h1 h2 h3
  have hs := CostModel.get_switch_cost_eq current_dim total_dim h1 h2 h3
  have hn := CostModel.get_nic_cost_eq current_dim total_dim h1 h2 h3
  have hlp := CostModel.link_price_pos current_dim total_dim
  refine ⟨_, hn, CostModel.nic_price_pos_iff current_dim total_dim, ?_, ?_, ?_⟩
  · intro h
    unfold CostModel.nic_price
    rw [if_pos h]
  · intro h
    unfold CostModel.nic_price
    rw [if_neg h]
  · intro t
    constructor
    · intro h
      have hsp : 0 < CostModel.switch_price current_dim total_dim := by
        unfold CostModel.switch_price
        rw [if_neg (by omega), if_pos h]
        norm_num
      have hnp : 0 < CostModel.nic_price current_dim total_dim :=
        (CostModel.nic_price_pos_iff current_dim total_dim).mpr h
      have hnv : CostModel.nic_price current_dim total_dim = 316 / 10 := by
        unfold CostModel.nic_price
        rw [if_pos h]
      refine ⟨_, _, hl, hs, ?_⟩
      simp only [Switch.get_topology_cost_block, hl, hs, hn]
      rw [if_neg (not_not.mpr hlp), if_neg (not_not.mpr hsp), if_pos hnp, hnv]
      congr 1
      push_cast
      ring
    · intro h cost hc
      have hnp : ¬ 0 < CostModel.nic_price current_dim total_dim :=
        fun hp => h ((CostModel.nic_price_pos_iff current_dim total_dim).mp hp)
      refine ⟨_, _, hl, hs, ?_⟩
      simp only [Switch.get_topology_cost_block, hl, hs, hn] at hc
      rw [if_neg (not_not.mpr hlp)] at hc
      by_cases hsp : CostModel.switch_price current_dim total_dim > 0
      · rw [if_neg (not_not.mpr hsp), if_neg hnp] at hc
        injection hc with hc
        rw [← hc]
        push_cast
        ring
      · rw [if_pos hsp] at hc
        cases hc

/-- C22, at dimension 3 of 3, the outermost dimension of a three-dimensional topology. -/
theorem CostModel.get_nic_cost_outermost_witness :
    ((1 : Int) ≤ 3 ∧ (3 : Int) ≤ 3 ∧ (3 : Int) ≤ 4) ∧
    ∃ nic_cost : DollarCost,
      CostModel.get_nic_cost 3 3 = .ok nic_cost ∧
      (0 < nic_cost ↔ ((3 : Int) = 3 ∧ (2 : Int) ≤ 3)) ∧
      (((3 : Int) = 3 ∧ (2 : Int) ≤ 3) → nic_cost = 316 / 10) ∧
      (¬ ((3 : Int) = 3 ∧ (2 : Int) ≤ 3) → nic_cost = -1) :=
  ⟨by decide,
    (CostModel.get_nic_cost_outermost 3 3 (by decide) (by decide) (by decide)).imp
      fun _ h => ⟨h.1, h.2.1, h.2.2.1, h.2.2.2.1⟩⟩

/-! ## Routes follow wired links -/

theorem Topology.connected_iff (t : Topology) (u v : Device) :
    t.connected u v = true ↔ ∃ k ∈ t.links, k.src = u.id ∧ k.dest = v.id := by
  simp only [Topology.connected, List.any_eq_true, decide_eq_true_eq]

theorem Topology.traversable_pair (t : Topology) (u v : Device) :
    t.traversable [u, v] = t.connected u v := by
  simp [Topology.traversable]

theorem Topology.traversable_triple (t : Topology) (u v w : Device) :
    t.traversable [u, v, w] = (t.connected u v && t.connected v w) := by
  simp [Topology.traversable]

/-- C21: for `n > 0` (and a valid bandwidth and latency), on the topology built by
`FullyConnected(n)` every `route(src, dest)` with `src != dest` in `[0, n)` is `[src, dest]`
and `src -> dest` is a link wired by `construct_connections`, while `route(i, i)` returns
`[i, i]` although no link `i -> i` is wired; on the topology built by `Switch(n)` every
`route(src, dest)` with `src`, `dest` in `[0, n)` is `[src, switch, dest]` and both
`src -> switch` and `switch -> dest` are links wired by `construct_connections`. -/
theorem Topology.routes_follow_links (n : Int) (bandwidth : Bandwidth) (latency : Latency)
    (hn : 0 < n) (hb : 0 < bandwidth) (hl : 0 ≤ latency) :
    (∃ t : FullyConnected,
      FullyConnected.new n bandwidth latency = .ok t ∧
      (∀ src dest : Int, 0 ≤ src → src < n → 0 ≤ dest → dest < n → src ≠ dest →
        t.route src dest = .ok [⟨src⟩, ⟨dest⟩] ∧
        (⟨src, dest, bandwidth, latency⟩ : Link) ∈ t.links ∧
        t.traversable [⟨src⟩, ⟨dest⟩] = true) ∧
      (∀ i : Int, 0 ≤ i → i < n →
        t.route i i = .ok [⟨i⟩, ⟨i⟩] ∧
        (∀ k ∈ t.links, ¬ (k.src = i ∧ k.dest = i)) ∧
        t.traversable [⟨i⟩, ⟨i⟩] = false)) ∧
    (∃ t : Switch,
      Switch.new n bandwidth latency = .ok t ∧
      (∀ src dest : Int, 0 ≤ src → src < n → 0 ≤ dest → dest < n →
        t.route src dest = .ok [⟨src⟩, ⟨n⟩, ⟨dest⟩] ∧
        (⟨src, n, bandwidth, latency⟩ : Link) ∈ t.links ∧
        (⟨n, dest, bandwidth, latency⟩ : Link) ∈ t.links ∧
        t.traversable [⟨src⟩, ⟨n⟩, ⟨dest⟩] = true)) := by
  constructor
  · refine ⟨_, FullyConnected.fully_connected_new_eq n bandwidth latency hn hb hl, ?_, ?_⟩
    · intro src dest hs0 hs1 hd0 hd1 hne
      have hs1' : src < ((n.toNat : Nat) : Int) := by omega
      have hd1' : dest < ((n.toNat : Nat) : Int) := by omega
      have hmem : (⟨src, dest, bandwidth, latency⟩ : Link)
          ∈ pair_links (devices_upto n.toNat) (devices_upto n.toNat) bandwidth latency :=
        (mem_pair_links _ _ bandwidth latency _).mpr
          ⟨⟨src⟩, (mem_devices_upto_toNat n src).mpr ⟨hs0, hs1⟩,
            ⟨dest⟩, (mem_devices_upto_toNat n dest).mpr ⟨hd0, hd1⟩, hne, rfl⟩
      refine ⟨?_, hmem, ?_⟩
      · simp only [FullyConnected.route]
        rw [if_neg (not_not.mpr ⟨hs0, hs1⟩), if_neg (not_not.mpr ⟨hd0, hd1⟩),
          devices_upto_getElem?_toNat _ src hs0 hs1',
          devices_upto_getElem?_toNat _ dest hd0 hd1']
      · rw [Topology.traversable_pair, Topology.connected_iff]
        exact ⟨_, hmem, rfl, rfl⟩
    · intro i hi0 hi1
      have hi1' : i < ((n.toNat : Nat) : Int) := by omega
      have hno : ∀ k ∈ pair_links (devices_upto n.toNat) (devices_upto n.toNat)
          bandwidth latency, ¬ (k.src = i ∧ k.dest = i) := by
        intro k hk
        obtain ⟨s, _, d, _, hne, rfl⟩ := (mem_pair_links _ _ bandwidth latency k).mp hk
        rintro ⟨h1, h2⟩
        exact hne (h1.trans h2.symm)
      refine ⟨?_, hno, ?_⟩
      · simp only [FullyConnected.route]
        rw [if_neg (not_not.mpr ⟨hi0, hi1⟩), if_neg (not_not.mpr ⟨hi0, hi1⟩),
          devices_upto_getElem?_toNat _ i hi0 hi1']
      · rw [Topology.traversable_pair]
        cases hc : Topology.connected _ (⟨i⟩ : Device) (⟨i⟩ : Device) with
        | false => rfl
        | true =>
          obtain ⟨k, hk, h1, h2⟩ := (Topology.connected_iff _ _ _).mp hc
          exact absurd ⟨h1, h2⟩ (hno k hk)
  · refine ⟨_, Switch.switch_new_eq n bandwidth latency hn hb hl, ?_⟩
    intro src dest hs0 hs1 hd0 hd1
    have hs1' : src < ((n.toNat + 1 : Nat) : Int) := by omega
    have hd1' : dest < ((n.toNat + 1 : Nat) : Int) := by omega
    have hin : (⟨src, n, bandwidth, latency⟩ : Link)
        ∈ switch_links (devices_upto n.toNat) ⟨n⟩ bandwidth latency :=
      (mem_switch_links _ _ bandwidth latency _).mpr
        ⟨⟨src⟩, (mem_devices_upto_toNat n src).mpr ⟨hs0, hs1⟩, Or.inl rfl⟩
    have hout : (⟨n, dest, bandwidth, latency⟩ : Link)
        ∈ switch_links (devices_upto n.toNat) ⟨n⟩ bandwidth latency :=
      (mem_switch_links _ _ bandwidth latency _).mpr
        ⟨⟨dest⟩, (mem_devices_upto_toNat n dest).mpr ⟨hd0, hd1⟩, Or.inr rfl⟩
    refine ⟨?_, hin, hout, ?_⟩
    · simp only [Switch.route]
      rw [if_neg (not_not.mpr ⟨hs0, hs1⟩), if_neg (not_not.mpr ⟨hd0, hd1⟩),
        devices_upto_getElem?_toNat _ src hs0 hs1',
        devices_upto_getElem?_toNat _ dest hd0 hd1']
    · rw [Topology.traversable_triple, Bool.and_eq_true, Topology.connected_iff,
        Topology.connected_iff]
      exact ⟨⟨_, hin, rfl, rfl⟩, ⟨_, hout, rfl, rfl⟩⟩

/-- C21, at 3 NPUs with bandwidth 10 and latency 1. -/
theorem Topology.routes_follow_links_witness :
    ((0 : Int) < 3 ∧ (0 : Bandwidth) < 10 ∧ (0 : Latency) ≤ 1) ∧
    (∃ t : FullyConnected,
      FullyConnected.new 3 10 1 = .ok t ∧
      (∀ src dest : Int, 0 ≤ src → src < 3 → 0 ≤ dest → dest < 3 → src ≠ dest →
        t.route src dest = .ok [⟨src⟩, ⟨dest⟩] ∧
        (⟨src, dest, 10, 1⟩ : Link) ∈ t.links ∧
        t.traversable [⟨src⟩, ⟨dest⟩] = true) ∧
      (∀ i : Int, 0 ≤ i → i < 3 →
        t.route i i = .ok [⟨i⟩, ⟨i⟩] ∧
        (∀ k ∈ t.links, ¬ (k.src = i ∧ k.dest = i)) ∧
        t.traversable [⟨i⟩, ⟨i⟩] = false)) ∧
    (∃ t : Switch,
      Switch.new 3 10 1 = .ok t ∧
      (∀ src dest : Int, 0 ≤ src → src < 3 → 0 ≤ dest → dest < 3 →
        t.route src dest = .ok [⟨src⟩, ⟨3⟩, ⟨dest⟩] ∧
        (⟨src, 3, 10, 1⟩ : Link) ∈ t.links ∧
        (⟨3, dest, 10, 1⟩ : Link) ∈ t.links ∧
        t.traversable [⟨src⟩, ⟨3⟩, ⟨dest⟩] = true)) :=
  ⟨⟨by decide, by norm_num, by norm_num⟩,
    Topology.routes_follow_links 3 10 1 (by decide) (by norm_num) (by norm_num)⟩

end NetworkAnalyticalCongestionAware

/-! ## The int product of FullyConnected::get_topology_cost_block -/

namespace NetworkAnalyticalCongestionAware

/-- A value inside the range of `int` is not changed by `wrap_int32`. -/
theorem wrap_int32_of_fits (x : Int) (h1 : -2147483648 ≤ x) (h2 : x ≤ 2147483647) :
    wrap_int32 x = x := by
  unfold wrap_int32
  omega

/-- For `1 <= n <= 46341` the product `n * (n - 1)` fits in an `int`. -/
theorem links_count_fits (n : Int) (h1 : 1 ≤ n) (h2 : n ≤ 46341) :
    wrap_int32 (n * (n - 1)) = n * (n - 1) := by
  apply wrap_int32_of_fits
  · nlinarith
  · nlinarith

/-- Where the product `npus_count * (npus_count - 1)` fits in an `int`,
`FullyConnected::get_topology_cost_block` returns the unit link price times the bandwidth
times that product, for every `1 ≤ current_dim ≤ total_dim ≤ 4`. -/
theorem FullyConnected.get_topology_cost_block_of_fits (t : FullyConnected)
    (current_dim total_dim : Int) (h1 : 1 ≤ current_dim) (h2 : current_dim ≤ total_dim)
    (h3 : total_dim ≤ 4)
    (hfit : wrap_int32 (t.npus_count * (t.npus_count - 1))
      = t.npus_count * (t.npus_count - 1)) :
    ∃ link_cost : DollarCost,
      CostModel.get_link_cost current_dim total_dim = .ok link_cost ∧
      t.get_topology_cost_block current_dim total_dim
        = .ok (link_cost * t.bandwidth * (t.npus_count : DollarCost)
            * ((t.npus_count : DollarCost) - 1)) := by
  refine ⟨CostModel.link_price current_dim total_dim,
    CostModel.get_link_cost_eq current_dim total_dim h1 h2 h3, ?_⟩
  simp only [FullyConnected.get_topology_cost_block,
    CostModel.get_link_cost_eq current_dim total_dim h1 h2 h3, hfit]
  rw [if_neg (not_not.mpr (CostModel.link_price_pos current_dim total_dim))]
  congr 1
  push_cast
  ring

/-- C3, the failing input `FullyConnected(46342, 1.0, 0.0)`, block of dimension 1 of 1: the
constructor completes with `npus_count = 46342`; the number of links `46342 * 46341` is
2147534622, above the largest `int` 2147483647, so the `int` product of the source
overflows; with the wrap-around to -2147432674 the block returned is
`4 * 1 * (-2147432674)`, a negative cost, and not `4 * 1 * 46342 * (46342 - 1)`. -/
theorem FullyConnected.get_topology_cost_block_overflows :
    ∃ t : FullyConnected,
      FullyConnected.new 46342 1 0 = .ok t ∧
      t.npus_count = 46342 ∧ t.bandwidth = 1 ∧
      t.npus_count * (t.npus_count - 1) = 2147534622 ∧
      (2147483647 : Int) < 2147534622 ∧
      wrap_int32 (t.npus_count * (t.npus_count - 1)) = -2147432674 ∧
      CostModel.get_link_cost 1 1 = .ok 4 ∧
      t.get_topology_cost_block 1 1 = .ok (4 * 1 * ((-2147432674 : Int) : DollarCost)) ∧
      (4 * 1 * ((-2147432674 : Int) : DollarCost) : DollarCost)
        ≠ 4 * 1 * ((46342 : Int) : DollarCost) * (((46342 : Int) : DollarCost) - 1) := by
  refine ⟨_, FullyConnected.fully_connected_new_eq 46342 1 0 (by decide) (by norm_num)
    (by norm_num), rfl, rfl, ?_, by decide, ?_, rfl, ?_, by norm_num⟩
  · show (46342 : Int) * (46342 - 1) = 2147534622
    decide
  · show wrap_int32 ((46342 : Int) * (46342 - 1)) = -2147432674
    decide
  · have hw : wrap_int32 ((46342 : Int) * (46342 - 1)) = -2147432674 := by decide
    simp only [FullyConnected.get_topology_cost_block, CostModel.get_link_cost_1_1, hw]
    rw [if_neg (by norm_num)]

end NetworkAnalyticalCongestionAware

/-! ## Rounded arithmetic: Topology::connect -/

namespace NetworkAnalyticalCongestionAware

/-- With `rnd = id` the rounded form of `Topology::connect` is the plain one. -/
theorem Topology.connect_rounded_id : Topology.connect_rounded id = Topology.connect := rfl

/-- With `rnd = id` the rounded form of the `FullyConnected` constructor is the plain one. -/
theorem FullyConnected.fully_connected_new_rounded_id :
    FullyConnected.new_rounded id = FullyConnected.new := rfl

/-- With `rnd = id` the rounded form of `FullyConnected::get_topology_cost_block` is the
plain one. -/
theorem FullyConnected.fully_connected_block_rounded_id :
    FullyConnected.get_topology_cost_block_rounded id
      = FullyConnected.get_topology_cost_block := rfl

/-- With `rnd = id` the rounded form of the `Switch` constructor is the plain one. -/
theorem Switch.switch_new_rounded_id : Switch.new_rounded id = Switch.new := rfl

/-- With `rnd = id` the rounded form of `Switch::get_topology_cost_block` is the plain
one. -/
theorem Switch.switch_block_rounded_id :
    Switch.get_topology_cost_block_rounded id = Switch.get_topology_cost_block := rfl

/-- With `rnd = id` every value is left as it is. -/
theorem exact_upto_id (unit : ℚ) (bound : Int) : exact_upto id unit bound :=
  fun _ _ _ => ⟨rfl, rfl⟩

/-- What `Topology::connect` does in rounded arithmetic when its bandwidth and latency are
valid: the link cost `rnd (4 * bandwidth)` is added once per direction, each addition
rounded. -/
theorem Topology.connect_rounded_eq (rnd : ℚ → ℚ) (hfour : rnd 4 = 4) (t : Topology)
    (src dest : Device) (bandwidth : Bandwidth) (latency : Latency) (bidirectional : Bool)
    (hb : 0 < bandwidth) (hl : 0 ≤ latency) :
    t.connect_rounded rnd src dest bandwidth latency bidirectional
      = .ok { t with
          topology_cost :=
            if bidirectional then
              rnd (rnd (t.topology_cost + rnd (4 * bandwidth)) + rnd (4 * bandwidth))
            else rnd (t.topology_cost + rnd (4 * bandwidth)),
          links := t.links ++
            (if bidirectional then
              [⟨src.id, dest.id, bandwidth, latency⟩, ⟨dest.id, src.id, bandwidth, latency⟩]
            else [⟨src.id, dest.id, bandwidth, latency⟩]) } := by
  simp only [Topology.connect_rounded, CostModel.get_link_cost_1_1, Topology.device_connect,
    hfour]
  rw [if_neg (by norm_num), if_neg (not_not.mpr hb), if_neg (not_not.mpr hl)]
  cases bidirectional
  · simp
  · simp

/-- The multiples `4 * bandwidth * k` for `k ≤ bound` are among the values that
`exact_upto rnd bandwidth (4 * bound)` leaves as they are. -/
theorem exact_upto_link_multiples (rnd : ℚ → ℚ) (bandwidth : Bandwidth) (limit : Int)
    (hex : exact_upto rnd bandwidth limit) (K : Nat) (hK : 4 * (K : Int) ≤ limit) :
    ∀ k : Nat, k ≤ K → rnd (4 * bandwidth * (k : ℚ)) = 4 * bandwidth * (k : ℚ) := by
  intro k hk
  have h := (hex (4 * (k : Int)) (by omega) (by omega)).2
  have e : bandwidth * ((4 * (k : Int) : Int) : ℚ) = 4 * bandwidth * (k : ℚ) := by
    push_cast
    ring
  rw [e] at h
  exact h

/-- A `Topology::connect` whose additions incur no rounding error does in rounded arithmetic
what it does in exact arithmetic: the cost before is the multiple `4 * bandwidth * k0` and
the multiples up to `k0 + 2` are left as they are by `rnd`. -/
theorem Topology.connect_rounded_exact (rnd : ℚ → ℚ) (hfour : rnd 4 = 4) (t : Topology)
    (src dest : Device) (bandwidth : Bandwidth) (latency : Latency) (bidirectional : Bool)
    (hb : 0 < bandwidth) (hl : 0 ≤ latency) (K k0 : Nat)
    (hmul : ∀ k : Nat, k ≤ K → rnd (4 * bandwidth * (k : ℚ)) = 4 * bandwidth * (k : ℚ))
    (hc : t.topology_cost = 4 * bandwidth * (k0 : ℚ))
    (hK : k0 + (if bidirectional then 2 else 1) ≤ K) :
    t.connect_rounded rnd src dest bandwidth latency bidirectional
      = t.connect src dest bandwidth latency bidirectional := by
  rw [Topology.connect_rounded_eq rnd hfour t src dest bandwidth latency bidirectional hb hl,
    Topology.connect_eq t src dest bandwidth latency bidirectional hb hl]
  have hx : rnd (4 * bandwidth) = 4 * bandwidth := by
    have h := hmul 1 (by split_ifs at hK <;> omega)
    simpa using h
  have h1 : rnd (t.topology_cost + 4 * bandwidth) = t.topology_cost + 4 * bandwidth := by
    have h := hmul (k0 + 1) (by split_ifs at hK <;> omega)
    have e : 4 * bandwidth * ((k0 + 1 : Nat) : ℚ) = t.topology_cost + 4 * bandwidth := by
      rw [hc]
      push_cast
      ring
    rw [e] at h
    exact h
  cases bidirectional
  · simp only [Bool.false_eq_true, if_false, hx, h1]
  · have h2 : rnd (t.topology_cost + 4 * bandwidth + 4 * bandwidth)
        = t.topology_cost + 2 * (4 * bandwidth) := by
      have h := hmul (k0 + 2) (by simpa using hK)
      have e : 4 * bandwidth * ((k0 + 2 : Nat) : ℚ)
          = t.topology_cost + 4 * bandwidth + 4 * bandwidth := by
        rw [hc]
        push_cast
        ring
      rw [e] at h
      rw [h]
      ring
    simp only [if_true, hx, h1, h2]

end NetworkAnalyticalCongestionAware

/-! ## Rounded arithmetic: the constructors -/

namespace NetworkAnalyticalCongestionAware

/-- The inner loop of `FullyConnected::construct_connections` for one `src` in rounded
arithmetic, when the cost before is the multiple `4 * bandwidth * k0` and no multiple up to
the last one reached is rounded. -/
theorem FullyConnected.inner_loop_rounded (rnd : ℚ → ℚ) (hfour : rnd 4 = 4) (src : Device)
    (bandwidth : Bandwidth) (latency : Latency) (hb : 0 < bandwidth) (hl : 0 ≤ latency)
    (K : Nat)
    (hmul : ∀ k : Nat, k ≤ K → rnd (4 * bandwidth * (k : ℚ)) = 4 * bandwidth * (k : ℚ))
    (dests : List Device) (top : Topology) (k0 : Nat)
    (hc : top.topology_cost = 4 * bandwidth * (k0 : ℚ))
    (hK : k0 + (row_links src dests bandwidth latency).length ≤ K) :
    forEach dests
        (fun (top : Topology) (dest : Device) =>
          if src.id ≠ dest.id then top.connect_rounded rnd src dest bandwidth latency false
          else .ok top)
        top
      = .ok { top with
          topology_cost := top.topology_cost
            + 4 * bandwidth * ((row_links src dests bandwidth latency).length : DollarCost),
          links := top.links ++ row_links src dests bandwidth latency } := by
  induction dests generalizing top k0 with
  | nil => simp [forEach, row_links]
  | cons d ds ih =>
    by_cases hne : src.id ≠ d.id
    · have hlen : (row_links src (d :: ds) bandwidth latency).length
          = (row_links src ds bandwidth latency).length + 1 := by
        simp only [row_links, List.filter_cons, hne, decide_True, if_true, List.map_cons,
          List.length_cons, ne_eq, not_false_eq_true]
      rw [hlen] at hK
      rw [forEach_cons_ok _ _ _ top _
        (by
          rw [if_pos hne,
            Topology.connect_rounded_exact rnd hfour top src d bandwidth latency false hb hl
              K k0 hmul hc (by simp only [Bool.false_eq_true, if_false]; omega)]
          exact Topology.connect_eq top src d bandwidth latency false hb hl)]
      refine (ih _ (k0 + 1) ?_ ?_).trans ?_
      · show top.topology_cost + (if false = true then 2 * (4 * bandwidth) else 4 * bandwidth)
          = 4 * bandwidth * ((k0 + 1 : Nat) : ℚ)
        rw [hc]
        push_cast
        ring
      · omega
      · simp only [row_links, List.filter_cons, hne, decide_True, if_true, List.map_cons,
          List.length_cons, Bool.false_eq_true, if_false, List.append_assoc,
          List.singleton_append, Nat.cast_add, Nat.cast_one, ne_eq, not_false_eq_true]
        congr 2
        ring
    · have hrow : row_links src (d :: ds) bandwidth latency
          = row_links src ds bandwidth latency := by
        simp only [row_links, List.filter_cons, hne, decide_False, Bool.false_eq_true,
          if_false]
      rw [hrow] at hK
      rw [forEach_cons_ok _ _ _ top top (by rw [if_neg hne]), ih top k0 hc hK, hrow]

/-- The outer loop of `FullyConnected::construct_connections` in rounded arithmetic, under
the same condition. -/
theorem FullyConnected.outer_loop_rounded (rnd : ℚ → ℚ) (hfour : rnd 4 = 4)
    (bandwidth : Bandwidth) (latency : Latency) (hb : 0 < bandwidth) (hl : 0 ≤ latency)
    (K : Nat)
    (hmul : ∀ k : Nat, k ≤ K → rnd (4 * bandwidth * (k : ℚ)) = 4 * bandwidth * (k : ℚ))
    (srcs : List Device) (top : Topology) (k0 : Nat)
    (hc : top.topology_cost = 4 * bandwidth * (k0 : ℚ))
    (hK : k0 + (pair_links srcs top.devices bandwidth latency).length ≤ K) :
    forEach srcs
        (fun (top : Topology) (src : Device) =>
          forEach top.devices
            (fun (top : Topology) (dest : Device) =>
              if src.id ≠ dest.id then
                top.connect_rounded rnd src dest bandwidth latency false
              else .ok top)
            top)
        top
      = .ok { top with
          topology_cost := top.topology_cost
            + 4 * bandwidth
              * ((pair_links srcs top.devices bandwidth latency).length : DollarCost),
          links := top.links ++ pair_links srcs top.devices bandwidth latency } := by
  induction srcs generalizing top k0 with
  | nil => simp [forEach, pair_links]
  | cons s ss ih =>
    have hlen : (pair_links (s :: ss) top.devices bandwidth latency).length
        = (row_links s top.devices bandwidth latency).length
          + (pair_links ss top.devices bandwidth latency).length := by
      simp only [pair_links, List.flatMap_cons, List.length_append]
    rw [hlen] at hK
    rw [forEach_cons_ok _ _ _ top _
      (FullyConnected.inner_loop_rounded rnd hfour s bandwidth latency hb hl K hmul
        top.devices top k0 hc (by omega))]
    refine (ih _ (k0 + (row_links s top.devices bandwidth latency).length) ?_ ?_).trans ?_
    · show top.topology_cost
          + 4 * bandwidth * ((row_links s top.devices bandwidth latency).length : DollarCost)
        = 4 * bandwidth
            * ((k0 + (row_links s top.devices bandwidth latency).length : Nat) : ℚ)
      rw [hc]
      push_cast
      ring
    · show k0 + (row_links s top.devices bandwidth latency).length
          + (pair_links ss top.devices bandwidth latency).length ≤ K
      omega
    · simp only [pair_links, List.flatMap_cons, List.length_append, Nat.cast_add,
        List.append_assoc]
      congr 2
      ring

/-- Where no rounding error occurs on the integers up to `4 * n * n` and on their products
with the bandwidth, the constructor `FullyConnected(n, bandwidth, latency)` builds in
rounded arithmetic what it builds in exact arithmetic. -/
theorem FullyConnected.fully_connected_new_rounded_eq (rnd : ℚ → ℚ) (npus_count : Int)
    (bandwidth : Bandwidth) (latency : Latency) (hn : 0 < npus_count) (hb : 0 < bandwidth)
    (hl : 0 ≤ latency) (hex : exact_upto rnd bandwidth (4 * npus_count * npus_count)) :
    FullyConnected.new_rounded rnd npus_count bandwidth latency
      = FullyConnected.new npus_count bandwidth latency := by
  have hfour : rnd 4 = 4 := by
    have h := (hex 4 (by omega) (by nlinarith)).1
    simpa using h
  have htn : ((npus_count.toNat : Int)) = npus_count := Int.toNat_of_nonneg (le_of_lt hn)
  have hmul := exact_upto_link_multiples rnd bandwidth (4 * npus_count * npus_count) hex
    (npus_count.toNat * (npus_count.toNat - 1))
    (by
      have h1 : 1 ≤ npus_count.toNat := by omega
      have e : ((npus_count.toNat * (npus_count.toNat - 1) : Nat) : Int)
          = npus_count * (npus_count - 1) := by
        rw [Nat.cast_mul, Nat.cast_sub h1, htn, Nat.cast_one]
      rw [e]
      nlinarith)
  rw [FullyConnected.fully_connected_new_eq npus_count bandwidth latency hn hb hl]
  unfold FullyConnected.new_rounded
  simp only [BasicTopology.basic_new_eq]
  rw [if_neg (not_not.mpr hn), if_neg (not_not.mpr hb), if_neg (not_not.mpr hl)]
  unfold FullyConnected.construct_connections_rounded
  simp only [FullyConnected.outer_loop_rounded rnd hfour bandwidth latency hb hl
    (npus_count.toNat * (npus_count.toNat - 1)) hmul (devices_upto npus_count.toNat)
    { topology_cost := 0, devices_count := npus_count, npus_count := npus_count,
      devices := devices_upto npus_count.toNat, links := [] } 0
    (by simp) (by simp [pair_links_upto_length])]
  simp only [zero_add, List.nil_append]

end NetworkAnalyticalCongestionAware

namespace NetworkAnalyticalCongestionAware

/-- The connection loop of `Switch::construct_connections` in rounded arithmetic, when the
cost before is the multiple `4 * bandwidth * k0` and no multiple up to the last one reached
is rounded. -/
theorem Switch.connect_loop_rounded (rnd : ℚ → ℚ) (hfour : rnd 4 = 4) (switch_device : Device)
    (bandwidth : Bandwidth) (latency : Latency) (hb : 0 < bandwidth) (hl : 0 ≤ latency)
    (K : Nat)
    (hmul : ∀ k : Nat, k ≤ K → rnd (4 * bandwidth * (k : ℚ)) = 4 * bandwidth * (k : ℚ))
    (k : Nat) (indices : List Nat) (hi : ∀ i ∈ indices, i < k) (top : Topology)
    (hd : top.devices = devices_upto k) (k0 : Nat)
    (hc : top.topology_cost = 4 * bandwidth * (k0 : ℚ))
    (hK : k0 + 2 * indices.length ≤ K) :
    forEach indices
        (fun (top : Topology) (i : Nat) =>
          match top.devices[i]? with
          | none => .error .outOfBounds
          | some npu => top.connect_rounded rnd npu switch_device bandwidth latency true)
        top
      = .ok { top with
          topology_cost := top.topology_cost
            + 2 * (4 * bandwidth) * (indices.length : DollarCost),
          links := top.links ++
            switch_links (indices.map fun (i : Nat) => Device.mk (i : Int)) switch_device
              bandwidth latency } := by
  induction indices generalizing top k0 with
  | nil => simp [forEach, switch_links]
  | cons i rest ih =>
    have hik : i < k := hi i (List.mem_cons_self i rest)
    have hrest : ∀ j ∈ rest, j < k := fun j hj => hi j (List.mem_cons_of_mem i hj)
    rw [List.length_cons] at hK
    rw [forEach_cons_ok _ _ _ top _
        (by
          simp only [hd, devices_upto_getElem? k i hik]
          rw [Topology.connect_rounded_exact rnd hfour top ⟨(i : Int)⟩ switch_device bandwidth
            latency true hb hl K k0 hmul hc (by simp only [if_true]; omega)]
          exact Topology.connect_eq top ⟨(i : Int)⟩ switch_device bandwidth latency true hb hl)]
    refine (ih hrest _ ?_ (k0 + 2) ?_ ?_).trans ?_
    · exact hd
    · show top.topology_cost + (if true = true then 2 * (4 * bandwidth) else 4 * bandwidth)
        = 4 * bandwidth * ((k0 + 2 : Nat) : ℚ)
      rw [hc, if_pos rfl]
      push_cast
      ring
    · omega
    · simp only [switch_links, List.map_cons, List.flatMap_cons, List.length_cons, if_true,
        List.append_assoc, List.cons_append, List.nil_append, Nat.cast_add, Nat.cast_one]
      congr 2
      ring

/-- Where no rounding error occurs on the integers up to `21 * n` and on their products
with the bandwidth, the constructor `Switch(n, bandwidth, latency)` builds in rounded
arithmetic what it builds in exact arithmetic. -/
theorem Switch.switch_new_rounded_eq (rnd : ℚ → ℚ) (npus_count : Int) (bandwidth : Bandwidth)
    (latency : Latency) (hn : 0 < npus_count) (hb : 0 < bandwidth) (hl : 0 ≤ latency)
    (hex : exact_upto rnd bandwidth (21 * npus_count)) :
    Switch.new_rounded rnd npus_count bandwidth latency
      = Switch.new npus_count bandwidth latency := by
  have hfour : rnd 4 = 4 := by
    have h := (hex 4 (by omega) (by omega)).1
    simpa using h
  have h13 : rnd 13 = 13 := by
    have h := (hex 13 (by omega) (by omega)).1
    simpa using h
  have hneg : rnd (-1) = -1 := by
    have h := (hex (-1) (by omega) (by omega)).1
    simpa using h
  have h13n : rnd (13 * (npus_count : DollarCost)) = 13 * (npus_count : DollarCost) := by
    have h := (hex (13 * npus_count) (by omega) (by omega)).1
    push_cast at h
    exact h
  have h13nb : rnd (13 * (npus_count : DollarCost) * bandwidth)
      = 13 * (npus_count : DollarCost) * bandwidth := by
    have h := (hex (13 * npus_count) (by omega) (by omega)).2
    have e : bandwidth * ((13 * npus_count : Int) : ℚ)
        = 13 * (npus_count : DollarCost) * bandwidth := by
      push_cast
      ring
    rw [e] at h
    exact h
  have hsum : rnd (2 * (4 * bandwidth) * (npus_count : DollarCost)
        + 13 * (npus_count : DollarCost) * bandwidth)
      = 2 * (4 * bandwidth) * (npus_count : DollarCost)
        + 13 * (npus_count : DollarCost) * bandwidth := by
    have h := (hex (21 * npus_count) (by omega) (by omega)).2
    have e : bandwidth * ((21 * npus_count : Int) : ℚ)
        = 2 * (4 * bandwidth) * (npus_count : DollarCost)
          + 13 * (npus_count : DollarCost) * bandwidth := by
      push_cast
      ring
    rw [e] at h
    exact h
  have htn : ((npus_count.toNat : Int)) = npus_count := Int.toNat_of_nonneg (le_of_lt hn)
  have hq : ((npus_count.toNat : DollarCost)) = (npus_count : DollarCost) := by
    calc ((npus_count.toNat : DollarCost))
        = (((npus_count.toNat : Int)) : DollarCost) := (Int.cast_natCast _).symm
      _ = (npus_count : DollarCost) := by rw [htn]
  have hmul := exact_upto_link_multiples rnd bandwidth (21 * npus_count) hex
    (2 * npus_count.toNat) (by push_cast; omega)
  have hsucc : (npus_count + 1).toNat = npus_count.toNat + 1 := by omega
  have hsw : (devices_upto (npus_count.toNat + 1))[npus_count.toNat]?
      = some ⟨npus_count⟩ := by
    rw [devices_upto_getElem? _ _ (Nat.lt_succ_self _), htn]
  have hswitch : CostModel.get_switch_cost 1 1 = .ok 13 := rfl
  have hnic : CostModel.get_nic_cost 1 1 = .ok (-1) := rfl
  rw [Switch.switch_new_eq npus_count bandwidth latency hn hb hl]
  unfold Switch.new_rounded
  simp only [BasicTopology.basic_new_eq, hsucc]
  rw [if_neg (not_not.mpr hn), if_neg (not_not.mpr hb), if_neg (not_not.mpr hl)]
  simp only [hsw]
  unfold Switch.construct_connections_rounded
  rw [Switch.connect_loop_rounded rnd hfour ⟨npus_count⟩ bandwidth latency hb hl
    (2 * npus_count.toNat) hmul (npus_count.toNat + 1)
    (List.range npus_count.toNat)
    (fun i hi => Nat.lt_succ_of_lt (List.mem_range.mp hi))
    { topology_cost := 0, devices_count := npus_count + 1, npus_count := npus_count,
      devices := devices_upto (npus_count.toNat + 1), links := [] } rfl 0 (by simp)
    (by simp)]
  simp only [hswitch, hnic, h13, hneg]
  rw [if_neg (by norm_num), if_neg (by norm_num)]
  simp only [zero_add, List.nil_append, List.length_range, hq, devices_upto, h13n, h13nb,
    hsum]

end NetworkAnalyticalCongestionAware

/-! ## Topology::connect in double arithmetic -/

namespace NetworkAnalyticalCongestionAware

/-- C6, counterexample in binary64 arithmetic: on the registry of `Switch(3)` three
bidirectional connects of bandwidth `0.1` (the double `3602879701896397 / 2 ^ 55`) to device
3 succeed one after the other. Before the third, `topology_cost` is the double `1.6`
(`3602879701896397 / 2 ^ 51`); after it, it is the double `2.4`
(`5404319552844595 / 2 ^ 51`), the result of adding the link cost `0.4` twice. The claimed
value, `1.6` plus `2 * 4.0 * 0.1`, is the double `2.4000000000000004`
(`1351079888211149 / 2 ^ 49`) when computed in doubles, and is no double at all when
computed exactly; the cost after the third connect is neither. -/
theorem Topology.connect_rounded_third_connect :
    ∃ t1 t2 t3 : Topology,
      Topology.connect_rounded Binary64.round ⟨0, 4, 3, [⟨0⟩, ⟨1⟩, ⟨2⟩, ⟨3⟩], []⟩ ⟨0⟩ ⟨3⟩
          (Binary64.round (1 / 10)) 0 true = .ok t1 ∧
      Topology.connect_rounded Binary64.round t1 ⟨1⟩ ⟨3⟩ (Binary64.round (1 / 10)) 0 true
        = .ok t2 ∧
      Topology.connect_rounded Binary64.round t2 ⟨2⟩ ⟨3⟩ (Binary64.round (1 / 10)) 0 true
        = .ok t3 ∧
      Binary64.round (1 / 10) = 3602879701896397 / 36028797018963968 ∧
      t2.topology_cost = 3602879701896397 / 2251799813685248 ∧
      t3.topology_cost = 5404319552844595 / 2251799813685248 ∧
      Binary64.round (t2.topology_cost
          + Binary64.round (Binary64.round (2 * 4) * Binary64.round (1 / 10)))
        = 1351079888211149 / 562949953421312 ∧
      t3.topology_cost
        ≠ Binary64.round (t2.topology_cost
            + Binary64.round (Binary64.round (2 * 4) * Binary64.round (1 / 10))) ∧
      t3.topology_cost ≠ t2.topology_cost + 2 * 4 * Binary64.round (1 / 10) :=
  have hfour : Binary64.round 4 = 4 := by decide!
  have hb : (0 : ℚ) < Binary64.round (1 / 10) := by decide!
  ⟨_, _, _,
    Topology.connect_rounded_eq Binary64.round hfour _ ⟨0⟩ ⟨3⟩ _ 0 true hb (le_refl _),
    Topology.connect_rounded_eq Binary64.round hfour _ ⟨1⟩ ⟨3⟩ _ 0 true hb (le_refl _),
    Topology.connect_rounded_eq Binary64.round hfour _ ⟨2⟩ ⟨3⟩ _ 0 true hb (le_refl _),
    by decide!, by decide!, by decide!, by decide!, by decide!, by decide!⟩

/-- C6, amended: a call `Topology::connect(src, dest, bandwidth, latency, bidirectional)`
with `bandwidth > 0` and `latency >= 0` succeeds, whatever the rounding `rnd` of the
arithmetic (which leaves the literal `4.0` as it is); `get_link_cost(1, 1)` is 4; the link
cost is the rounded product `rnd (4 * bandwidth)`; `topology_cost` afterwards is the rounded
sum of `topology_cost` before and the link cost when `bidirectional` is false, and the
rounded sum of that value and the link cost once more when it is true; the links requested
are exactly `src -> dest` in the first case and `src -> dest` followed by `dest -> src` in
the second; nothing else changes. -/
theorem Topology.connect_rounded_cost_and_links (rnd : ℚ → ℚ) (hfour : rnd 4 = 4)
    (t : Topology) (src dest : Device) (bandwidth : Bandwidth) (latency : Latency)
    (bidirectional : Bool) (hb : 0 < bandwidth) (hl : 0 ≤ latency) :
    CostModel.get_link_cost 1 1 = .ok 4 ∧
    ∃ t' : Topology,
      t.connect_rounded rnd src dest bandwidth latency bidirectional = .ok t' ∧
      t'.topology_cost
        = (if bidirectional then
            rnd (rnd (t.topology_cost + rnd (4 * bandwidth)) + rnd (4 * bandwidth))
          else rnd (t.topology_cost + rnd (4 * bandwidth))) ∧
      t'.links = t.links ++
        (if bidirectional then
          [⟨src.id, dest.id, bandwidth, latency⟩, ⟨dest.id, src.id, bandwidth, latency⟩]
        else [⟨src.id, dest.id, bandwidth, latency⟩]) ∧
      t'.devices = t.devices ∧ t'.npus_count = t.npus_count ∧
      t'.devices_count = t.devices_count :=
  ⟨rfl, _,
    Topology.connect_rounded_eq rnd hfour t src dest bandwidth latency bidirectional hb hl,
    rfl, rfl, rfl, rfl, rfl⟩

/-- C6 amended, in binary64 arithmetic at a bidirectional connect of devices 2 and 3 with
bandwidth `0.1` and latency 0 on a topology whose cost is the double `1.6`. -/
theorem Topology.connect_rounded_cost_and_links_witness :
    (Binary64.round 4 = 4 ∧ (0 : Bandwidth) < Binary64.round (1 / 10) ∧ (0 : Latency) ≤ 0) ∧
    CostModel.get_link_cost 1 1 = .ok 4 ∧
    ∃ t' : Topology,
      Topology.connect_rounded Binary64.round
          ⟨Binary64.round (8 / 5), 4, 3, [⟨0⟩, ⟨1⟩, ⟨2⟩, ⟨3⟩], []⟩ ⟨2⟩ ⟨3⟩
          (Binary64.round (1 / 10)) 0 true = .ok t' ∧
      t'.topology_cost
        = (if true = true then
            Binary64.round (Binary64.round (Binary64.round (8 / 5)
                + Binary64.round (4 * Binary64.round (1 / 10)))
              + Binary64.round (4 * Binary64.round (1 / 10)))
          else Binary64.round (Binary64.round (8 / 5)
            + Binary64.round (4 * Binary64.round (1 / 10)))) ∧
      t'.links = [] ++
        (if true = true then
          [⟨2, 3, Binary64.round (1 / 10), 0⟩, ⟨3, 2, Binary64.round (1 / 10), 0⟩]
        else [⟨2, 3, Binary64.round (1 / 10), 0⟩]) ∧
      t'.devices = [⟨0⟩, ⟨1⟩, ⟨2⟩, ⟨3⟩] ∧ t'.npus_count = 3 ∧ t'.devices_count = 4 :=
  ⟨⟨by decide!, by decide!, le_refl _⟩,
    Topology.connect_rounded_cost_and_links Binary64.round (by decide!)
      ⟨Binary64.round (8 / 5), 4, 3, [⟨0⟩, ⟨1⟩, ⟨2⟩, ⟨3⟩], []⟩ ⟨2⟩ ⟨3⟩
      (Binary64.round (1 / 10)) 0 true (by decide!) (le_refl _)⟩

end NetworkAnalyticalCongestionAware

/-! ## Accumulated cost and cost blocks -/

namespace NetworkAnalyticalCongestionAware

/-- A run that yields a value on which `f` gives `v`. -/
theorem except_ok_of_toOption_map {α β : Type} (x : Except Fault α) (f : α → β) (v : β)
    (h : x.toOption.map f = some v) : ∃ a : α, x = .ok a ∧ f a = v := by
  cases x with
  | error e => simp [Except.toOption] at h
  | ok a =>
    simp only [Except.toOption, Option.map_some', Option.some.injEq] at h
    exact ⟨a, rfl, h⟩

/-- A rounding that is exact up to a bound is exact up to every smaller bound. -/
theorem exact_upto_mono (rnd : ℚ → ℚ) (unit : ℚ) (bound bound' : Int) (h : bound' ≤ bound)
    (hex : exact_upto rnd unit bound) : exact_upto rnd unit bound' :=
  fun z h1 h2 => hex z h1 (le_trans h2 h)

/-- Binary64 arithmetic incurs no rounding error on the integers `-1 .. 48` and on their
products with 10. -/
theorem Binary64.exact_upto_ten : exact_upto Binary64.round 10 48 := by
  intro z h1 h2
  interval_cases z <;> decide!

/-- The block of a `FullyConnected` with `1 <= n <= 46341` NPUs at dimension 1 of 1 in
rounded arithmetic, where no rounding error occurs on the integers up to `4 * n * n` and on
their products with the bandwidth. -/
theorem FullyConnected.fully_connected_block_rounded_exact (rnd : ℚ → ℚ)
    (t : FullyConnected) (h1 : 1 ≤ t.npus_count) (h2 : t.npus_count ≤ 46341)
    (hex : exact_upto rnd t.bandwidth (4 * t.npus_count * t.npus_count)) :
    t.get_topology_cost_block_rounded rnd 1 1
      = .ok (4 * t.bandwidth * (t.npus_count : DollarCost)
          * ((t.npus_count : DollarCost) - 1)) := by
  have hfour : rnd 4 = 4 := by
    have h := (hex 4 (by omega) (by nlinarith)).1
    simpa using h
  have hx : rnd (4 * t.bandwidth) = 4 * t.bandwidth := by
    have h := (hex 4 (by omega) (by nlinarith)).2
    have e : t.bandwidth * ((4 : Int) : ℚ) = 4 * t.bandwidth := by
      push_cast
      ring
    rw [e] at h
    exact h
  have hall : rnd (4 * t.bandwidth * ((t.npus_count * (t.npus_count - 1) : Int) : ℚ))
      = 4 * t.bandwidth * (t.npus_count : DollarCost) * ((t.npus_count : DollarCost) - 1) := by
    have h := (hex (4 * (t.npus_count * (t.npus_count - 1))) (by nlinarith) (by nlinarith)).2
    have e : t.bandwidth * ((4 * (t.npus_count * (t.npus_count - 1)) : Int) : ℚ)
        = 4 * t.bandwidth * ((t.npus_count * (t.npus_count - 1) : Int) : ℚ) := by
      push_cast
      ring
    rw [e] at h
    rw [h]
    push_cast
    ring
  simp only [FullyConnected.get_topology_cost_block_rounded, CostModel.get_link_cost_1_1,
    hfour, hx, links_count_fits t.npus_count h1 h2]
  rw [if_neg (by norm_num), hall]

/-- The block of a `Switch` with `n >= 1` NPUs at dimension 1 of 1 in rounded arithmetic,
where no rounding error occurs on the integers up to `21 * n` and on their products with
the bandwidth. -/
theorem Switch.switch_block_rounded_exact (rnd : ℚ → ℚ) (t : Switch)
    (h1 : 1 ≤ t.npus_count) (hex : exact_upto rnd t.bandwidth (21 * t.npus_count)) :
    t.get_topology_cost_block_rounded rnd 1 1
      = .ok ((2 * (t.npus_count : DollarCost) * 4 + 13 * (t.npus_count : DollarCost))
          * t.bandwidth) := by
  have hswitch : CostModel.get_switch_cost 1 1 = .ok 13 := rfl
  have hnic : CostModel.get_nic_cost 1 1 = .ok (-1) := rfl
  have hfour : rnd 4 = 4 := by
    have h := (hex 4 (by omega) (by omega)).1
    simpa using h
  have h13 : rnd 13 = 13 := by
    have h := (hex 13 (by omega) (by omega)).1
    simpa using h
  have hneg : rnd (-1) = -1 := by
    have h := (hex (-1) (by omega) (by omega)).1
    simpa using h
  have hx : rnd (4 * t.bandwidth) = 4 * t.bandwidth := by
    have h := (hex 4 (by omega) (by omega)).2
    have e : t.bandwidth * ((4 : Int) : ℚ) = 4 * t.bandwidth := by
      push_cast
      ring
    rw [e] at h
    exact h
  have hlinks : rnd (4 * t.bandwidth * ((2 * t.npus_count : Int) : ℚ))
      = 4 * t.bandwidth * ((2 * t.npus_count : Int) : ℚ) := by
    have h := (hex (8 * t.npus_count) (by omega) (by omega)).2
    have e : t.bandwidth * ((8 * t.npus_count : Int) : ℚ)
        = 4 * t.bandwidth * ((2 * t.npus_count : Int) : ℚ) := by
      push_cast
      ring
    rw [e] at h
    exact h
  have h13n : rnd (13 * (t.npus_count : DollarCost)) = 13 * (t.npus_count : DollarCost) := by
    have h := (hex (13 * t.npus_count) (by omega) (by omega)).1
    push_cast at h
    exact h
  have h13nb : rnd (13 * (t.npus_count : DollarCost) * t.bandwidth)
      = 13 * (t.npus_count : DollarCost) * t.bandwidth := by
    have h := (hex (13 * t.npus_count) (by omega) (by omega)).2
    have e : t.bandwidth * ((13 * t.npus_count : Int) : ℚ)
        = 13 * (t.npus_count : DollarCost) * t.bandwidth := by
      push_cast
      ring
    rw [e] at h
    exact h
  have hsum : rnd (4 * t.bandwidth * ((2 * t.npus_count : Int) : ℚ)
        + 13 * (t.npus_count : DollarCost) * t.bandwidth)
      = (2 * (t.npus_count : DollarCost) * 4 + 13 * (t.npus_count : DollarCost))
          * t.bandwidth := by
    have h := (hex (21 * t.npus_count) (by omega) (by omega)).2
    have e : t.bandwidth * ((21 * t.npus_count : Int) : ℚ)
        = 4 * t.bandwidth * ((2 * t.npus_count : Int) : ℚ)
          + 13 * (t.npus_count : DollarCost) * t.bandwidth := by
      push_cast
      ring
    rw [e] at h
    rw [h]
    push_cast
    ring
  simp only [Switch.get_topology_cost_block_rounded, CostModel.get_link_cost_1_1, hswitch,
    hnic, hfour, h13, hneg, hx, hlinks, zero_add, h13n, h13nb, hsum]
  rw [if_neg (by norm_num), if_neg (by norm_num), if_neg (by norm_num)]

end NetworkAnalyticalCongestionAware

namespace NetworkAnalyticalCongestionAware

/-- C19, counterexample in binary64 arithmetic: `FullyConnected(3, 0.1, 0)`, with `0.1` the
double `3602879701896397 / 2 ^ 55`. The constructor completes; the cost accumulated by its
six connects is the double `2.4` (`5404319552844595 / 2 ^ 51`), while
`get_topology_cost_block(1, 1)` on the topology built returns the double
`2.4000000000000004` (`1351079888211149 / 2 ^ 49`). -/
theorem FullyConnected.rounded_accumulated_ne_block :
    ∃ t : FullyConnected,
      FullyConnected.new_rounded Binary64.round 3 (Binary64.round (1 / 10)) 0 = .ok t ∧
      t.topology_cost = 5404319552844595 / 2251799813685248 ∧
      t.get_topology_cost_block_rounded Binary64.round 1 1
        = .ok (1351079888211149 / 562949953421312) ∧
      (5404319552844595 / 2251799813685248 : DollarCost)
        ≠ 1351079888211149 / 562949953421312 := by
  obtain ⟨t, ht, hf⟩ := except_ok_of_toOption_map
    (FullyConnected.new_rounded Binary64.round 3 (Binary64.round (1 / 10)) 0)
    (fun t => (t.topology_cost, (t.get_topology_cost_block_rounded Binary64.round 1 1).toOption))
    (5404319552844595 / 2251799813685248, some (1351079888211149 / 562949953421312))
    (by decide!)
  exact ⟨t, ht, (Prod.mk.inj hf).1, except_ok_of_toOption _ _ (Prod.mk.inj hf).2,
    by norm_num⟩

/-- C19, amended: for `1 <= n <= 46341`, `b > 0` and a valid latency, and a rounding `rnd`
of the arithmetic that incurs no error on the integers up to `4 * n * n` and on their
products with `b` (exact arithmetic is one such, binary64 is one for suitable `b` and `n`),
the constructor `FullyConnected(n, b, l)` completes, the `topology_cost` it accumulated
through `Topology::connect` is `4 * b * n * (n - 1)`, and `get_topology_cost_block(1, 1)` on
the topology built returns that same value. -/
theorem FullyConnected.rounded_accumulated_eq_block (rnd : ℚ → ℚ) (n : Int)
    (bandwidth : Bandwidth) (latency : Latency) (hn : 1 ≤ n) (hmax : n ≤ 46341)
    (hb : 0 < bandwidth) (hl : 0 ≤ latency) (hex : exact_upto rnd bandwidth (4 * n * n)) :
    ∃ t : FullyConnected,
      FullyConnected.new_rounded rnd n bandwidth latency = .ok t ∧
      t.topology_cost = 4 * bandwidth * (n : DollarCost) * ((n : DollarCost) - 1) ∧
      t.get_topology_cost_block_rounded rnd 1 1 = .ok t.topology_cost := by
  have hpos : 0 < n := by omega
  have hcost : 4 * bandwidth
      * ((pair_links (devices_upto n.toNat) (devices_upto n.toNat) bandwidth latency).length
          : DollarCost)
      = 4 * bandwidth * (n : DollarCost) * ((n : DollarCost) - 1) := by
    rw [pair_links_upto_length_cast n hpos]
    ring
  refine ⟨_, (FullyConnected.fully_connected_new_rounded_eq rnd n bandwidth latency hpos hb hl hex).trans
    (FullyConnected.fully_connected_new_eq n bandwidth latency hpos hb hl), hcost, ?_⟩
  rw [FullyConnected.fully_connected_block_rounded_exact rnd _ hn hmax hex]
  exact congrArg Except.ok hcost.symm

/-- C19 amended, in binary64 arithmetic at `FullyConnected(3, 10, 1)`: accumulated cost and
block are both 240. -/
theorem FullyConnected.rounded_accumulated_eq_block_witness :
    ((1 : Int) ≤ 3 ∧ (3 : Int) ≤ 46341 ∧ (0 : Bandwidth) < 10 ∧ (0 : Latency) ≤ 1 ∧
      exact_upto Binary64.round 10 (4 * 3 * 3)) ∧
    ∃ t : FullyConnected,
      FullyConnected.new_rounded Binary64.round 3 10 1 = .ok t ∧
      t.topology_cost = 4 * 10 * ((3 : Int) : DollarCost) * (((3 : Int) : DollarCost) - 1) ∧
      t.get_topology_cost_block_rounded Binary64.round 1 1 = .ok t.topology_cost :=
  ⟨⟨by decide, by decide, by norm_num, by norm_num,
      exact_upto_mono _ _ 48 _ (by decide) Binary64.exact_upto_ten⟩,
    FullyConnected.rounded_accumulated_eq_block Binary64.round 3 10 1 (by decide) (by decide)
      (by norm_num) (by norm_num)
      (exact_upto_mono _ _ 48 _ (by decide) Binary64.exact_upto_ten)⟩

/-- C20, counterexample in binary64 arithmetic: `Switch(7, 0.3, 0)`, with `0.3` the double
`5404319552844595 / 2 ^ 54`. The constructor completes; the cost accumulated by its seven
bidirectional connects and the switch term is the double `44.099999999999994`
(`1551630809117491 / 2 ^ 45`), while `get_topology_cost_block(1, 1)` on the topology built
returns the double `44.1` (`6206523236469965 / 2 ^ 47`). -/
theorem Switch.rounded_switch_cost_ne_block :
    ∃ t : Switch,
      Switch.new_rounded Binary64.round 7 (Binary64.round (3 / 10)) 0 = .ok t ∧
      t.topology_cost = 1551630809117491 / 35184372088832 ∧
      t.get_topology_cost_block_rounded Binary64.round 1 1
        = .ok (6206523236469965 / 140737488355328) ∧
      (1551630809117491 / 35184372088832 : DollarCost)
        ≠ 6206523236469965 / 140737488355328 := by
  obtain ⟨t, ht, hf⟩ := except_ok_of_toOption_map
    (Switch.new_rounded Binary64.round 7 (Binary64.round (3 / 10)) 0)
    (fun t => (t.topology_cost, (t.get_topology_cost_block_rounded Binary64.round 1 1).toOption))
    (1551630809117491 / 35184372088832, some (6206523236469965 / 140737488355328))
    (by decide!)
  exact ⟨t, ht, (Prod.mk.inj hf).1, except_ok_of_toOption _ _ (Prod.mk.inj hf).2,
    by norm_num⟩

/-- C20, amended: for `n >= 1`, `b > 0` and a valid latency, and a rounding `rnd` of the
arithmetic that incurs no error on the integers up to `21 * n` and on their products with
`b` (exact arithmetic is one such, binary64 is one for suitable `b` and `n`), the
constructor `Switch(n, b, l)` completes, the `topology_cost` it accumulated (`2n` link
terms, the switch term, no NIC term because `get_nic_cost(1, 1)` is the sentinel `-1`) is
`(2n * 4 + 13 * n) * b`, and `get_topology_cost_block(1, 1)` on the topology built returns
that same value. -/
theorem Switch.rounded_switch_cost_eq_block (rnd : ℚ → ℚ) (n : Int) (bandwidth : Bandwidth)
    (latency : Latency) (hn : 1 ≤ n) (hb : 0 < bandwidth) (hl : 0 ≤ latency)
    (hex : exact_upto rnd bandwidth (21 * n)) :
    CostModel.get_nic_cost 1 1 = .ok (-1) ∧
    ∃ t : Switch,
      Switch.new_rounded rnd n bandwidth latency = .ok t ∧
      t.topology_cost = (2 * (n : DollarCost) * 4 + 13 * (n : DollarCost)) * bandwidth ∧
      t.get_topology_cost_block_rounded rnd 1 1 = .ok t.topology_cost := by
  have hpos : 0 < n := by omega
  have hcost : 2 * (4 * bandwidth) * (n : DollarCost) + 13 * (n : DollarCost) * bandwidth
      = (2 * (n : DollarCost) * 4 + 13 * (n : DollarCost)) * bandwidth := by
    ring
  refine ⟨rfl, _, (Switch.switch_new_rounded_eq rnd n bandwidth latency hpos hb hl hex).trans
    (Switch.switch_new_eq n bandwidth latency hpos hb hl), hcost, ?_⟩
  rw [Switch.switch_block_rounded_exact rnd _ hn hex]
  exact congrArg Except.ok hcost.symm

/-- C20 amended, in binary64 arithmetic at `Switch(2, 10, 1)`: accumulated cost and block
are both 420. -/
theorem Switch.rounded_switch_cost_eq_block_witness :
    ((1 : Int) ≤ 2 ∧ (0 : Bandwidth) < 10 ∧ (0 : Latency) ≤ 1 ∧
      exact_upto Binary64.round 10 (21 * 2)) ∧
    CostModel.get_nic_cost 1 1 = .ok (-1) ∧
    ∃ t : Switch,
      Switch.new_rounded Binary64.round 2 10 1 = .ok t ∧
      t.topology_cost = (2 * ((2 : Int) : DollarCost) * 4 + 13 * ((2 : Int) : DollarCost)) * 10 ∧
      t.get_topology_cost_block_rounded Binary64.round 1 1 = .ok t.topology_cost :=
  ⟨⟨by decide, by norm_num, by norm_num,
      exact_upto_mono _ _ 48 _ (by decide) Binary64.exact_upto_ten⟩,
    Switch.rounded_switch_cost_eq_block Binary64.round 2 10 1 (by decide) (by norm_num)
      (by norm_num) (exact_upto_mono _ _ 48 _ (by decide) Binary64.exact_upto_ten)⟩

end NetworkAnalyticalCongestionAware

/-! ## Binary64 rounding: monotone, and exact on the integers below 2 ^ 53 -/

namespace NetworkAnalyticalCongestionAware

namespace Binary64

/-- The function `pow2` is the power of two with an integer exponent. -/
theorem pow2_eq_zpow (e : Int) : pow2 e = (2 : ℚ) ^ e := by
  unfold pow2
  split_ifs with h
  · obtain ⟨n, rfl⟩ := Int.eq_ofNat_of_zero_le h
    simp
  · have h' : 0 ≤ -e := by omega
    obtain ⟨n, hn⟩ := Int.eq_ofNat_of_zero_le h'
    have he : e = -(n : Int) := by omega
    subst he
    simp

theorem pow2_pos (e : Int) : 0 < pow2 e := by
  rw [pow2_eq_zpow]
  positivity

theorem pow2_add (a b : Int) : pow2 (a + b) = pow2 a * pow2 b := by
  simp only [pow2_eq_zpow]
  exact zpow_add₀ (by norm_num) a b

theorem pow2_le_pow2 {a b : Int} (h : a ≤ b) : pow2 a ≤ pow2 b := by
  simp only [pow2_eq_zpow]
  exact zpow_le_zpow_right₀ (by norm_num) h

/-- With enough fuel `log2_fuel` brackets `n` between two successive powers of two. -/
theorem log2_fuel_spec (fuel n : Nat) (hf : n ≤ fuel) (hn : 1 ≤ n) :
    2 ^ log2_fuel fuel n ≤ n ∧ n < 2 ^ (log2_fuel fuel n + 1) := by
  induction fuel generalizing n with
  | zero => omega
  | succ fuel ih =>
    unfold log2_fuel
    split_ifs with h2
    · have := ih (n / 2) (by omega) (by omega)
      obtain ⟨h1, h3⟩ := this
      constructor
      · rw [pow_succ]; omega
      · rw [pow_succ]; omega
    · simp; omega

theorem log2_spec (n : Nat) (hn : 1 ≤ n) : 2 ^ log2 n ≤ n ∧ n < 2 ^ (log2 n + 1) :=
  log2_fuel_spec n n (le_refl _) hn


/-- The function `exponent` gives the binade of a positive rational:
`2 ^ exponent x ≤ x < 2 ^ (exponent x + 1)`. -/
theorem exponent_spec (x : ℚ) (hx : 0 < x) :
    pow2 (exponent x) ≤ x ∧ x < pow2 (exponent x + 1) := by
  have hnum : 0 < x.num := Rat.num_pos.mpr hx
  have hp1 : 1 ≤ x.num.natAbs := by omega
  have hq1 : 1 ≤ x.den := x.den_pos
  obtain ⟨hp_lo, hp_hi⟩ := log2_spec x.num.natAbs hp1
  obtain ⟨hq_lo, hq_hi⟩ := log2_spec x.den hq1
  have hxe : x = (x.num.natAbs : ℚ) / (x.den : ℚ) := by
    have h1 : ((x.num.natAbs : Int) : ℚ) = (x.num : ℚ) := by
      rw [Int.natAbs_of_nonneg (le_of_lt hnum)]
    rw [← Int.cast_natCast, h1]
    exact (Rat.num_div_den x).symm
  set p := x.num.natAbs with hp
  set q := x.den with hq
  set lp := log2 p with hlp
  set lq := log2 q with hlq
  have hqpos : (0 : ℚ) < (q : ℚ) := by exact_mod_cast hq1
  have hp_lo' : ((2 : ℚ) ^ lp) ≤ (p : ℚ) := by exact_mod_cast hp_lo
  have hp_hi' : (p : ℚ) < (2 : ℚ) ^ (lp + 1) := by exact_mod_cast hp_hi
  have hq_lo' : ((2 : ℚ) ^ lq) ≤ (q : ℚ) := by exact_mod_cast hq_lo
  have hq_hi' : (q : ℚ) < (2 : ℚ) ^ (lq + 1) := by exact_mod_cast hq_hi
  have h2lq : (0 : ℚ) < (2 : ℚ) ^ lq := by positivity
  have h2lp : (0 : ℚ) < (2 : ℚ) ^ lp := by positivity
  -- upper bound: x < 2 ^ (lp - lq + 1)
  have hup : x < pow2 ((lp : Int) - (lq : Int) + 1) := by
    rw [pow2_eq_zpow, hxe]
    have e : (2 : ℚ) ^ ((lp : Int) - (lq : Int) + 1) = (2 : ℚ) ^ (lp + 1) / (2 : ℚ) ^ lq := by
      rw [show ((lp : Int) - (lq : Int) + 1) = ((lp + 1 : Nat) : Int) - ((lq : Nat) : Int) by
        push_cast; ring]
      rw [zpow_sub₀ (by norm_num : (2 : ℚ) ≠ 0), zpow_natCast, zpow_natCast]
    rw [e, div_lt_div_iff₀ hqpos h2lq]
    calc (p : ℚ) * 2 ^ lq ≤ (p : ℚ) * q := by
          apply mul_le_mul_of_nonneg_left hq_lo'
          positivity
      _ < 2 ^ (lp + 1) * q := by
          apply mul_lt_mul_of_pos_right hp_hi' hqpos
  -- lower bound: 2 ^ (lp - lq - 1) ≤ x
  have hlo : pow2 ((lp : Int) - (lq : Int) - 1) ≤ x := by
    rw [pow2_eq_zpow, hxe]
    have e : (2 : ℚ) ^ ((lp : Int) - (lq : Int) - 1) = (2 : ℚ) ^ lp / (2 : ℚ) ^ (lq + 1) := by
      rw [show ((lp : Int) - (lq : Int) - 1) = ((lp : Nat) : Int) - ((lq + 1 : Nat) : Int) by
        push_cast; ring]
      rw [zpow_sub₀ (by norm_num : (2 : ℚ) ≠ 0), zpow_natCast, zpow_natCast]
    have h2lq1 : (0 : ℚ) < (2 : ℚ) ^ (lq + 1) := by positivity
    rw [e, div_le_div_iff₀ h2lq1 hqpos]
    calc (2 : ℚ) ^ lp * q ≤ (p : ℚ) * q := by
          apply mul_le_mul_of_nonneg_right hp_lo' (le_of_lt hqpos)
      _ ≤ (p : ℚ) * 2 ^ (lq + 1) := by
          apply mul_le_mul_of_nonneg_left (le_of_lt hq_hi')
          positivity
  unfold exponent
  simp only []
  rw [← hp, ← hq] 
  split_ifs with h
  · exact ⟨h, hup⟩
  · refine ⟨hlo, ?_⟩
    rw [show ((lp : Int) - (lq : Int) - 1 + 1) = (lp : Int) - (lq : Int) by ring]
    exact lt_of_not_le h


/-- An integer is its own nearest integer. -/
theorem round_half_even_intCast (N : Int) : round_half_even (N : ℚ) = N := by
  have hf : Rat.floor (N : ℚ) = N := by
    show ⌊(N : ℚ)⌋ = N
    exact Int.floor_intCast N
  unfold round_half_even
  simp only [hf, sub_self]
  norm_num

/-- The value of `round` on a positive rational. -/
theorem round_of_pos (x : ℚ) (hx : 0 < x) :
    round x = (round_half_even (x / pow2 (max (exponent x) (-1022) - 52)) : ℚ)
      * pow2 (max (exponent x) (-1022) - 52) := by
  unfold round
  rw [if_neg (ne_of_gt hx)]
  simp only [if_neg (not_lt.mpr (le_of_lt hx))]

/-- The function `round` is odd. -/
theorem round_of_neg (x : ℚ) (hx : x < 0) : round x = - round (-x) := by
  have hx' : 0 < -x := by linarith
  rw [round_of_pos (-x) hx']
  unfold round
  rw [if_neg (ne_of_lt hx)]
  simp only [if_pos hx]

theorem round_zero : round 0 = 0 := by
  unfold round
  rw [if_pos rfl]

/-- A positive integer below `2 ^ 53` is a binary64 value. -/
theorem round_natCast_of_lt (k : Nat) (h1 : 1 ≤ k) (h2 : k < 2 ^ 53) :
    round (k : ℚ) = (k : ℚ) := by
  have hx : (0 : ℚ) < (k : ℚ) := by exact_mod_cast h1
  obtain ⟨hlo, hhi⟩ := exponent_spec (k : ℚ) hx
  set e := exponent (k : ℚ) with he
  have he52 : e ≤ 52 := by
    by_contra hc
    have h53 : pow2 53 ≤ pow2 e := pow2_le_pow2 (by omega)
    have hk : (k : ℚ) < pow2 53 := by
      have h53' : pow2 53 = ((2 ^ 53 : Nat) : ℚ) := by
        rw [pow2_eq_zpow]
        norm_num
      rw [h53']
      exact_mod_cast h2
    linarith
  have he0 : 0 ≤ e := by
    by_contra hc
    have h0 : pow2 (e + 1) ≤ pow2 0 := pow2_le_pow2 (by omega)
    have h1' : pow2 0 = 1 := by rw [pow2_eq_zpow]; simp
    have hk : (1 : ℚ) ≤ (k : ℚ) := by exact_mod_cast h1
    linarith
  have hmax : max e (-1022) = e := max_eq_left (by omega)
  rw [round_of_pos _ hx, ← he, hmax]
  obtain ⟨d, hd⟩ := Int.eq_ofNat_of_zero_le (show (0 : Int) ≤ 52 - e by omega)
  have hu : pow2 (e - 52) * ((2 ^ d : Nat) : ℚ) = 1 := by
    have h := pow2_add (e - 52) (d : Int)
    rw [show e - 52 + (d : Int) = 0 by omega] at h
    have h0 : pow2 0 = 1 := by rw [pow2_eq_zpow]; simp
    have hd' : pow2 (d : Int) = ((2 ^ d : Nat) : ℚ) := by
      rw [pow2_eq_zpow]
      simp
    rw [h0, hd'] at h
    exact h.symm
  have hupos := pow2_pos (e - 52)
  have hm : (k : ℚ) / pow2 (e - 52) = (((k * 2 ^ d : Nat) : Int) : ℚ) := by
    rw [div_eq_iff (ne_of_gt hupos)]
    push_cast
    push_cast at hu
    rw [mul_assoc, mul_comm ((2 : ℚ) ^ d) (pow2 (e - 52)), hu, mul_one]
  rw [hm, round_half_even_intCast]
  push_cast
  push_cast at hu
  rw [mul_assoc, mul_comm ((2 : ℚ) ^ d) (pow2 (e - 52)), hu, mul_one]

/-- An integer of magnitude below `2 ^ 53` is a binary64 value. -/
theorem round_intCast_of_lt (z : Int) (h1 : -(2 ^ 53) < z) (h2 : z < 2 ^ 53) :
    round (z : ℚ) = (z : ℚ) := by
  rcases lt_trichotomy z 0 with hz | hz | hz
  · have hq : ((z : ℚ)) < 0 := by exact_mod_cast hz
    rw [round_of_neg _ hq]
    have hk : (-(z : ℚ)) = ((z.natAbs : Nat) : ℚ) := by
      have : ((z.natAbs : Nat) : Int) = -z := by omega
      rw [← Int.cast_natCast, this]
      push_cast
      ring
    rw [hk, round_natCast_of_lt z.natAbs (by omega) (by omega), ← hk]
    ring
  · rw [hz]
    simp [round_zero]
  · have hk : ((z : ℚ)) = ((z.natAbs : Nat) : ℚ) := by
      have : ((z.natAbs : Nat) : Int) = z := by omega
      rw [← Int.cast_natCast, this]
    rw [hk, round_natCast_of_lt z.natAbs (by omega) (by omega)]

end Binary64

/-- Binary64 arithmetic incurs no rounding error on the integers `-1 .. bound` and on their
products with an integer `unit >= 1`, as long as `unit * bound` is below `2 ^ 53`. -/
theorem Binary64.exact_upto_of_int (unit : Nat) (bound : Int) (hunit : 1 ≤ unit)
    (hbound : 1 ≤ bound) (h : (unit : Int) * bound < 2 ^ 53) :
    exact_upto Binary64.round (unit : ℚ) bound := by
  intro z h1 h2
  have hu : (1 : Int) ≤ (unit : Int) := by exact_mod_cast hunit
  have hbK : bound ≤ (unit : Int) * bound := by nlinarith
  have hz : (unit : Int) * z ≤ (unit : Int) * bound := by nlinarith
  have hzlo : -(unit : Int) ≤ (unit : Int) * z := by nlinarith
  have hulo : (unit : Int) ≤ (unit : Int) * bound := by nlinarith
  constructor
  · exact Binary64.round_intCast_of_lt z (by omega) (by omega)
  · have e : (unit : ℚ) * (z : ℚ) = (((unit : Int) * z : Int) : ℚ) := by
      push_cast
      ring
    rw [e]
    exact Binary64.round_intCast_of_lt _ (by omega) (by omega)

end NetworkAnalyticalCongestionAware

/-! ## Growth of the accumulated cost -/

namespace NetworkAnalyticalCongestionAware

end NetworkAnalyticalCongestionAware
